import Mathlib

/-!
# The delegate endpoints of the go-tezos RPC client

A shallow embedding of `rpc/delegate.go`: the `FrozenBalance` numeric-string
codec, the input validation of the staking balance / baking rights /
endorsing rights endpoints, the query option encoders and the cycle
resolver `extractBlockHash`.

Conventions of the embedding.

* A Go `string` or `[]byte` is a Lean `String`: the sequence of code points
  of a well-formed UTF-8 text.
* A Go `int` is a 64-bit signed integer, embedded as an `Int`; the range
  `[-2^63, 2^63-1]` is stated where a result depends on it.
* A Go function returning `(T, error)` returns a pair `T × Option GoError`,
  `none` standing for the `nil` error.
* The remote node is reached through `Client.Cycle` and `Client.get` only.
  Both append the call they make to a trace, so that "no request is issued"
  is the statement that the trace is unchanged.
-/

namespace GoTezos

/-! ## Errors -/

/-- The two causes a `*strconv.NumError` can carry. -/
inductive NumErr where
  | ErrSyn
  | ErrRange
deriving DecidableEq, Repr

/-- The Go errors that flow through `delegate.go`. -/
inductive GoError where
  /-- `errors.New(msg)` -/
  | New (msg : String)
  /-- `errors.Wrap(cause, msg)` and `errors.Wrapf(cause, format, ...)` -/
  | Wrap (cause : GoError) (msg : String)
  /-- `validator.ValidationErrors`: the fields of `strct` failing `required` -/
  | FieldErrors (strct : String) (fields : List String)
  /-- `*strconv.NumError` -/
  | NumError (fn : String) (num : String) (err : NumErr)
  /-- `*json.SyntaxError` -/
  | SyntaxError (msg : String)
  /-- `*json.UnmarshalTypeError`: JSON `value` met where Go type `goType` is expected -/
  | UnmarshalTypeError (value : String) (goType : String) (field : String)
  /-- an error handed back by the transport or by the cycle descriptor fetch -/
  | Remote (msg : String)
deriving DecidableEq, Repr

/-- A hexadecimal digit in lower case. -/
def hexDigit (n : Nat) : Char := if n < 10 then Char.ofNat (48 + n) else Char.ofNat (87 + n)

/-- `strconv.IsPrint`. Up to U+00FF it is the rule of the library: the ASCII
characters from the space to `~`, and the characters from U+00A1 on but
the soft hyphen U+00AD. From U+0100 on the library consults the tables of
Unicode; here every such code point counts as printable. -/
def IsPrint (r : Char) : Bool :=
  if r.toNat ≤ 255 then
    (decide (32 ≤ r.toNat) && decide (r.toNat ≤ 126)) ||
      (decide (161 ≤ r.toNat) && decide (r.toNat ≠ 173))
  else true

/-- `appendEscapedRune` of `strconv`, as `Quote` calls it: the quote
character and the backslash are backslashed, a printable code point is
kept, and any other is written as an escape sequence. -/
def appendEscapedRune (r : Char) (quote : Char) : List Char :=
  if r = quote ∨ r = '\\' then ['\\', r]
  else if IsPrint r then [r]
  else if r.toNat = 7 then ['\\', 'a']
  else if r.toNat = 8 then ['\\', 'b']
  else if r.toNat = 12 then ['\\', 'f']
  else if r.toNat = 10 then ['\\', 'n']
  else if r.toNat = 13 then ['\\', 'r']
  else if r.toNat = 9 then ['\\', 't']
  else if r.toNat = 11 then ['\\', 'v']
  else if r.toNat < 32 ∨ r.toNat = 127 then
    ['\\', 'x', hexDigit (r.toNat / 16), hexDigit (r.toNat % 16)]
  else if r.toNat < 65536 then
    ['\\', 'u', hexDigit (r.toNat / 4096 % 16), hexDigit (r.toNat / 256 % 16),
      hexDigit (r.toNat / 16 % 16), hexDigit (r.toNat % 16)]
  else
    ['\\', 'U', hexDigit (r.toNat / 268435456 % 16), hexDigit (r.toNat / 16777216 % 16),
      hexDigit (r.toNat / 1048576 % 16), hexDigit (r.toNat / 65536 % 16),
      hexDigit (r.toNat / 4096 % 16), hexDigit (r.toNat / 256 % 16),
      hexDigit (r.toNat / 16 % 16), hexDigit (r.toNat % 16)]

/-- `strconv.Quote`: the string between double quotes, each code point as
`appendEscapedRune` writes it. -/
def Quote (s : String) : String :=
  String.mk ('"' :: (s.data.flatMap fun c => appendEscapedRune c '"') ++ ['"'])

/-- Message of one `validator.FieldError` of the `required` tag. -/
def fieldErrorText (strct : String) (field : String) : String :=
  "Key: '" ++ strct ++ "." ++ field ++ "' Error:Field validation for '" ++ field ++
    "' failed on the 'required' tag"

/-- The `Error()` method. -/
def GoError.Error : GoError → String
  | .New msg => msg
  | .Wrap cause msg => msg ++ ": " ++ cause.Error
  | .FieldErrors strct fields => "\n".intercalate (fields.map (fieldErrorText strct))
  | .NumError fn num .ErrSyn => "strconv." ++ fn ++ ": parsing " ++ Quote num ++ ": invalid syntax"
  | .NumError fn num .ErrRange =>
    "strconv." ++ fn ++ ": parsing " ++ Quote num ++ ": value out of range"
  | .SyntaxError msg => msg
  | .UnmarshalTypeError value goType field =>
    if field = "" then "json: cannot unmarshal " ++ value ++ " into Go value of type " ++ goType
    else "json: cannot unmarshal " ++ value ++ " into Go struct field " ++ field ++
      " of type " ++ goType
  | .Remote msg => msg

/-- The error directly wrapped by `e`, if `e` was made by `errors.Wrap`. -/
def GoError.Unwrap : GoError → Option GoError
  | .Wrap cause _ => some cause
  | _ => none

/-! ## strconv -/

/-- The ASCII digit of `d < 10`. -/
def digitChar (d : Nat) : Char := Char.ofNat (48 + d)

/-- The digit loop of `strconv.formatBits` in base 10: the digits of `u` are
put in front of `acc`, least significant first. `fuel` bounds the number of
digits. -/
def formatBits : Nat → Nat → List Char → List Char
  | 0, _, acc => acc
  | fuel + 1, u, acc =>
    if u < 10 then digitChar u :: acc
    else formatBits fuel (u / 10) (digitChar (u % 10) :: acc)

/-- Base-10 digits of a natural number; `u + 1` steps are more than it has digits. -/
def FormatUint (u : Nat) : List Char := formatBits (u + 1) u []

/-- `strconv.Itoa`. -/
def Itoa (i : Int) : String :=
  if i < 0 then String.mk ('-' :: FormatUint i.natAbs) else String.mk (FormatUint i.natAbs)

/-- Largest `uint64`. -/
def maxUint64 : Nat := 18446744073709551615

/-- Whether `c` is one of `'0'` .. `'9'`. -/
def isDigit (c : Char) : Bool := decide (48 ≤ c.toNat) && decide (c.toNat ≤ 57)

/-- The loop of `strconv.ParseUint(s, 10, 64)`: `n` is the value read so far.
A character that is no digit ends it with `(0, ErrSyntax)`, a value that
leaves 64 bits ends it with `(maxUint64, ErrRange)`. -/
def parseUintLoop : List Char → Nat → Nat × Option NumErr
  | [], n => (n, none)
  | c :: cs, n =>
    if isDigit c then
      if n ≥ maxUint64 / 10 + 1 then (maxUint64, some .ErrRange)
      else if n * 10 + (c.toNat - 48) > maxUint64 then (maxUint64, some .ErrRange)
      else parseUintLoop cs (n * 10 + (c.toNat - 48))
    else (0, some .ErrSyn)

/-- `strconv.ParseUint(s, 10, 64)`. -/
def ParseUint (s : List Char) : Nat × Option NumErr :=
  if s = [] then (0, some .ErrSyn) else parseUintLoop s 0

/-- `strconv.ParseInt(s, 10, 0)` on a 64-bit platform: an optional sign, then
`ParseUint`; out of range values are clamped and reported as `ErrRange`. -/
def ParseInt (s : List Char) : Int × Option NumErr :=
  match s with
  | [] => (0, some .ErrSyn)
  | c :: rest =>
    let neg := decide (c = '-')
    let body := if c = '+' ∨ c = '-' then rest else s
    match ParseUint body with
    | (_, some .ErrSyn) => (0, some .ErrSyn)
    | (un, _) =>
      if !neg && decide (un ≥ 2 ^ 63) then (2 ^ 63 - 1, some .ErrRange)
      else if neg && decide (un > 2 ^ 63) then (-(2 ^ 63), some .ErrRange)
      else (if neg then -(un : Int) else (un : Int), none)

/-- `strconv.Atoi`: `ParseInt(s, 10, 0)` with the error attributed to `Atoi`
(the fast path Go takes for short inputs computes the same result). -/
def Atoi (s : String) : Int × Option GoError :=
  match ParseInt s.data with
  | (v, none) => (v, none)
  | (v, some k) => (v, some (.NumError "Atoi" s k))

/-! ## Input types and validation -/

/-- `validator.New().Struct(s)` for a struct whose tagged fields all carry
`validate:"required"`: `fields` lists each tagged field with whether it holds
the zero value of its type. -/
def validateStruct (strct : String) (fields : List (String × Bool)) : Option GoError :=
  match (fields.filter fun p => p.2).map Prod.fst with
  | [] => none
  | failing => some (.FieldErrors strct failing)

/-- The value of the frozen balance RPC. -/
structure FrozenBalance where
  Deposits : Int
  Fees : Int
  Rewards : Int
deriving DecidableEq, Repr

/-- Input of `Client.BakingRights`; `BlockHash` is tagged `required`. -/
structure BakingRightsInput where
  BlockHash : String
  Level : Int
  Cycle : Int
  Delegate : String
  MaxPriority : Int
deriving DecidableEq, Repr

/-- Input of `Client.EndorsingRights`; `BlockHash` is tagged `required`. -/
structure EndorsingRightsInput where
  BlockHash : String
  Level : Int
  Cycle : Int
  Delegate : String
deriving DecidableEq, Repr

/-- Input of `Client.StakingBalance`; `Delegate` is tagged `required`. -/
structure StakingBalanceInput where
  Blockhash : String
  Cycle : Int
  Delegate : String
deriving DecidableEq, Repr

/-- The struct validation of a `BakingRightsInput`. -/
def BakingRightsInput.validateStruct (b : BakingRightsInput) : Option GoError :=
  GoTezos.validateStruct "BakingRightsInput" [("BlockHash", b.BlockHash == "")]

/-- The struct validation of an `EndorsingRightsInput`. -/
def EndorsingRightsInput.validateStruct (b : EndorsingRightsInput) : Option GoError :=
  GoTezos.validateStruct "EndorsingRightsInput" [("BlockHash", b.BlockHash == "")]

/-- `StakingBalanceInput.validate`. -/
def StakingBalanceInput.validate (s : StakingBalanceInput) : Option GoError :=
  if s.Blockhash = "" ∧ s.Cycle = 0 then
    some (.New "invalid input: missing key cycle or blockhash")
  else if s.Blockhash ≠ "" ∧ s.Cycle ≠ 0 then
    some (.New "invalid input: cannot have both cycle and blockhash")
  else
    match GoTezos.validateStruct "StakingBalanceInput" [("Delegate", s.Delegate == "")] with
    | some err => some (.Wrap err "invalid input")
    | none => none

/-! ## encoding/json: the scanner

`json.Unmarshal` first runs its scanner over the whole payload. The scanner
is a push-down automaton that reads one character at a time; here the same
automaton also builds the value it recognises. -/

/-- A JSON value; a number keeps its literal text. -/
inductive JSON where
  | null
  | bool (b : Bool)
  | num (lit : String)
  | str (s : String)
  | arr (elems : List JSON)
  | obj (members : List (String × JSON))
deriving Repr

/-- An open array or object (`parseState` of the scanner), with what has
been read of it. An object with `key = some k` has read the name `k` and
waits for its colon or its value. -/
inductive Frame where
  | arr (elems : List JSON)
  | obj (members : List (String × JSON)) (key : Option String)
deriving Repr

/-- The step function the scanner is in. String states carry the decoded
text so far and a pending UTF-16 high surrogate, number states the literal
so far. -/
inductive Scan where
  | BeginValue
  | BeginValueOrEmpty
  | BeginStringOrEmpty
  | BeginString
  | EndValue
  | EndTop (v : JSON)
  | InString (acc : List Char) (hi : Option Nat)
  | InStringEsc (acc : List Char) (hi : Option Nat)
  | InStringEscU (acc : List Char) (hi : Option Nat) (hex : List Nat)
  | Neg (lit : List Char)
  | Zero (lit : List Char)
  | One (lit : List Char)
  | Dot (lit : List Char)
  | Dot0 (lit : List Char)
  | E (lit : List Char)
  | ESign (lit : List Char)
  | E0 (lit : List Char)
  | Lit (name : String) (rest : List Char) (v : JSON)
  | Error (msg : String)
deriving Repr

/-- Scanner state: the step function and the stack of open containers. -/
abbrev ScanState := Scan × List Frame

/-- `isSpace` of the scanner. -/
def isSpace (c : Char) : Bool := c == ' ' || c == '\t' || c == '\r' || c == '\n'

/-- The first byte of the UTF-8 encoding of a code point. The scanner of Go
steps through bytes, so the byte an error names for a code point outside
ASCII is this one. -/
def leadByte (c : Char) : Nat :=
  if c.toNat < 128 then c.toNat
  else if c.toNat < 2048 then 192 + c.toNat / 64
  else if c.toNat < 65536 then 224 + c.toNat / 4096
  else 240 + c.toNat / 262144

/-- `quoteChar` of the scanner, called with the byte at which the scan
stopped: the two quote characters are special cases, any other byte is
written as `strconv.Quote` writes the code point of that number, between
single quotes. -/
def quoteChar (c : Char) : String :=
  if c = '\'' then "'\\''" else if c = '"' then "'\"'"
  else String.mk ('\'' :: appendEscapedRune (Char.ofNat (leadByte c)) '"' ++ ['\''])

/-- `scanner.error`. -/
def scanError (c : Char) (context : String) (fs : List Frame) : ScanState :=
  (.Error ("invalid character " ++ quoteChar c ++ " " ++ context), fs)

/-- The nesting bound of the scanner. -/
def maxNestingDepth : Nat := 10000

/-- `pushParseState`: open a container, unless that nests too deep. -/
def pushParseState (f : Frame) (next : Scan) (fs : List Frame) : ScanState :=
  if (f :: fs).length ≤ maxNestingDepth then (next, f :: fs) else (.Error "exceeded max depth", fs)

/-- A complete value is handed to what encloses it: it is the top-level
value, the next element of an array, the name of an object member or the
value of the member whose name was read. -/
def deliver (v : JSON) : List Frame → ScanState
  | [] => (.EndTop v, [])
  | .arr elems :: fs => (.EndValue, .arr (elems ++ [v]) :: fs)
  | .obj ms (some k) :: fs => (.EndValue, .obj (ms ++ [(k, v)]) none :: fs)
  | .obj ms none :: fs =>
    match v with
    | .str k => (.EndValue, .obj ms (some k) :: fs)
    | _ => (.Error "object key is not a string", fs)

/-- `stateEndTop`: only space may follow the top-level value. -/
def stateEndTop (v : JSON) (c : Char) : ScanState :=
  if isSpace c then (.EndTop v, []) else scanError c "after top-level value" []

/-- `stateEndValue`: after a value, by the innermost open container. -/
def stateEndValue (c : Char) : List Frame → ScanState
  | [] => scanError c "" []
  | .obj ms (some k) :: fs =>
    if isSpace c then (.EndValue, .obj ms (some k) :: fs)
    else if c = ':' then (.BeginValue, .obj ms (some k) :: fs)
    else scanError c "after object key" (.obj ms (some k) :: fs)
  | .obj ms none :: fs =>
    if isSpace c then (.EndValue, .obj ms none :: fs)
    else if c = ',' then (.BeginString, .obj ms none :: fs)
    else if c = '}' then deliver (.obj ms) fs
    else scanError c "after object key:value pair" (.obj ms none :: fs)
  | .arr elems :: fs =>
    if isSpace c then (.EndValue, .arr elems :: fs)
    else if c = ',' then (.BeginValue, .arr elems :: fs)
    else if c = ']' then deliver (.arr elems) fs
    else scanError c "after array element" (.arr elems :: fs)

/-- The character `c` is read in the state a completed value left behind. -/
def afterValue (c : Char) : ScanState → ScanState
  | (.EndTop v, _) => stateEndTop v c
  | (.EndValue, fs) => stateEndValue c fs
  | st => st

/-- A number literal ends at `c`: the number is delivered, then `c` is read. -/
def endNumber (lit : List Char) (c : Char) (fs : List Frame) : ScanState :=
  afterValue c (deliver (.num (String.mk lit)) fs)

/-- `stateBeginValue`. -/
def stateBeginValue (c : Char) (fs : List Frame) : ScanState :=
  if isSpace c then (.BeginValue, fs)
  else if c = '{' then pushParseState (.obj [] none) .BeginStringOrEmpty fs
  else if c = '[' then pushParseState (.arr []) .BeginValueOrEmpty fs
  else if c = '"' then (.InString [] none, fs)
  else if c = '-' then (.Neg [c], fs)
  else if c = '0' then (.Zero [c], fs)
  else if c = 't' then (.Lit "true" ['r', 'u', 'e'] (.bool true), fs)
  else if c = 'f' then (.Lit "false" ['a', 'l', 's', 'e'] (.bool false), fs)
  else if c = 'n' then (.Lit "null" ['u', 'l', 'l'] .null, fs)
  else if isDigit c then (.One [c], fs)
  else scanError c "looking for beginning of value" fs

/-- `stateBeginString`. -/
def stateBeginString (c : Char) (fs : List Frame) : ScanState :=
  if isSpace c then (.BeginString, fs)
  else if c = '"' then (.InString [] none, fs)
  else scanError c "looking for beginning of object key string" fs

/-- Value of a hexadecimal digit. -/
def hexVal (c : Char) : Option Nat :=
  if isDigit c then some (c.toNat - 48)
  else if 97 ≤ c.toNat ∧ c.toNat ≤ 102 then some (c.toNat - 87)
  else if 65 ≤ c.toNat ∧ c.toNat ≤ 70 then some (c.toNat - 55)
  else none

/-- The replacement character U+FFFD. -/
def replacementChar : Char := Char.ofNat 65533

/-- The text read so far, a pending lone high surrogate being replaced. -/
def flushHi (acc : List Char) : Option Nat → List Char
  | none => acc
  | some _ => acc ++ [replacementChar]

/-- A `\uXXXX` escape of value `v` is complete (`unquote`): a high surrogate
waits for its low surrogate, a pair gives one code point, a lone surrogate
gives U+FFFD. -/
def endEscU (acc : List Char) (hi : Option Nat) (v : Nat) : Scan :=
  match hi with
  | some h =>
    if 56320 ≤ v ∧ v < 57344 then
      .InString (acc ++ [Char.ofNat (65536 + (h - 55296) * 1024 + (v - 56320))]) none
    else if 55296 ≤ v ∧ v < 56320 then .InString (acc ++ [replacementChar]) (some v)
    else .InString (acc ++ [replacementChar, Char.ofNat v]) none
  | none =>
    if 55296 ≤ v ∧ v < 56320 then .InString acc (some v)
    else if 56320 ≤ v ∧ v < 57344 then .InString (acc ++ [replacementChar]) none
    else .InString (acc ++ [Char.ofNat v]) none

/-- `stateInString`. -/
def stateInString (acc : List Char) (hi : Option Nat) (c : Char) (fs : List Frame) : ScanState :=
  if c = '"' then deliver (.str (String.mk (flushHi acc hi))) fs
  else if c = '\\' then (.InStringEsc acc hi, fs)
  else if c.toNat < 32 then scanError c "in string literal" fs
  else (.InString (flushHi acc hi ++ [c]) none, fs)

/-- `stateInStringEsc`. -/
def stateInStringEsc (acc : List Char) (hi : Option Nat) (c : Char) (fs : List Frame) :
    ScanState :=
  if c = 'u' then (.InStringEscU acc hi [], fs)
  else if c = '"' ∨ c = '\\' ∨ c = '/' then (.InString (flushHi acc hi ++ [c]) none, fs)
  else if c = 'b' then (.InString (flushHi acc hi ++ [Char.ofNat 8]) none, fs)
  else if c = 'f' then (.InString (flushHi acc hi ++ [Char.ofNat 12]) none, fs)
  else if c = 'n' then (.InString (flushHi acc hi ++ ['\n']) none, fs)
  else if c = 'r' then (.InString (flushHi acc hi ++ ['\r']) none, fs)
  else if c = 't' then (.InString (flushHi acc hi ++ ['\t']) none, fs)
  else scanError c "in string escape code" fs

/-- `stateInStringEscU` and its successors: four hexadecimal digits. -/
def stateInStringEscU (acc : List Char) (hi : Option Nat) (hex : List Nat) (c : Char)
    (fs : List Frame) : ScanState :=
  match hexVal c with
  | none => scanError c "in \\u hexadecimal character escape" fs
  | some d =>
    if hex.length < 3 then (.InStringEscU acc hi (hex ++ [d]), fs)
    else (endEscU acc hi ((hex ++ [d]).foldl (fun v x => v * 16 + x) 0), fs)

/-- The number states `stateNeg`, `state1`, `state0`, `stateDot`, `stateDot0`,
`stateE`, `stateESign` and `stateE0`; `sc` is one of them, `lit` the literal
read so far. -/
def stateNumber (sc : Scan) (c : Char) (fs : List Frame) : ScanState :=
  match sc with
  | .Neg lit =>
    if c = '0' then (.Zero (lit ++ [c]), fs)
    else if isDigit c then (.One (lit ++ [c]), fs)
    else scanError c "in numeric literal" fs
  | .One lit =>
    if isDigit c then (.One (lit ++ [c]), fs)
    else if c = '.' then (.Dot (lit ++ [c]), fs)
    else if c = 'e' ∨ c = 'E' then (.E (lit ++ [c]), fs)
    else endNumber lit c fs
  | .Zero lit =>
    if c = '.' then (.Dot (lit ++ [c]), fs)
    else if c = 'e' ∨ c = 'E' then (.E (lit ++ [c]), fs)
    else endNumber lit c fs
  | .Dot lit =>
    if isDigit c then (.Dot0 (lit ++ [c]), fs)
    else scanError c "after decimal point in numeric literal" fs
  | .Dot0 lit =>
    if isDigit c then (.Dot0 (lit ++ [c]), fs)
    else if c = 'e' ∨ c = 'E' then (.E (lit ++ [c]), fs)
    else endNumber lit c fs
  | .E lit =>
    if c = '+' ∨ c = '-' then (.ESign (lit ++ [c]), fs)
    else if isDigit c then (.E0 (lit ++ [c]), fs)
    else scanError c "in exponent of numeric literal" fs
  | .ESign lit =>
    if isDigit c then (.E0 (lit ++ [c]), fs)
    else scanError c "in exponent of numeric literal" fs
  | .E0 lit =>
    if isDigit c then (.E0 (lit ++ [c]), fs)
    else endNumber lit c fs
  | other => (other, fs)

/-- The states of the literals `true`, `false` and `null` (`stateT`, `stateTr`,
...): `rest` is what is still to be read of the literal `name`. -/
def stateLit (name : String) (rest : List Char) (v : JSON) (c : Char) (fs : List Frame) :
    ScanState :=
  match rest with
  | [] => (.Error "literal already complete", fs)
  | r :: rest' =>
    if c = r then (if rest' = [] then deliver v fs else (.Lit name rest' v, fs))
    else scanError c ("in literal " ++ name ++ " (expecting " ++ quoteChar r ++ ")") fs

/-- One step of the scanner: the character `c` is read. -/
def step (st : ScanState) (c : Char) : ScanState :=
  match st with
  | (.Error msg, fs) => (.Error msg, fs)
  | (.BeginValue, fs) => stateBeginValue c fs
  | (.BeginValueOrEmpty, fs) =>
    if isSpace c then (.BeginValueOrEmpty, fs)
    else if c = ']' then stateEndValue c fs
    else stateBeginValue c fs
  | (.BeginStringOrEmpty, fs) =>
    if isSpace c then (.BeginStringOrEmpty, fs)
    else if c = '}' then stateEndValue c fs
    else stateBeginString c fs
  | (.BeginString, fs) => stateBeginString c fs
  | (.EndValue, fs) => stateEndValue c fs
  | (.EndTop v, _) => stateEndTop v c
  | (.InString acc hi, fs) => stateInString acc hi c fs
  | (.InStringEsc acc hi, fs) => stateInStringEsc acc hi c fs
  | (.InStringEscU acc hi hex, fs) => stateInStringEscU acc hi hex c fs
  | (.Lit name rest v, fs) => stateLit name rest v c fs
  | (sc, fs) => stateNumber sc c fs

/-- The scanner is run over a text from the state `st`. -/
def scanFrom (st : ScanState) (cs : List Char) : ScanState := cs.foldl step st

/-- `scanner.eof`: at the end of the input a space is fed to the scanner, so
that a top-level number ends. -/
def scanEof (st : ScanState) : Except GoError JSON :=
  match st with
  | (.Error msg, _) => .error (.SyntaxError msg)
  | (.EndTop v, _) => .ok v
  | st =>
    match step st ' ' with
    | (.EndTop v, _) => .ok v
    | (.Error msg, _) => .error (.SyntaxError msg)
    | _ => .error (.SyntaxError "unexpected end of JSON input")

/-- `checkValid` together with the value the payload denotes: the JSON value
of a well-formed payload, the syntax error of any other. -/
def parseJSON (data : String) : Except GoError JSON :=
  scanEof (scanFrom (.BeginValue, []) data.data)

/-! ## encoding/json: decoding into Go values -/

/-- The name `UnmarshalTypeError.Value` gives to a JSON value that is not
`null`. -/
def JSON.kind : JSON → String
  | .null => "null"
  | .bool _ => "bool"
  | .num _ => "number"
  | .str _ => "string"
  | .arr _ => "array"
  | .obj _ => "object"

/-- `json.Unmarshal(data, &s)` for a `string` variable holding `cur`: a JSON
string is stored, `null` leaves the variable as it is, any other value is a
type error. -/
def unmarshalString (data : String) (cur : String) : String × Option GoError :=
  match parseJSON data with
  | .error e => (cur, some e)
  | .ok (.str s) => (s, none)
  | .ok .null => (cur, none)
  | .ok v => (cur, some (.UnmarshalTypeError v.kind "string" ""))

/-- One code point of `foldName`, by which object names are matched to
struct fields when no field has exactly that name: ASCII letters are put in
upper case, U+017F and U+212A fold to `S` and `K`. Every other code point
outside ASCII folds to a code point outside ASCII and is left in place. -/
def foldChar (c : Char) : Char :=
  if 97 ≤ c.toNat ∧ c.toNat ≤ 122 then Char.ofNat (c.toNat - 32)
  else if c.toNat = 383 then 'S'
  else if c.toNat = 8490 then 'K'
  else c

/-- `foldName`. -/
def foldName (s : String) : String := String.mk (s.data.map foldChar)

/-- The local type `FrozenBalanceHelper` of `FrozenBalance.UnmarshalJSON`. -/
structure FrozenBalanceHelper where
  Deposits : String
  Fees : String
  Rewards : String
deriving DecidableEq, Repr

/-- The fields of `FrozenBalanceHelper`. -/
inductive HelperField where
  | Deposits
  | Fees
  | Rewards
deriving DecidableEq, Repr

/-- The JSON name the struct tag gives a field. -/
def HelperField.name : HelperField → String
  | .Deposits => "deposits"
  | .Fees => "fees"
  | .Rewards => "rewards"

/-- The fields in declaration order. -/
def HelperField.all : List HelperField := [.Deposits, .Fees, .Rewards]

/-- The field an object name selects: the field of exactly that name, else
the field whose folded name is the folded object name. -/
def findField (key : String) : Option HelperField :=
  match HelperField.all.find? fun f => f.name == key with
  | some f => some f
  | none => HelperField.all.find? fun f => foldName f.name == foldName key

/-- Reading a field. -/
def FrozenBalanceHelper.get (h : FrozenBalanceHelper) : HelperField → String
  | .Deposits => h.Deposits
  | .Fees => h.Fees
  | .Rewards => h.Rewards

/-- Assigning a field. -/
def FrozenBalanceHelper.set (h : FrozenBalanceHelper) (f : HelperField) (s : String) :
    FrozenBalanceHelper :=
  match f with
  | .Deposits => { h with Deposits := s }
  | .Fees => { h with Fees := s }
  | .Rewards => { h with Rewards := s }

/-- One member of the object is decoded: a name that selects no field is
skipped; a string is stored into the selected field, `null` leaves it, and
any other value is a type error, of which the decoder keeps the first while
it goes on. -/
def decodeMember (st : FrozenBalanceHelper × Option GoError) (m : String × JSON) :
    FrozenBalanceHelper × Option GoError :=
  match findField m.1 with
  | none => st
  | some f =>
    match m.2 with
    | .str s => (st.1.set f s, st.2)
    | .null => st
    | v =>
      (st.1, st.2.orElse fun _ =>
        some (.UnmarshalTypeError v.kind "string" ("FrozenBalanceHelper." ++ f.name)))

/-- A JSON value is decoded into a `FrozenBalanceHelper` holding `h`. -/
def decodeHelper (v : JSON) (h : FrozenBalanceHelper) : FrozenBalanceHelper × Option GoError :=
  match v with
  | .obj members => members.foldl decodeMember (h, none)
  | .null => (h, none)
  | v => (h, some (.UnmarshalTypeError v.kind "rpc.FrozenBalanceHelper" ""))

/-- `json.Unmarshal(data, &frozenBalanceHelper)`. -/
def unmarshalHelper (data : String) (h : FrozenBalanceHelper) :
    FrozenBalanceHelper × Option GoError :=
  match parseJSON data with
  | .error e => (h, some e)
  | .ok v => decodeHelper v h

/-! ## encoding/json: encoding -/

/-- One code point of a string as `json.Marshal` writes it: the quote, the
backslash and the control characters are escaped, and so are `<`, `>`, `&`,
U+2028 and U+2029. -/
def escapeChar (c : Char) : List Char :=
  if c = '"' ∨ c = '\\' then ['\\', c]
  else if c = '\n' then ['\\', 'n']
  else if c = '\r' then ['\\', 'r']
  else if c = '\t' then ['\\', 't']
  else if c.toNat < 32 ∨ c = '<' ∨ c = '>' ∨ c = '&' then
    ['\\', 'u', '0', '0', hexDigit (c.toNat / 16), hexDigit (c.toNat % 16)]
  else if c.toNat = 8232 then ['\\', 'u', '2', '0', '2', '8']
  else if c.toNat = 8233 then ['\\', 'u', '2', '0', '2', '9']
  else [c]

/-- A string as a JSON string. -/
def encodeString (s : String) : List Char := '"' :: s.data.flatMap escapeChar ++ ['"']

/-- The members of an object of string fields, separated by commas. -/
def encodeMembers : List (String × String) → List Char
  | [] => []
  | [(k, v)] => encodeString k ++ ':' :: encodeString v
  | (k, v) :: rest => encodeString k ++ ':' :: encodeString v ++ ',' :: encodeMembers rest

/-- `json.Marshal` of a struct whose fields are all strings: `fields` lists
the JSON name and the value of each field in declaration order. Encoding
strings cannot fail, so the error is `nil`. -/
def marshalStrings (fields : List (String × String)) : String × Option GoError :=
  (String.mk ('{' :: encodeMembers fields ++ ['}']), none)

/-! ## The numeric-string codec of `FrozenBalance` -/

/-- `FrozenBalance.UnmarshalJSON`: the receiver `f` after the call, and the
error. The three fields are converted and assigned in turn, so a failure
leaves the fields assigned before it. -/
def FrozenBalance.UnmarshalJSON (f : FrozenBalance) (data : String) :
    FrozenBalance × Option GoError :=
  match unmarshalHelper data ⟨"", "", ""⟩ with
  | (_, some err) => (f, some err)
  | (frozenBalanceHelper, none) =>
    match Atoi frozenBalanceHelper.Deposits with
    | (_, some err) => (f, some err)
    | (deposits, none) =>
      let f := { f with Deposits := deposits }
      match Atoi frozenBalanceHelper.Fees with
      | (_, some err) => (f, some err)
      | (fees, none) =>
        let f := { f with Fees := fees }
        match Atoi frozenBalanceHelper.Rewards with
        | (_, some err) => (f, some err)
        | (rewards, none) => ({ f with Rewards := rewards }, none)

/-- `FrozenBalance.MarshalJSON`. -/
def FrozenBalance.MarshalJSON (f : FrozenBalance) : String × Option GoError :=
  marshalStrings
    [("deposits", Itoa f.Deposits), ("fees", Itoa f.Fees), ("rewards", Itoa f.Rewards)]

/-! ## The client -/

/-- Modelled from the spec: the type `rpcOptions` is declared outside
`delegate.go`; a query option is an ordered (key, value) pair, built
positionally as `rpcOptions{key, value}`. -/
structure rpcOptions where
  Key : String
  Value : String
deriving DecidableEq, Repr

/-- Modelled from the spec: the type `Cycle` is declared outside
`delegate.go`; the cycle descriptor carries the block hash of the roll
snapshot of its cycle, the one field `delegate.go` reads. -/
structure Cycle where
  BlockHash : String
deriving DecidableEq, Repr

/-- A request the client makes: a cycle descriptor fetch or a transport call. -/
inductive Call where
  | Cycle (cycle : Int)
  | get (path : String) (opts : List rpcOptions)
deriving DecidableEq, Repr

/-- The client: its chain identifier and the remote node. The methods
`Client.Cycle` and `Client.get` live outside `delegate.go`; the node answers
each of them as a function of the request and of the calls made before it. -/
structure Client where
  chain : String
  cycleResp : List Call → Int → Except GoError Cycle
  getResp : List Call → String → List rpcOptions → Except GoError String

/-- `c.Cycle(cycle)`: the descriptor fetch, recorded in the trace. -/
def Client.Cycle (c : Client) (cycle : Int) (tr : List Call) :
    Except GoError GoTezos.Cycle × List Call :=
  (c.cycleResp tr cycle, tr ++ [.Cycle cycle])

/-- `c.get(path, opts...)`: the transport call, recorded in the trace. -/
def Client.get (c : Client) (path : String) (opts : List rpcOptions) (tr : List Call) :
    Except GoError String × List Call :=
  (c.getResp tr path opts, tr ++ [.get path opts])

/-- `Client.extractBlockHash`. -/
def Client.extractBlockHash (c : Client) (cycle : Int) (blockhash : String) (tr : List Call) :
    (String × Option GoError) × List Call :=
  if cycle ≠ 0 then
    match c.Cycle cycle tr with
    | (.error err, tr) => (("", some (.Wrap err ("failed to get cycle: " ++ Itoa cycle))), tr)
    | (.ok snapshot, tr) => ((snapshot.BlockHash, none), tr)
  else ((blockhash, none), tr)

/-- `Client.StakingBalance`. -/
def Client.StakingBalance (c : Client) (input : StakingBalanceInput) (tr : List Call) :
    (Int × Option GoError) × List Call :=
  match input.validate with
  | some err =>
    ((0, some (.Wrap err ("could not get staking balance for '" ++ input.Delegate ++ "'"))), tr)
  | none =>
    match c.extractBlockHash input.Cycle input.Blockhash tr with
    | ((_, some err), tr) =>
      ((0, some (.Wrap err ("could not get staking balance for '" ++ input.Delegate ++ "'"))), tr)
    | ((blockhash, none), tr) =>
      let input := { input with Blockhash := blockhash }
      match c.get ("/chains/" ++ c.chain ++ "/blocks/" ++ input.Blockhash ++
          "/context/delegates/" ++ input.Delegate ++ "/staking_balance") [] tr with
      | (.error err, tr) =>
        ((0, some (.Wrap err
          ("could not get staking balance for '" ++ input.Delegate ++ "'"))), tr)
      | (.ok resp, tr) =>
        match unmarshalString resp "" with
        | (_, some err) =>
          ((0, some (.Wrap err
            ("could not unmarshal staking balance for '" ++ input.Delegate ++ "'"))), tr)
        | (stakingBalanceStr, none) => (Atoi stakingBalanceStr, tr)

/-- `BakingRightsInput.contructRPCOptions`. -/
def BakingRightsInput.contructRPCOptions (b : BakingRightsInput) : List rpcOptions :=
  let opts : List rpcOptions := []
  let opts := if b.Cycle ≠ 0 then opts ++ [⟨"cycle", Itoa b.Cycle⟩] else opts
  let opts := if b.Delegate ≠ "" then opts ++ [⟨"delegate", b.Delegate⟩] else opts
  let opts := if b.Level ≠ 0 then opts ++ [⟨"level", Itoa b.Level⟩] else opts
  let opts := if b.MaxPriority ≠ 0 then opts ++ [⟨"max_priority", Itoa b.MaxPriority⟩] else opts
  opts

/-- `EndorsingRightsInput.contructRPCOptions`. -/
def EndorsingRightsInput.contructRPCOptions (b : EndorsingRightsInput) : List rpcOptions :=
  let opts : List rpcOptions := []
  let opts := if b.Cycle ≠ 0 then opts ++ [⟨"cycle", Itoa b.Cycle⟩] else opts
  let opts := if b.Delegate ≠ "" then opts ++ [⟨"delegate", b.Delegate⟩] else opts
  let opts := if b.Level ≠ 0 then opts ++ [⟨"level", Itoa b.Level⟩] else opts
  opts

/-- One entry of `BakingRights`; the estimated time is kept as its RFC 3339
text. -/
structure BakingRight where
  Level : Int
  Delegate : String
  Priority : Int
  EstimatedTime : String
deriving DecidableEq, Repr

/-- One entry of `EndorsingRights`. -/
structure EndorsingRight where
  Level : Int
  Delegate : String
  Slots : List Int
  EstimatedTime : String
deriving DecidableEq, Repr

/-- The value of the baking rights RPC. -/
abbrev BakingRights := List BakingRight

/-- The value of the endorsing rights RPC. -/
abbrev EndorsingRights := List EndorsingRight

/-- `Client.BakingRights`. `unmarshal` stands for `json.Unmarshal(resp,
&bakingRights)`: it gives what the decoder has stored into the list,
which may be a part of the response when it fails, and the error. -/
def Client.BakingRights (c : Client) (unmarshal : String → BakingRights × Option GoError)
    (input : BakingRightsInput) (tr : List Call) :
    (BakingRights × Option GoError) × List Call :=
  match input.validateStruct with
  | some err => (([], some (.Wrap err "invalid input")), tr)
  | none =>
    match c.get ("/chains/" ++ c.chain ++ "/blocks/" ++ input.BlockHash ++
        "/helpers/baking_rights") input.contructRPCOptions tr with
    | (.error err, tr) => (([], some (.Wrap err "could not get baking rights")), tr)
    | (.ok resp, tr) =>
      match unmarshal resp with
      | (_, some err) => (([], some (.Wrap err "could not unmarshal baking rights")), tr)
      | (bakingRights, none) => ((bakingRights, none), tr)

/-- `Client.EndorsingRights`, with `unmarshal` for `json.Unmarshal(resp,
&endorsingRights)`. -/
def Client.EndorsingRights (c : Client)
    (unmarshal : String → EndorsingRights × Option GoError)
    (input : EndorsingRightsInput) (tr : List Call) :
    (EndorsingRights × Option GoError) × List Call :=
  match input.validateStruct with
  | some err => (([], some (.Wrap err "invalid input")), tr)
  | none =>
    match c.get ("/chains/" ++ c.chain ++ "/blocks/" ++ input.BlockHash ++
        "/helpers/endorsing_rights") input.contructRPCOptions tr with
    | (.error err, tr) => (([], some (.Wrap err "could not get endorsing rights")), tr)
    | (.ok resp, tr) =>
      match unmarshal resp with
      | (_, some err) => (([], some (.Wrap err "could not unmarshal endorsing rights")), tr)
      | (endorsingRights, none) => ((endorsingRights, none), tr)

/-! ## Vocabulary of the statements -/

/-- A node that answers every request with an error. -/
def deadClient : Client :=
  ⟨"main", fun _ _ => .error (.Remote "no route to host"),
    fun _ _ _ => .error (.Remote "no route to host")⟩

/-- A node that knows the snapshot block of every cycle. -/
def snapshotClient : Client :=
  ⟨"main", fun _ _ => .ok ⟨"BLsnapshot"⟩, fun _ _ _ => .ok "\"1216660108948\""⟩

/-- The number a string of decimal digits denotes when `n` has been read
before it. -/
def decVal (cs : List Char) (n : Nat) : Nat := cs.foldl (fun n c => n * 10 + (c.toNat - 48)) n

/-- A character that `json.Marshal` writes as it is and that the scanner reads
as itself inside a string: no control character, quote or backslash, and
none of `<`, `>`, `&`, U+2028, U+2029. -/
def safeChar (c : Char) : Bool :=
  decide (32 ≤ c.toNat) && c != '"' && c != '\\' && c != '<' && c != '>' && c != '&' &&
    decide (c.toNat ≠ 8232) && decide (c.toNat ≠ 8233)

/-- A string of safe characters. -/
def safeString (s : String) : Prop := ∀ c ∈ s.data, safeChar c = true

/-- An object whose members are the given strings. -/
def stringMembers (fields : List (String × String)) : List (String × JSON) :=
  fields.map fun p => (p.1, JSON.str p.2)

/-- The values of the members of an object that the decoder matches to the
field `f`, in the order of the payload. For an object that names the field
once this is the one value of that member. -/
def fieldValues (f : HelperField) (members : List (String × JSON)) : List JSON :=
  (members.filter fun m => findField m.1 == some f).map Prod.snd

/-- The text of a JSON string. -/
def JSON.asString : JSON → Option String
  | .str s => some s
  | _ => none

/-- The last JSON string among some values: when a field is named more than
once, the decoder lets the last string win. -/
def lastString (vs : List JSON) : Option String := (vs.filterMap JSON.asString).getLast?

/-- A decimal numeral: an optional sign `+` or `-`, then one or more of the
digits `0` .. `9`. -/
def isNumeral (s : String) : Bool :=
  match s.data with
  | [] => false
  | c :: rest =>
    if c = '+' ∨ c = '-' then !rest.isEmpty && rest.all isDigit else (c :: rest).all isDigit

/-- The canonical base-10 rendering of `i`: a `-` exactly when `i` is
negative and no other sign, then the digits of the magnitude of `i`, at
least one, with no leading zero unless the rendering is the single digit
`0`. -/
def CanonicalDecimal (s : String) (i : Int) : Prop :=
  ∃ ds : List Char, s.data = (if i < 0 then ['-'] else []) ++ ds ∧ ds ≠ [] ∧
    (∀ c ∈ ds, isDigit c = true) ∧ (ds.head? = some '0' → ds = ['0']) ∧
    decVal ds 0 = i.natAbs

/-- The query options of the baking rights endpoint in their fixed order,
each with whether its source field differs from the zero value of its type. -/
def bakingOptionTable (b : BakingRightsInput) : List (Bool × rpcOptions) :=
  [(decide (b.Cycle ≠ 0), ⟨"cycle", Itoa b.Cycle⟩),
    (decide (b.Delegate ≠ ""), ⟨"delegate", b.Delegate⟩),
    (decide (b.Level ≠ 0), ⟨"level", Itoa b.Level⟩),
    (decide (b.MaxPriority ≠ 0), ⟨"max_priority", Itoa b.MaxPriority⟩)]

/-- The entries of an option table whose source field is set, in the order
of the table. -/
def keptOptions (table : List (Bool × rpcOptions)) : List rpcOptions :=
  (table.filter fun e => e.1).map Prod.snd

/-- The keys of a sequence of query options. -/
def optionKeys (opts : List rpcOptions) : List String := opts.map rpcOptions.Key

/-- A sequence of strings in strictly ascending lexicographic order: each
string, as a sequence of characters, is below every later one. -/
def Ascending (keys : List String) : Prop := keys.Pairwise fun a b => a.data < b.data

/-- A node that knows the snapshot block of every cycle and answers every
transport call with the same body. -/
def bodyClient (body : String) : Client :=
  ⟨"main", fun _ _ => .ok ⟨"BLsnapshot"⟩, fun _ _ _ => .ok body⟩

/-- The path of the staking balance request for the block `B`. -/
def stakingBalancePath (c : Client) (B : String) (delegate : String) : String :=
  "/chains/" ++ c.chain ++ "/blocks/" ++ B ++ "/context/delegates/" ++ delegate ++
    "/staking_balance"

/-- Whether the text `t` occurs in `s`. -/
def containsText (s : String) (t : String) : Bool :=
  s.data.tails.any fun r => t.data.isPrefixOf r

/-- Whether `s` begins with the text `t`. -/
def beginsWith (s : String) (t : String) : Bool := t.data.isPrefixOf s.data

/-- `json.Unmarshal(resp, &rights)` as far as the syntax of the payload goes:
a payload that is not well-formed JSON leaves the list empty and gives the
syntax error, the value of a well-formed payload is handed to `decode`, the
decoding of a JSON value into the list. -/
def unmarshalVia {α : Type} (decode : JSON → List α × Option GoError) (data : String) :
    List α × Option GoError :=
  match parseJSON data with
  | .error e => ([], some e)
  | .ok v => decode v

/-- A node whose snapshot block hash changes with every request it has seen. -/
def movingClient : Client :=
  ⟨"main", fun tr _ => .ok ⟨"BL" ++ Itoa tr.length⟩, fun _ _ _ => .ok "\"0\""⟩

/-- Whether `s` ends with the text `t`. -/
def endsWith (s : String) (t : String) : Bool := t.data.isSuffixOf s.data

/-- Reading a field of a `FrozenBalance` by the field of the helper it is
decoded from. -/
def FrozenBalance.get (f : FrozenBalance) : HelperField → Int
  | .Deposits => f.Deposits
  | .Fees => f.Fees
  | .Rewards => f.Rewards

/-- A string of decimal digits that denotes an integer above `2^63-1`, or
such a string after a `-` that denotes an integer below `-2^63`. -/
def OutOfRange (s : String) : Prop :=
  ∃ ds : List Char, ds ≠ [] ∧ (∀ c ∈ ds, isDigit c = true) ∧
    ((s.data = ds ∧ decVal ds 0 > 2 ^ 63 - 1) ∨ (s.data = '-' :: ds ∧ decVal ds 0 > 2 ^ 63))

/-- `k` successive calls of `extractBlockHash(C, H)`: what each returns, in
order, and the trace after the last. -/
def resolveTimes (c : Client) (C : Int) (H : String) :
    Nat → List Call → List (String × Option GoError) × List Call
  | 0, tr => ([], tr)
  | k + 1, tr =>
    ((c.extractBlockHash C H tr).1 :: (resolveTimes c C H k (c.extractBlockHash C H tr).2).1,
      (resolveTimes c C H k (c.extractBlockHash C H tr).2).2)

/-- What one resolution of the cycle `C` returns when the descriptor fetch is
answered with `r`. -/
def resolved (C : Int) (r : Except GoError Cycle) : String × Option GoError :=
  match r with
  | .ok D => (D.BlockHash, none)
  | .error e => ("", some (.Wrap e ("failed to get cycle: " ++ Itoa C)))

/-- The members of an object whose name selects one of the three fields of
the helper, in the order of the payload: the decoder skips every other
member. -/
def matchedMembers (members : List (String × JSON)) : List (String × JSON) :=
  members.filter fun m => (findField m.1).isSome

/-- A payload for which `json.Unmarshal` into the helper reports an error: it
is not well-formed JSON, or its value is neither an object nor `null`, or it
is an object that gives one of the three fields a value that is neither a
string nor `null`. -/
def HelperRejects (data : String) : Prop :=
  (∃ e, parseJSON data = .error e) ∨
  (∃ v, parseJSON data = .ok v ∧ v ≠ .null ∧ ∀ members, v ≠ .obj members) ∨
  (∃ members fld v, parseJSON data = .ok (.obj members) ∧ v ∈ fieldValues fld members ∧
    v ≠ .null ∧ ∀ s, v ≠ .str s)

/-! ## Input validation -/

/-- `validateStruct` on one tagged field fails exactly when the field holds
its zero value. -/
theorem validateStruct_single (strct field : String) (zero : Bool) :
    validateStruct strct [(field, zero)] =
      if zero then some (.FieldErrors strct [field]) else none := by
  cases zero <;> rfl

/-- C1: `StakingBalanceInput.validate` returns `nil` if and only if `Delegate`
is non-empty and exactly one of `Blockhash != ""` and `Cycle != 0` holds; on
every other input it returns a non-nil error. -/
theorem StakingBalanceInput.validate_eq_none_iff (s : StakingBalanceInput) :
    (s.validate = none ↔ (s.Delegate ≠ "" ∧ Xor' (s.Blockhash ≠ "") (s.Cycle ≠ 0))) ∧
    (¬ (s.Delegate ≠ "" ∧ Xor' (s.Blockhash ≠ "") (s.Cycle ≠ 0)) → ∃ err, s.validate = some err) := by
  have key : s.validate = none ↔ (s.Delegate ≠ "" ∧ Xor' (s.Blockhash ≠ "") (s.Cycle ≠ 0)) := by
    unfold StakingBalanceInput.validate
    rw [validateStruct_single]
    by_cases hb : s.Blockhash = "" <;> by_cases hc : s.Cycle = 0 <;>
      by_cases hd : s.Delegate = "" <;> simp [hb, hc, hd, Xor']
  refine ⟨key, fun h => ?_⟩
  cases hv : s.validate with
  | none => exact absurd (key.mp hv) h
  | some err => exact ⟨err, rfl⟩

/-- C2: on every input that fails `validate`, `Client.StakingBalance` returns
a non-nil error (with the value 0) and leaves the trace of requests as it
was: neither the cycle descriptor fetch nor the transport call is made. -/
theorem StakingBalance_invalid (c : Client) (input : StakingBalanceInput)
    (tr : List Call) (h : input.validate ≠ none) :
    (c.StakingBalance input tr).1.2 ≠ none ∧ (c.StakingBalance input tr).1.1 = 0 ∧
      (c.StakingBalance input tr).2 = tr := by
  unfold Client.StakingBalance
  cases hv : input.validate with
  | none => exact absurd hv h
  | some err => simp

/-- Witness of C2: an input with neither block hash nor cycle. -/
theorem StakingBalance_invalid_witness :
    StakingBalanceInput.validate ⟨"", 0, "tz1"⟩ ≠ none ∧
    ((deadClient.StakingBalance ⟨"", 0, "tz1"⟩ []).1.2 ≠ none ∧
      (deadClient.StakingBalance ⟨"", 0, "tz1"⟩ []).1.1 = 0 ∧
      (deadClient.StakingBalance ⟨"", 0, "tz1"⟩ []).2 = []) :=
  ⟨by decide, StakingBalance_invalid deadClient ⟨"", 0, "tz1"⟩ [] (by decide)⟩

/-- C3: with an empty `BlockHash`, `Client.BakingRights` and
`Client.EndorsingRights` return the validator's error wrapped as "invalid
input" and make no request; with a non-empty `BlockHash` the validation
passes, whatever the optional fields hold. -/
theorem rights_required_blockhash (c : Client)
    (ub : String → BakingRights × Option GoError)
    (ue : String → EndorsingRights × Option GoError) (tr : List Call) :
    (∀ b : BakingRightsInput, b.BlockHash = "" →
      ∃ err, c.BakingRights ub b tr = (([], some (.Wrap err "invalid input")), tr) ∧
        (GoError.Wrap err "invalid input").Error = "invalid input: " ++ err.Error) ∧
    (∀ b : EndorsingRightsInput, b.BlockHash = "" →
      ∃ err, c.EndorsingRights ue b tr = (([], some (.Wrap err "invalid input")), tr) ∧
        (GoError.Wrap err "invalid input").Error = "invalid input: " ++ err.Error) ∧
    (∀ b : BakingRightsInput, b.BlockHash ≠ "" → b.validateStruct = none) ∧
    (∀ b : EndorsingRightsInput, b.BlockHash ≠ "" → b.validateStruct = none) := by
  refine ⟨fun b hb => ?_, fun b hb => ?_, fun b hb => ?_, fun b hb => ?_⟩
  · refine ⟨.FieldErrors "BakingRightsInput" ["BlockHash"], ?_, rfl⟩
    simp [Client.BakingRights, BakingRightsInput.validateStruct, validateStruct_single, hb]
  · refine ⟨.FieldErrors "EndorsingRightsInput" ["BlockHash"], ?_, rfl⟩
    simp [Client.EndorsingRights, EndorsingRightsInput.validateStruct, validateStruct_single, hb]
  · simp [BakingRightsInput.validateStruct, validateStruct_single, hb]
  · simp [EndorsingRightsInput.validateStruct, validateStruct_single, hb]

/-- Witness of C3: inputs without and with a block hash, optional fields set. -/
theorem rights_required_blockhash_witness :
    (∃ err, deadClient.BakingRights (fun _ => ([], none)) ⟨"", 5, 100, "tz1", -1⟩ [] =
        (([], some (.Wrap err "invalid input")), []) ∧
      (GoError.Wrap err "invalid input").Error = "invalid input: " ++ err.Error) ∧
    (∃ err, deadClient.EndorsingRights (fun _ => ([], none)) ⟨"", 5, 100, "tz1"⟩ [] =
        (([], some (.Wrap err "invalid input")), []) ∧
      (GoError.Wrap err "invalid input").Error = "invalid input: " ++ err.Error) ∧
    BakingRightsInput.validateStruct ⟨"BLhash", 5, 100, "tz1", -1⟩ = none ∧
    EndorsingRightsInput.validateStruct ⟨"BLhash", 5, 100, "tz1"⟩ = none :=
  have h := rights_required_blockhash deadClient (fun _ => ([], none))
    (fun _ => ([], none)) []
  ⟨h.1 ⟨"", 5, 100, "tz1", -1⟩ rfl, h.2.1 ⟨"", 5, 100, "tz1"⟩ rfl,
    h.2.2.1 ⟨"BLhash", 5, 100, "tz1", -1⟩ (by decide),
    h.2.2.2 ⟨"BLhash", 5, 100, "tz1"⟩ (by decide)⟩

/-! ## The cycle resolver -/

/-- C4: for every string `H`, the empty one included, `extractBlockHash(0, H)`
returns `(H, nil)` and makes no request. -/
theorem extractBlockHash_zero (c : Client) (H : String) (tr : List Call) :
    c.extractBlockHash 0 H tr = ((H, none), tr) := by
  simp [Client.extractBlockHash]

/-- C5: for a cycle `C` other than zero, negative ones included, whose
descriptor fetch succeeds with `D`, `extractBlockHash(C, H)` returns
`(D.BlockHash, nil)` whatever `H` is, after the one fetch of cycle `C`. -/
theorem extractBlockHash_cycle (c : Client) (C : Int) (D : Cycle) (tr : List Call)
    (hC : C ≠ 0) (hD : (c.Cycle C tr).1 = .ok D) :
    ∀ H : String, c.extractBlockHash C H tr = ((D.BlockHash, none), tr ++ [.Cycle C]) := by
  intro H
  have hD' : c.cycleResp tr C = .ok D := hD
  simp [Client.extractBlockHash, Client.Cycle, hC, hD']

/-- Witness of C5: a negative cycle, with a block hash passed along. -/
theorem extractBlockHash_cycle_witness :
    (-3 : Int) ≠ 0 ∧ (snapshotClient.Cycle (-3) []).1 = .ok ⟨"BLsnapshot"⟩ ∧
    snapshotClient.extractBlockHash (-3) "BLignored" [] =
      (("BLsnapshot", none), [] ++ [.Cycle (-3)]) :=
  ⟨by decide, rfl,
    extractBlockHash_cycle snapshotClient (-3) ⟨"BLsnapshot"⟩ [] (by decide) rfl "BLignored"⟩

/-- C6: for a cycle `C` other than zero whose descriptor fetch fails with
cause `E`, `extractBlockHash(C, H)` returns the empty string and an error
whose message is "failed to get cycle: ", `C` in base 10, ": " and the
message of `E`, and which wraps `E`. -/
theorem extractBlockHash_cycle_error (c : Client) (C : Int) (E : GoError) (H : String)
    (tr : List Call) (hC : C ≠ 0) (hE : (c.Cycle C tr).1 = .error E) :
    ∃ err, (c.extractBlockHash C H tr).1 = ("", some err) ∧
      err.Error = "failed to get cycle: " ++ Itoa C ++ ": " ++ E.Error ∧
      err.Unwrap = some E := by
  have hE' : c.cycleResp tr C = .error E := hE
  refine ⟨.Wrap E ("failed to get cycle: " ++ Itoa C), ?_, rfl, rfl⟩
  simp [Client.extractBlockHash, Client.Cycle, hC, hE']

/-- Witness of C6: the message for cycle 100 on an unreachable node. -/
theorem extractBlockHash_cycle_error_witness :
    ∃ err, (deadClient.extractBlockHash 100 "BLhash" []).1 = ("", some err) ∧
      err.Error = "failed to get cycle: " ++ Itoa 100 ++ ": " ++
        (GoError.Remote "no route to host").Error ∧
      err.Unwrap = some (.Remote "no route to host") :=
  extractBlockHash_cycle_error deadClient 100 (.Remote "no route to host") "BLhash" []
    (by decide) rfl

/-! ## strconv: `Atoi` reads back what `Itoa` writes -/

/-- The code point of a digit character. -/
theorem digitChar_toNat (d : Nat) (h : d < 10) : (digitChar d).toNat = 48 + d := by
  interval_cases d <;> rfl

/-- A digit character is a digit. -/
theorem isDigit_digitChar (d : Nat) (h : d < 10) : isDigit (digitChar d) = true := by
  interval_cases d <;> rfl

/-- A digit is neither a sign nor a character JSON escapes. -/
theorem isDigit_bounds (c : Char) (h : isDigit c = true) : 48 ≤ c.toNat ∧ c.toNat ≤ 57 := by
  simpa [isDigit] using h

/-- `formatBits` writes digits only. -/
theorem formatBits_all_digits (fuel u : Nat) (acc : List Char)
    (hacc : ∀ c ∈ acc, isDigit c = true) : ∀ c ∈ formatBits fuel u acc, isDigit c = true := by
  induction fuel generalizing u acc with
  | zero => simpa [formatBits] using hacc
  | succ fuel ih =>
    unfold formatBits
    split
    · intro c hc
      rcases List.mem_cons.mp hc with rfl | hc
      · exact isDigit_digitChar u (by assumption)
      · exact hacc c hc
    · apply ih
      intro c hc
      rcases List.mem_cons.mp hc with rfl | hc
      · exact isDigit_digitChar _ (Nat.mod_lt _ (by norm_num))
      · exact hacc c hc

/-- With enough fuel `formatBits` writes at least one digit. -/
theorem formatBits_ne_nil (fuel u : Nat) (acc : List Char) (h : u < fuel) :
    formatBits fuel u acc ≠ [] := by
  induction fuel generalizing u acc with
  | zero => omega
  | succ fuel ih =>
    unfold formatBits
    split
    · simp
    · exact ih _ _ (by omega)

/-- The digits `formatBits` writes denote the number it was given. -/
theorem formatBits_decVal (fuel u : Nat) (acc : List Char) (h : u < fuel) :
    decVal (formatBits fuel u acc) 0 = decVal acc u := by
  induction fuel generalizing u acc with
  | zero => omega
  | succ fuel ih =>
    unfold formatBits
    split
    · rename_i hu
      simp [decVal, digitChar_toNat u hu]
    · rw [ih _ _ (by omega)]
      have hm : u % 10 < 10 := Nat.mod_lt _ (by norm_num)
      simp only [decVal, List.foldl_cons, digitChar_toNat _ hm]
      congr 1
      omega

/-- The first digit `formatBits` writes for a positive number is not zero. -/
theorem formatBits_head (fuel u : Nat) (acc : List Char) (h0 : 0 < u) (h : u < fuel) :
    ∃ d rest, 0 < d ∧ d < 10 ∧ formatBits fuel u acc = digitChar d :: rest := by
  induction fuel generalizing u acc with
  | zero => omega
  | succ fuel ih =>
    unfold formatBits
    split
    · rename_i hu
      exact ⟨u, acc, h0, hu, rfl⟩
    · exact ih _ _ (by omega) (by omega)

/-- Reading more digits never lowers the value. -/
theorem le_decVal (cs : List Char) (n : Nat) : n ≤ decVal cs n := by
  induction cs generalizing n with
  | nil => simp [decVal]
  | cons c cs ih =>
    have := ih (n * 10 + (c.toNat - 48))
    simp only [decVal, List.foldl_cons] at this ⊢
    omega

/-- On digits whose value fits 64 bits, the loop of `ParseUint` returns that value. -/
theorem parseUintLoop_digits (cs : List Char) (n : Nat) (hd : ∀ c ∈ cs, isDigit c = true)
    (hv : decVal cs n ≤ maxUint64) : parseUintLoop cs n = (decVal cs n, none) := by
  induction cs generalizing n with
  | nil => simp [parseUintLoop, decVal]
  | cons c cs ih =>
    have hc : isDigit c = true := hd c (List.mem_cons_self _ _)
    have hv' : decVal cs (n * 10 + (c.toNat - 48)) ≤ maxUint64 := by
      simpa [decVal] using hv
    have hle := le_decVal cs (n * 10 + (c.toNat - 48))
    have h1 : ¬ n ≥ maxUint64 / 10 + 1 := by
      have : maxUint64 = 18446744073709551615 := rfl
      omega
    have h2 : ¬ n * 10 + (c.toNat - 48) > maxUint64 := by omega
    unfold parseUintLoop
    rw [if_pos hc, if_neg h1, if_neg h2, ih _ (fun c hc => hd c (List.mem_cons_of_mem _ hc)) hv']
    simp [decVal]

/-- `ParseUint` reads back the digits of a 64-bit number. -/
theorem ParseUint_FormatUint (u : Nat) (h : u ≤ maxUint64) :
    ParseUint (FormatUint u) = (u, none) := by
  have hd := formatBits_all_digits (u + 1) u [] (by simp)
  have hv := formatBits_decVal (u + 1) u [] (by omega)
  have hn := formatBits_ne_nil (u + 1) u [] (by omega)
  unfold ParseUint FormatUint
  rw [if_neg hn, parseUintLoop_digits _ _ hd (by rw [hv]; simpa [decVal] using h), hv]
  simp [decVal]

/-- `Atoi` reads back what `Itoa` writes for every 64-bit signed integer. -/
theorem Atoi_Itoa (i : Int) (hlo : -(2 ^ 63) ≤ i) (hhi : i < 2 ^ 63) :
    Atoi (Itoa i) = (i, none) := by
  have hu : i.natAbs ≤ maxUint64 := by
    have : maxUint64 = 18446744073709551615 := rfl
    omega
  have hP := ParseUint_FormatUint i.natAbs hu
  by_cases hneg : i < 0
  · have hb : ¬ i.natAbs > 2 ^ 63 := by omega
    have hi : -(i.natAbs : Int) = i := by omega
    have hb' : ¬ 9223372036854775808 < i.natAbs := by omega
    simp only [Atoi, Itoa, hneg, ParseInt, if_true]
    simp only [decide_True, or_true, if_true, hP]
    simp [hb', abs_of_neg hneg]
  · obtain ⟨c, rest, hcr⟩ : ∃ c rest, FormatUint i.natAbs = c :: rest := by
      have hn := formatBits_ne_nil (i.natAbs + 1) i.natAbs [] (by omega)
      cases hf : FormatUint i.natAbs with
      | nil => exact absurd hf hn
      | cons c rest => exact ⟨c, rest, rfl⟩
    have hc : isDigit c = true :=
      formatBits_all_digits (i.natAbs + 1) i.natAbs [] (by simp) c
        (by show c ∈ FormatUint i.natAbs; rw [hcr]; exact List.mem_cons_self _ _)
    have hcb := isDigit_bounds c hc
    have hminus : c ≠ '-' := by rintro rfl; revert hcb; decide
    have hplus : c ≠ '+' := by rintro rfl; revert hcb; decide
    have hb : ¬ i.natAbs ≥ 2 ^ 63 := by omega
    have hi : (i.natAbs : Int) = i := by omega
    rw [hcr] at hP
    have hb' : ¬ 9223372036854775808 ≤ i.natAbs := by omega
    simp only [Atoi, Itoa, hneg, ParseInt, hcr, if_false]
    simp only [hminus, hplus, or_self, if_false, hP]
    simp [hb', hi]

/-! ## encoding/json: the scanner reads back what `Marshal` writes -/

/-- Scanning a text in two parts. -/
theorem scanFrom_append (st : ScanState) (a b : List Char) :
    scanFrom st (a ++ b) = scanFrom (scanFrom st a) b := by
  simp [scanFrom, List.foldl_append]

/-- Scanning a text from its first character. -/
theorem scanFrom_cons (st : ScanState) (c : Char) (cs : List Char) :
    scanFrom st (c :: cs) = scanFrom (step st c) cs := rfl

/-- What `safeChar` excludes. -/
theorem safeChar_spec (c : Char) (h : safeChar c = true) :
    32 ≤ c.toNat ∧ c ≠ '"' ∧ c ≠ '\\' ∧ c ≠ '<' ∧ c ≠ '>' ∧ c ≠ '&' ∧
      c.toNat ≠ 8232 ∧ c.toNat ≠ 8233 := by
  simpa [safeChar, and_assoc] using h

/-- `json.Marshal` writes a safe character as it is. -/
theorem escapeChar_safe (c : Char) (h : safeChar c = true) : escapeChar c = [c] := by
  obtain ⟨h32, hq, hb, hlt, hgt, hamp, h1, h2⟩ := safeChar_spec c h
  have hn : c ≠ '\n' := by rintro rfl; revert h32; decide
  have hr : c ≠ '\r' := by rintro rfl; revert h32; decide
  have ht : c ≠ '\t' := by rintro rfl; revert h32; decide
  have h32' : ¬ c.toNat < 32 := by omega
  simp [escapeChar, hq, hb, hn, hr, ht, h32', hlt, hgt, hamp, h1, h2]

/-- `json.Marshal` writes a safe string between two quotes. -/
theorem encodeString_safe (s : String) (h : safeString s) :
    encodeString s = '"' :: s.data ++ ['"'] := by
  have : ∀ cs : List Char, (∀ c ∈ cs, safeChar c = true) → cs.flatMap escapeChar = cs := by
    intro cs
    induction cs with
    | nil => intro _; rfl
    | cons c cs ih =>
      intro hcs
      rw [List.flatMap_cons, escapeChar_safe c (hcs c (List.mem_cons_self _ _)),
        ih fun d hd => hcs d (List.mem_cons_of_mem _ hd)]
      rfl
  simp [encodeString, this s.data h]

/-- Inside a string the scanner appends a safe character to the text. -/
theorem step_InString_safe (acc : List Char) (fs : List Frame) (c : Char)
    (h : safeChar c = true) :
    step (.InString acc none, fs) c = (.InString (acc ++ [c]) none, fs) := by
  obtain ⟨h32, hq, hb, -⟩ := safeChar_spec c h
  have h32' : ¬ c.toNat < 32 := by omega
  simp [step, stateInString, hq, hb, h32', flushHi]

/-- Inside a string the scanner appends safe characters to the text. -/
theorem scanFrom_InString_safe (cs acc : List Char) (fs : List Frame)
    (h : ∀ c ∈ cs, safeChar c = true) :
    scanFrom (.InString acc none, fs) cs = (.InString (acc ++ cs) none, fs) := by
  induction cs generalizing acc with
  | nil => simp [scanFrom]
  | cons c cs ih =>
    rw [scanFrom_cons, step_InString_safe acc fs c (h c (List.mem_cons_self _ _)),
      ih _ fun d hd => h d (List.mem_cons_of_mem _ hd)]
    simp

/-- The scanner reads a safe string written by `Marshal` as that string and
hands it to the enclosing context, from each state in which a string may
begin. -/
theorem scanFrom_encodeString (s : String) (h : safeString s) (sc : Scan) (fs : List Frame)
    (rest : List Char)
    (hsc : sc = .BeginValue ∨ sc = .BeginString ∨ sc = .BeginStringOrEmpty) :
    scanFrom (sc, fs) (encodeString s ++ rest) = scanFrom (deliver (.str s) fs) rest := by
  have hopen : step (sc, fs) '"' = (.InString [] none, fs) := by
    rcases hsc with rfl | rfl | rfl <;>
      simp [step, stateBeginValue, stateBeginString, isSpace]
  have hclose : step (.InString s.data none, fs) '"' = deliver (.str s) fs := by
    simp [step, stateInString, flushHi]
  rw [encodeString_safe s h]
  simp only [List.cons_append, List.append_assoc, List.nil_append]
  rw [scanFrom_cons, hopen, scanFrom_append, scanFrom_InString_safe s.data [] fs h,
    List.nil_append, scanFrom_cons, hclose]

/-- The scanner reads the members `Marshal` writes for string fields with
safe names and values, and adds them to the open object. -/
theorem scanFrom_encodeMembers (fields : List (String × String))
    (h : ∀ p ∈ fields, safeString p.1 ∧ safeString p.2) (hne : fields ≠ [])
    (sc : Scan) (hsc : sc = .BeginString ∨ sc = .BeginStringOrEmpty)
    (ms : List (String × JSON)) (fs : List Frame) (rest : List Char) :
    scanFrom (sc, .obj ms none :: fs) (encodeMembers fields ++ rest) =
      scanFrom (.EndValue, .obj (ms ++ stringMembers fields) none :: fs) rest := by
  induction fields generalizing sc ms with
  | nil => exact absurd rfl hne
  | cons p fields ih =>
    obtain ⟨k, v⟩ := p
    have hk : safeString k := (h (k, v) (List.mem_cons_self _ _)).1
    have hv : safeString v := (h (k, v) (List.mem_cons_self _ _)).2
    have hmember : ∀ rest' : List Char,
        scanFrom (sc, .obj ms none :: fs) (encodeString k ++ ':' :: encodeString v ++ rest') =
          scanFrom (.EndValue, .obj (ms ++ [(k, .str v)]) none :: fs) rest' := by
      intro rest'
      have hcolon : step (.EndValue, .obj ms (some k) :: fs) ':' =
          (.BeginValue, .obj ms (some k) :: fs) := by
        simp [step, stateEndValue, isSpace]
      rw [List.append_assoc,
        scanFrom_encodeString k hk sc _ _ (by rcases hsc with rfl | rfl <;> simp)]
      simp only [deliver, List.cons_append]
      rw [scanFrom_cons, hcolon, scanFrom_encodeString v hv .BeginValue _ _ (by simp)]
      simp only [deliver]
    cases fields with
    | nil =>
      simpa [encodeMembers, stringMembers] using hmember rest
    | cons q fields =>
      have hcomma : step (.EndValue, .obj (ms ++ [(k, .str v)]) none :: fs) ',' =
          (.BeginString, .obj (ms ++ [(k, .str v)]) none :: fs) := by
        simp [step, stateEndValue, isSpace]
      have := hmember (',' :: (encodeMembers (q :: fields) ++ rest))
      simp only [encodeMembers, List.append_assoc, List.cons_append] at this ⊢
      rw [this, scanFrom_cons, hcomma,
        ih (fun p hp => h p (List.mem_cons_of_mem _ hp)) (by simp) .BeginString (by simp)]
      simp [stringMembers]

/-- `parseJSON` reads what `json.Marshal` writes for a struct of string fields
with safe names and values as the object of these fields. -/
theorem parseJSON_marshalStrings (fields : List (String × String))
    (h : ∀ p ∈ fields, safeString p.1 ∧ safeString p.2) :
    parseJSON (marshalStrings fields).1 = .ok (.obj (stringMembers fields)) := by
  have hopen : step (.BeginValue, []) '{' = (.BeginStringOrEmpty, [.obj [] none]) := by
    simp [step, stateBeginValue, isSpace, pushParseState, maxNestingDepth]
  unfold parseJSON marshalStrings
  simp only [List.cons_append]
  rw [scanFrom_cons, hopen]
  by_cases hne : fields = []
  · subst hne
    simp [encodeMembers, stringMembers, scanFrom, step, isSpace, stateEndValue, deliver, scanEof]
  · rw [scanFrom_encodeMembers fields h hne .BeginStringOrEmpty (by simp)]
    simp [scanFrom, step, isSpace, stateEndValue, deliver, scanEof]

/-! ## The codec of `FrozenBalance` -/

/-- A digit is a safe character. -/
theorem safeChar_of_isDigit (c : Char) (h : isDigit c = true) : safeChar c = true := by
  have hb := isDigit_bounds c h
  have h1 : c ≠ '"' := by rintro rfl; revert hb; decide
  have h2 : c ≠ '\\' := by rintro rfl; revert hb; decide
  have h3 : c ≠ '<' := by rintro rfl; revert hb; decide
  have h4 : c ≠ '>' := by rintro rfl; revert hb; decide
  have h5 : c ≠ '&' := by rintro rfl; revert hb; decide
  have h6 : 32 ≤ c.toNat := by omega
  have h7 : c.toNat ≠ 8232 := by omega
  have h8 : c.toNat ≠ 8233 := by omega
  simp [safeChar, h1, h2, h3, h4, h5, h6, h7, h8]

/-- `Itoa` writes digits after an optional `-`. -/
theorem Itoa_data (i : Int) :
    (Itoa i).data = (if i < 0 then ['-'] else []) ++ FormatUint i.natAbs := by
  unfold Itoa
  split <;> rfl

/-- `Itoa` writes safe characters only. -/
theorem safeString_Itoa (i : Int) : safeString (Itoa i) := by
  intro c hc
  rw [Itoa_data] at hc
  rcases List.mem_append.mp hc with hc | hc
  · split at hc
    · rw [List.mem_singleton.mp hc]; decide
    · simp at hc
  · exact safeChar_of_isDigit c (formatBits_all_digits _ _ [] (by simp) c hc)

/-- The names of the three fields are safe strings. -/
theorem safeString_names :
    safeString "deposits" ∧ safeString "fees" ∧ safeString "rewards" := by
  unfold safeString
  decide

/-- The three fields `MarshalJSON` writes have safe names and values. -/
theorem safe_fields (a b c : Int) :
    ∀ p ∈ [("deposits", Itoa a), ("fees", Itoa b), ("rewards", Itoa c)],
      safeString p.1 ∧ safeString p.2 := by
  intro p hp
  simp only [List.mem_cons, List.mem_singleton, List.not_mem_nil, or_false] at hp
  rcases hp with rfl | rfl | rfl
  · exact ⟨safeString_names.1, safeString_Itoa a⟩
  · exact ⟨safeString_names.2.1, safeString_Itoa b⟩
  · exact ⟨safeString_names.2.2, safeString_Itoa c⟩

/-- The payload `MarshalJSON` writes is the JSON object of the three fields,
in the order deposits, fees, rewards, each a JSON string. -/
theorem parseJSON_MarshalJSON (f : FrozenBalance) :
    parseJSON f.MarshalJSON.1 = .ok (.obj [("deposits", .str (Itoa f.Deposits)),
      ("fees", .str (Itoa f.Fees)), ("rewards", .str (Itoa f.Rewards))]) :=
  parseJSON_marshalStrings _ (safe_fields f.Deposits f.Fees f.Rewards)

/-- The decoder stores an object of the three string fields into the helper. -/
theorem decodeHelper_three (a b c : String) (h : FrozenBalanceHelper) :
    decodeHelper (.obj [("deposits", .str a), ("fees", .str b), ("rewards", .str c)]) h =
      (⟨a, b, c⟩, none) := rfl

/-- Decoding what `MarshalJSON` wrote gives back the value, for every receiver
and all 64-bit fields. -/
theorem UnmarshalJSON_MarshalJSON_int64 (f f0 : FrozenBalance)
    (hd : -(2 ^ 63) ≤ f.Deposits ∧ f.Deposits < 2 ^ 63)
    (hf : -(2 ^ 63) ≤ f.Fees ∧ f.Fees < 2 ^ 63)
    (hr : -(2 ^ 63) ≤ f.Rewards ∧ f.Rewards < 2 ^ 63) :
    f0.UnmarshalJSON f.MarshalJSON.1 = (f, none) := by
  unfold FrozenBalance.UnmarshalJSON unmarshalHelper
  rw [parseJSON_MarshalJSON]
  simp only [decodeHelper_three, Atoi_Itoa _ hd.1 hd.2, Atoi_Itoa _ hf.1 hf.2,
    Atoi_Itoa _ hr.1 hr.2]

/-- C7: round trip of the numeric-string codec. For every `FrozenBalance`
whose `Deposits`, `Fees` and `Rewards` lie in `[0, 2^63-1]`, `MarshalJSON`
succeeds and `UnmarshalJSON` applied to its output succeeds, on any
receiver, and yields the original value in all three fields. -/
theorem FrozenBalance.roundtrip (f f0 : FrozenBalance)
    (hd : 0 ≤ f.Deposits ∧ f.Deposits ≤ 2 ^ 63 - 1)
    (hf : 0 ≤ f.Fees ∧ f.Fees ≤ 2 ^ 63 - 1)
    (hr : 0 ≤ f.Rewards ∧ f.Rewards ≤ 2 ^ 63 - 1) :
    f.MarshalJSON.2 = none ∧ (f0.UnmarshalJSON f.MarshalJSON.1).2 = none ∧
      (f0.UnmarshalJSON f.MarshalJSON.1).1.Deposits = f.Deposits ∧
      (f0.UnmarshalJSON f.MarshalJSON.1).1.Fees = f.Fees ∧
      (f0.UnmarshalJSON f.MarshalJSON.1).1.Rewards = f.Rewards := by
  have h := UnmarshalJSON_MarshalJSON_int64 f f0 ⟨by omega, by omega⟩ ⟨by omega, by omega⟩
    ⟨by omega, by omega⟩
  rw [h]
  exact ⟨rfl, rfl, rfl, rfl, rfl⟩

/-- Witness of C7: a balance beyond 32 bits, zero, and the largest `int`. -/
theorem FrozenBalance.roundtrip_witness :
    ((0 : Int) ≤ 1216660108948 ∧ (1216660108948 : Int) ≤ 2 ^ 63 - 1) ∧
    (FrozenBalance.MarshalJSON ⟨1216660108948, 0, 9223372036854775807⟩).2 = none ∧
    (FrozenBalance.UnmarshalJSON ⟨1, 2, 3⟩
      (FrozenBalance.MarshalJSON ⟨1216660108948, 0, 9223372036854775807⟩).1).2 = none ∧
    (FrozenBalance.UnmarshalJSON ⟨1, 2, 3⟩
      (FrozenBalance.MarshalJSON ⟨1216660108948, 0, 9223372036854775807⟩).1).1.Deposits =
        1216660108948 ∧
    (FrozenBalance.UnmarshalJSON ⟨1, 2, 3⟩
      (FrozenBalance.MarshalJSON ⟨1216660108948, 0, 9223372036854775807⟩).1).1.Fees = 0 ∧
    (FrozenBalance.UnmarshalJSON ⟨1, 2, 3⟩
      (FrozenBalance.MarshalJSON ⟨1216660108948, 0, 9223372036854775807⟩).1).1.Rewards =
        9223372036854775807 :=
  ⟨by decide, FrozenBalance.roundtrip ⟨1216660108948, 0, 9223372036854775807⟩ ⟨1, 2, 3⟩
    (by decide) (by decide) (by decide)⟩

/-- The digit of a number from 1 to 9 is not the character `0`. -/
theorem digitChar_ne_zero (d : Nat) (h0 : 0 < d) (h : d < 10) : digitChar d ≠ '0' := by
  interval_cases d <;> decide

/-- `Itoa` writes the canonical base-10 rendering. -/
theorem Itoa_canonical (i : Int) : CanonicalDecimal (Itoa i) i := by
  refine ⟨FormatUint i.natAbs, Itoa_data i, formatBits_ne_nil _ _ [] (by omega),
    formatBits_all_digits _ _ [] (by simp), ?_, formatBits_decVal _ _ [] (by omega)⟩
  intro hhead
  by_cases h0 : i.natAbs = 0
  · rw [h0]; rfl
  · obtain ⟨d, rest, hd0, hd, hfmt⟩ :=
      formatBits_head (i.natAbs + 1) i.natAbs [] (by omega) (by omega)
    have hfmt' : FormatUint i.natAbs = digitChar d :: rest := hfmt
    rw [hfmt', List.head?_cons, Option.some.injEq] at hhead
    exact absurd hhead (digitChar_ne_zero d hd0 hd)

/-- The bytes `MarshalJSON` writes. -/
theorem MarshalJSON_bytes (f : FrozenBalance) :
    f.MarshalJSON = ("\x7b\"deposits\":\"" ++ Itoa f.Deposits ++ "\",\"fees\":\"" ++
      Itoa f.Fees ++ "\",\"rewards\":\"" ++ Itoa f.Rewards ++ "\"\x7d", none) := by
  have h1 := encodeString_safe _ (safeString_Itoa f.Deposits)
  have h2 := encodeString_safe _ (safeString_Itoa f.Fees)
  have h3 := encodeString_safe _ (safeString_Itoa f.Rewards)
  have k1 : encodeString "deposits" = "\"deposits\"".data := by decide
  have k2 : encodeString "fees" = "\"fees\"".data := by decide
  have k3 : encodeString "rewards" = "\"rewards\"".data := by decide
  unfold FrozenBalance.MarshalJSON marshalStrings
  refine Prod.ext (String.ext ?_) rfl
  simp only [encodeMembers, h1, h2, h3, k1, k2, k3, String.data_append]
  simp

/-- C10: for every `FrozenBalance`, `MarshalJSON` returns a nil error and the
bytes of the object with the keys deposits, fees, rewards in that order, each
value being a JSON string that holds the canonical base-10 rendering of the
field: no leading zeros, no `+`, one leading `-` for a negative value, and
"0" for zero. -/
theorem FrozenBalance.MarshalJSON_canonical (f : FrozenBalance) :
    f.MarshalJSON.2 = none ∧
    f.MarshalJSON.1 = "\x7b\"deposits\":\"" ++ Itoa f.Deposits ++ "\",\"fees\":\"" ++
      Itoa f.Fees ++ "\",\"rewards\":\"" ++ Itoa f.Rewards ++ "\"\x7d" ∧
    parseJSON f.MarshalJSON.1 = .ok (.obj [("deposits", .str (Itoa f.Deposits)),
      ("fees", .str (Itoa f.Fees)), ("rewards", .str (Itoa f.Rewards))]) ∧
    CanonicalDecimal (Itoa f.Deposits) f.Deposits ∧ CanonicalDecimal (Itoa f.Fees) f.Fees ∧
    CanonicalDecimal (Itoa f.Rewards) f.Rewards ∧ Itoa 0 = "0" := by
  refine ⟨rfl, ?_, parseJSON_MarshalJSON f, Itoa_canonical _, Itoa_canonical _,
    Itoa_canonical _, by decide⟩
  rw [MarshalJSON_bytes]

/-! ## What `UnmarshalJSON` accepts -/

/-- The three outcomes of the loop of `ParseUint`: it reads digits only and
succeeds, or it reports a range error with the largest value, or a syntax
error with zero. -/
theorem parseUintLoop_cases (cs : List Char) (n : Nat) :
    ((parseUintLoop cs n).2 = none ∧ cs.all isDigit = true) ∨
      parseUintLoop cs n = (maxUint64, some .ErrRange) ∨
      parseUintLoop cs n = (0, some .ErrSyn) := by
  induction cs generalizing n with
  | nil => left; simp [parseUintLoop]
  | cons c cs ih =>
    unfold parseUintLoop
    by_cases hc : isDigit c = true
    · rw [if_pos hc]
      split
      · right; left; rfl
      · split
        · right; left; rfl
        · rcases ih (n * 10 + (c.toNat - 48)) with h | h | h
          · left; exact ⟨h.1, by simp [hc, h.2]⟩
          · right; left; exact h
          · right; right; exact h
    · rw [if_neg hc]; right; right; rfl

/-- A string `ParseInt` accepts is a decimal numeral. -/
theorem ParseInt_ok (s : List Char) (h : (ParseInt s).2 = none) : isNumeral ⟨s⟩ = true := by
  cases s with
  | nil => simp [ParseInt] at h
  | cons c rest =>
    have hmax : maxUint64 = 18446744073709551615 := rfl
    by_cases hsign : c = '+' ∨ c = '-'
    · simp only [ParseInt, hsign, if_true, ParseUint] at h
      by_cases hrest : rest = []
      · simp [hrest] at h
      · rw [if_neg hrest] at h
        rcases parseUintLoop_cases rest 0 with hl | hl | hl
        · have hne : rest.isEmpty = false := by cases rest <;> simp_all
          simp [isNumeral, hsign, hl.2, hne]
        · rw [hl] at h
          by_cases hm : c = '-' <;> simp [hm, hmax] at h
        · rw [hl] at h
          simp at h
    · simp only [ParseInt, hsign, if_false, ParseUint, reduceCtorEq] at h
      rcases parseUintLoop_cases (c :: rest) 0 with hl | hl | hl
      · simp only [isNumeral, hsign, if_false]
        exact hl.2
      · rw [hl] at h
        have hm : c ≠ '-' := fun hm => hsign (Or.inr hm)
        simp [hm, hmax] at h
      · rw [hl] at h
        simp at h

/-- A string `Atoi` accepts is a decimal numeral. -/
theorem Atoi_ok (s : String) (h : (Atoi s).2 = none) : isNumeral s = true := by
  have : (ParseInt s.data).2 = none := by
    unfold Atoi at h
    rcases hp : ParseInt s.data with ⟨v, _ | k⟩
    · rfl
    · rw [hp] at h; simp at h
  exact ParseInt_ok s.data this

/-- Reading a field after an assignment. -/
theorem FrozenBalanceHelper.get_set (h : FrozenBalanceHelper) (f g : HelperField)
    (s : String) : (h.set f s).get g = if g = f then s else h.get g := by
  cases f <;> cases g <;> rfl

/-- The last string of a list of values, by its first value. -/
theorem lastString_cons (v : JSON) (vs : List JSON) (d : String) :
    (lastString (v :: vs)).getD d = (lastString vs).getD (v.asString.getD d) := by
  unfold lastString
  cases hv : v.asString with
  | none => rw [List.filterMap_cons_none hv]; rfl
  | some s =>
    rw [List.filterMap_cons_some hv, List.getLast?_cons]
    cases (List.filterMap JSON.asString vs).getLast? <;> rfl

/-- What a member does to the field `f` of the helper. -/
theorem decodeMember_get (st : FrozenBalanceHelper × Option GoError) (m : String × JSON)
    (f : HelperField) :
    (decodeMember st m).1.get f =
      if findField m.1 = some f then m.2.asString.getD (st.1.get f) else st.1.get f := by
  unfold decodeMember
  cases hg : findField m.1 with
  | none => simp
  | some g =>
    cases hv : m.2 <;>
      by_cases hfg : g = f <;>
        simp [JSON.asString, FrozenBalanceHelper.get_set, hfg, eq_comm]

/-- The values matched to a field, by the first member. -/
theorem fieldValues_cons (f : HelperField) (m : String × JSON) (ms : List (String × JSON)) :
    fieldValues f (m :: ms) =
      if findField m.1 = some f then m.2 :: fieldValues f ms else fieldValues f ms := by
  unfold fieldValues
  by_cases h : findField m.1 = some f <;> simp [List.filter_cons, h]

/-- After the decoder has gone through the members of an object, a field
holds the last string matched to it, or what it held before. -/
theorem foldl_decodeMember_get (members : List (String × JSON))
    (st : FrozenBalanceHelper × Option GoError) (f : HelperField) :
    (members.foldl decodeMember st).1.get f =
      (lastString (fieldValues f members)).getD (st.1.get f) := by
  induction members generalizing st with
  | nil => rfl
  | cons m ms ih =>
    rw [List.foldl_cons, ih, decodeMember_get, fieldValues_cons]
    by_cases h : findField m.1 = some f
    · rw [if_pos h, if_pos h, lastString_cons]
    · rw [if_neg h, if_neg h]

/-- A member leaves the decoder without an error only if there was none
before and its value, when matched to a field, is a string or `null`. -/
theorem decodeMember_err (st : FrozenBalanceHelper × Option GoError) (m : String × JSON)
    (h : (decodeMember st m).2 = none) :
    st.2 = none ∧ ∀ f, findField m.1 = some f → m.2 = .null ∨ ∃ s, m.2 = .str s := by
  unfold decodeMember at h
  cases hg : findField m.1 with
  | none => rw [hg] at h; exact ⟨h, fun f hf => by simp at hf⟩
  | some g =>
    rw [hg] at h
    cases hv : m.2 <;> rw [hv] at h <;> cases hst : st.2 <;> simp_all [Option.orElse]

/-- The decoder ends without an error only if every value matched to a field
is a string or `null`. -/
theorem foldl_decodeMember_err (members : List (String × JSON))
    (st : FrozenBalanceHelper × Option GoError)
    (h : (members.foldl decodeMember st).2 = none) :
    st.2 = none ∧ ∀ f, ∀ v ∈ fieldValues f members, v = .null ∨ ∃ s, v = .str s := by
  induction members generalizing st with
  | nil => exact ⟨h, fun f v hv => by simp [fieldValues] at hv⟩
  | cons m ms ih =>
    rw [List.foldl_cons] at h
    obtain ⟨h1, h2⟩ := ih _ h
    obtain ⟨h3, h4⟩ := decodeMember_err st m h1
    refine ⟨h3, fun f v hv => ?_⟩
    rw [fieldValues_cons] at hv
    by_cases hf : findField m.1 = some f
    · rw [if_pos hf] at hv
      rcases List.mem_cons.mp hv with rfl | hv
      · exact h4 f hf
      · exact h2 f v hv
    · rw [if_neg hf] at hv
      exact h2 f v hv

/-- What a successful `UnmarshalJSON` went through: the payload is well-formed
JSON, the decoder filled the helper without an error, and `Atoi` accepted
each of the three strings. -/
theorem UnmarshalJSON_ok_inv (f0 : FrozenBalance) (data : String)
    (h : (f0.UnmarshalJSON data).2 = none) :
    ∃ v hh, parseJSON data = .ok v ∧ decodeHelper v ⟨"", "", ""⟩ = (hh, none) ∧
      ∀ f : HelperField, (Atoi (hh.get f)).2 = none := by
  unfold FrozenBalance.UnmarshalJSON unmarshalHelper at h
  cases hp : parseJSON data with
  | error e => rw [hp] at h; simp at h
  | ok v =>
    rw [hp] at h
    rcases hdec : decodeHelper v ⟨"", "", ""⟩ with ⟨hh, _ | e⟩
    · refine ⟨v, hh, rfl, hdec, ?_⟩
      simp only [hdec] at h
      rcases hA : Atoi hh.Deposits with ⟨a, _ | e⟩
      · rcases hB : Atoi hh.Fees with ⟨b, _ | e⟩
        · rcases hC : Atoi hh.Rewards with ⟨c, _ | e⟩
          · intro f
            cases f
            · simp [FrozenBalanceHelper.get, hA]
            · simp [FrozenBalanceHelper.get, hB]
            · simp [FrozenBalanceHelper.get, hC]
          · simp [hA, hB, hC] at h
        · simp [hA, hB] at h
      · simp [hA] at h
    · simp [hdec] at h

/-- When `UnmarshalJSON` succeeds, the payload is a JSON object in which, for
each of the three fields, every value matched to the field is a string or
`null` and the last string among them exists and is a decimal numeral. -/
theorem UnmarshalJSON_ok_members (f0 : FrozenBalance) (data : String)
    (h : (f0.UnmarshalJSON data).2 = none) :
    ∃ members, parseJSON data = .ok (.obj members) ∧
      ∀ f : HelperField,
        (∀ v ∈ fieldValues f members, v = .null ∨ ∃ s, v = .str s) ∧
        ∃ s, lastString (fieldValues f members) = some s ∧ isNumeral s = true := by
  obtain ⟨v, hh, hp, hdec, hA⟩ := UnmarshalJSON_ok_inv f0 data h
  have hempty : isNumeral "" = false := rfl
  cases v with
  | obj members =>
    refine ⟨members, hp, fun f => ?_⟩
    have hfold : members.foldl decodeMember (⟨"", "", ""⟩, none) = (hh, none) := hdec
    have herr := (foldl_decodeMember_err members _ (by rw [hfold])).2 f
    have hget := foldl_decodeMember_get members (⟨"", "", ""⟩, none) f
    rw [hfold] at hget
    have hnum := Atoi_ok _ (hA f)
    refine ⟨herr, ?_⟩
    cases hl : lastString (fieldValues f members) with
    | none =>
      rw [hl] at hget
      have : hh.get f = "" := by rw [hget]; cases f <;> rfl
      rw [this, hempty] at hnum
      exact absurd hnum (by simp)
    | some s =>
      rw [hl] at hget
      exact ⟨s, rfl, by rw [← show hh.get f = s from hget]; exact hnum⟩
  | null =>
    have : hh = ⟨"", "", ""⟩ := by
      have : decodeHelper .null ⟨"", "", ""⟩ = (⟨"", "", ""⟩, none) := rfl
      rw [this] at hdec
      exact (Prod.mk.inj hdec).1.symm
    have hnum := Atoi_ok _ (hA .Deposits)
    rw [this] at hnum
    exact absurd hnum (by decide)
  | bool b => simp [decodeHelper] at hdec
  | num lit => simp [decodeHelper] at hdec
  | str s => simp [decodeHelper] at hdec
  | arr elems => simp [decodeHelper] at hdec

/-- Counterexample to C8 as stated: in this object the field deposits is the
string "abc", which is no decimal numeral, and a later member "DEPOSITS",
matched to the same field without regard to case, gives the string "5". The
later string wins and `UnmarshalJSON` succeeds with (5, 1, 2). The same
happens when the later member is named "deposits" as well. -/
theorem FrozenBalance.UnmarshalJSON_overridden_string :
    parseJSON ("\x7b\"deposits\":\"abc\",\"DEPOSITS\":\"5\",\"fees\":\"1\"," ++
        "\"rewards\":\"2\"\x7d") =
      .ok (.obj [("deposits", .str "abc"), ("DEPOSITS", .str "5"), ("fees", .str "1"),
        ("rewards", .str "2")]) ∧
    isNumeral "abc" = false ∧
    FrozenBalance.UnmarshalJSON ⟨7, 8, 9⟩
      ("\x7b\"deposits\":\"abc\",\"DEPOSITS\":\"5\",\"fees\":\"1\"," ++
        "\"rewards\":\"2\"\x7d") = (⟨5, 1, 2⟩, none) ∧
    FrozenBalance.UnmarshalJSON ⟨7, 8, 9⟩
      ("\x7b\"deposits\":\"abc\",\"deposits\":\"5\",\"fees\":\"1\"," ++
        "\"rewards\":\"2\"\x7d") = (⟨5, 1, 2⟩, none) :=
  ⟨rfl, rfl, rfl, rfl⟩

/-- C8, amended: for every payload that is a JSON object in which, for one of
the fields deposits, fees, rewards, the last JSON string among the members
matched to the field is not a decimal numeral (such as "abc", "12x" or the
empty string), `UnmarshalJSON` returns a non-nil error. A member is matched
to a field by its name, exactly or else without regard to case, and a
numeral is an optional sign followed by one or more digits. -/
theorem FrozenBalance.UnmarshalJSON_non_numeral (f0 : FrozenBalance) (data : String)
    (members : List (String × JSON)) (f : HelperField) (s : String)
    (hp : parseJSON data = .ok (.obj members))
    (hs : lastString (fieldValues f members) = some s) (hn : isNumeral s = false) :
    (f0.UnmarshalJSON data).2 ≠ none := by
  intro h
  obtain ⟨members', hp', hall⟩ := UnmarshalJSON_ok_members f0 data h
  rw [hp] at hp'
  have hm : members = members' := by injection hp' with hp'; injection hp'
  subst hm
  obtain ⟨-, s', hs', hn'⟩ := hall f
  rw [hs] at hs'
  injection hs' with hs'
  subst hs'
  rw [hn] at hn'
  exact absurd hn' (by simp)

/-- Witness of C8, amended: the fees are "12x", and also "abc" and "" are no numerals. -/
theorem FrozenBalance.UnmarshalJSON_non_numeral_witness :
    parseJSON "\x7b\"deposits\":\"1\",\"fees\":\"12x\",\"rewards\":\"2\"\x7d" =
      .ok (.obj [("deposits", .str "1"), ("fees", .str "12x"), ("rewards", .str "2")]) ∧
    lastString (fieldValues .Fees
      [("deposits", .str "1"), ("fees", .str "12x"), ("rewards", .str "2")]) = some "12x" ∧
    isNumeral "12x" = false ∧ isNumeral "abc" = false ∧ isNumeral "" = false ∧
    (FrozenBalance.UnmarshalJSON ⟨7, 8, 9⟩
      "\x7b\"deposits\":\"1\",\"fees\":\"12x\",\"rewards\":\"2\"\x7d").2 ≠ none :=
  ⟨rfl, rfl, rfl, rfl, rfl,
    FrozenBalance.UnmarshalJSON_non_numeral ⟨7, 8, 9⟩ _ _ .Fees "12x" rfl rfl rfl⟩

/-- Counterexample to C9 as stated: the strings "-5" and "+7" hold a
character that is no decimal digit, and `UnmarshalJSON` accepts the payload
and decodes -5 and 7. -/
theorem FrozenBalance.UnmarshalJSON_accepts_sign :
    parseJSON "\x7b\"deposits\":\"-5\",\"fees\":\"+7\",\"rewards\":\"0\"\x7d" =
      .ok (.obj [("deposits", .str "-5"), ("fees", .str "+7"), ("rewards", .str "0")]) ∧
    "-5".data.all isDigit = false ∧ "+7".data.all isDigit = false ∧
    FrozenBalance.UnmarshalJSON ⟨1, 2, 3⟩
      "\x7b\"deposits\":\"-5\",\"fees\":\"+7\",\"rewards\":\"0\"\x7d" = (⟨-5, 7, 0⟩, none) :=
  ⟨rfl, rfl, rfl, rfl⟩

/-- C9, amended: `UnmarshalJSON` succeeds only on payloads that are a JSON
object in which, for each of the fields deposits, fees and rewards, every
member matched to the field is a JSON string or `null`, at least one of them
is a string, and the last string among them is made up of an optional sign
`+` or `-` followed by one or more decimal digits. A member is matched to a
field by its name, exactly or else without regard to case (`foldName`). So
the call returns an error when a member matched to a field is a JSON number,
when no member or only `null` members are matched to a field, and when the
last string matched to a field is no such numeral. -/
theorem FrozenBalance.UnmarshalJSON_succeeds_only (f0 : FrozenBalance) (data : String)
    (h : (f0.UnmarshalJSON data).2 = none) :
    ∃ members, parseJSON data = .ok (.obj members) ∧
      ∀ f : HelperField,
        (∀ v ∈ fieldValues f members, v = .null ∨ ∃ s, v = .str s) ∧
        ∃ s, lastString (fieldValues f members) = some s ∧ isNumeral s = true :=
  UnmarshalJSON_ok_members f0 data h

/-- Witness of C9, amended: a payload with signs that decodes. -/
theorem FrozenBalance.UnmarshalJSON_succeeds_only_witness :
    (FrozenBalance.UnmarshalJSON ⟨1, 2, 3⟩
      "\x7b\"deposits\":\"-5\",\"fees\":\"+7\",\"rewards\":\"0\"\x7d").2 = none ∧
    ∃ members,
      parseJSON "\x7b\"deposits\":\"-5\",\"fees\":\"+7\",\"rewards\":\"0\"\x7d" =
        .ok (.obj members) ∧
      ∀ f : HelperField,
        (∀ v ∈ fieldValues f members, v = .null ∨ ∃ s, v = .str s) ∧
        ∃ s, lastString (fieldValues f members) = some s ∧ isNumeral s = true :=
  ⟨rfl, FrozenBalance.UnmarshalJSON_succeeds_only ⟨1, 2, 3⟩ _ rfl⟩

/-! ## The query option encoders -/

/-- C11: an input whose only optional field set is `Cycle = 100` is encoded
as the one option ("cycle", "100"), and an input with no optional field set
as the empty sequence, for both encoders and whatever `BlockHash` holds. -/
theorem contructRPCOptions_cycle_only (BlockHash : String) :
    BakingRightsInput.contructRPCOptions ⟨BlockHash, 0, 100, "", 0⟩ = [⟨"cycle", "100"⟩] ∧
    EndorsingRightsInput.contructRPCOptions ⟨BlockHash, 0, 100, ""⟩ = [⟨"cycle", "100"⟩] ∧
    BakingRightsInput.contructRPCOptions ⟨BlockHash, 0, 0, "", 0⟩ = [] ∧
    EndorsingRightsInput.contructRPCOptions ⟨BlockHash, 0, 0, ""⟩ = [] := by
  have h : Itoa 100 = "100" := by decide
  refine ⟨?_, ?_, ?_, ?_⟩ <;>
    simp [BakingRightsInput.contructRPCOptions, EndorsingRightsInput.contructRPCOptions, h]

/-- The baking rights encoder keeps the entries of its table that are set. -/
theorem BakingRightsInput.contructRPCOptions_eq (b : BakingRightsInput) :
    b.contructRPCOptions = keptOptions (bakingOptionTable b) := by
  unfold BakingRightsInput.contructRPCOptions keptOptions bakingOptionTable
  by_cases hc : b.Cycle = 0 <;> by_cases hd : b.Delegate = "" <;>
    by_cases hl : b.Level = 0 <;> by_cases hm : b.MaxPriority = 0 <;>
      simp [hc, hd, hl, hm, List.filter_cons]

/-- C12: for every `BakingRightsInput`, `contructRPCOptions` returns the
entries of [("cycle", itoa Cycle), ("delegate", Delegate), ("level", itoa
Level), ("max_priority", itoa MaxPriority)] whose source field differs from
its zero value, in that order: a subsequence of the four, as long as the
number of optional fields that are set, with the integers in canonical base
10. -/
theorem BakingRightsInput.contructRPCOptions_spec (b : BakingRightsInput) :
    b.contructRPCOptions = keptOptions
      [(decide (b.Cycle ≠ 0), ⟨"cycle", Itoa b.Cycle⟩),
        (decide (b.Delegate ≠ ""), ⟨"delegate", b.Delegate⟩),
        (decide (b.Level ≠ 0), ⟨"level", Itoa b.Level⟩),
        (decide (b.MaxPriority ≠ 0), ⟨"max_priority", Itoa b.MaxPriority⟩)] ∧
    List.Sublist b.contructRPCOptions
      [⟨"cycle", Itoa b.Cycle⟩, ⟨"delegate", b.Delegate⟩, ⟨"level", Itoa b.Level⟩,
        ⟨"max_priority", Itoa b.MaxPriority⟩] ∧
    b.contructRPCOptions.length =
      (if b.Cycle ≠ 0 then 1 else 0) + (if b.Delegate ≠ "" then 1 else 0) +
        (if b.Level ≠ 0 then 1 else 0) + (if b.MaxPriority ≠ 0 then 1 else 0) ∧
    CanonicalDecimal (Itoa b.Cycle) b.Cycle ∧ CanonicalDecimal (Itoa b.Level) b.Level ∧
    CanonicalDecimal (Itoa b.MaxPriority) b.MaxPriority := by
  refine ⟨BakingRightsInput.contructRPCOptions_eq b, ?_, ?_, Itoa_canonical _,
    Itoa_canonical _, Itoa_canonical _⟩
  · rw [BakingRightsInput.contructRPCOptions_eq]
    exact (List.filter_sublist _).map Prod.snd
  · unfold BakingRightsInput.contructRPCOptions
    by_cases hc : b.Cycle = 0 <;> by_cases hd : b.Delegate = "" <;>
      by_cases hl : b.Level = 0 <;> by_cases hm : b.MaxPriority = 0 <;>
        simp [hc, hd, hl, hm]

/-- The four keys in their fixed order are in ascending order. -/
theorem Ascending_all_keys : Ascending ["cycle", "delegate", "level", "max_priority"] := by
  unfold Ascending
  decide

/-- The keys the baking rights encoder emits are a subsequence of the four. -/
theorem bakingKeys_sublist (b : BakingRightsInput) :
    List.Sublist (optionKeys b.contructRPCOptions)
      ["cycle", "delegate", "level", "max_priority"] := by
  unfold BakingRightsInput.contructRPCOptions optionKeys
  by_cases hc : b.Cycle = 0 <;> by_cases hd : b.Delegate = "" <;>
    by_cases hl : b.Level = 0 <;> by_cases hm : b.MaxPriority = 0 <;>
      simp [hc, hd, hl, hm]

/-- The keys the endorsing rights encoder emits are a subsequence of the
first three. -/
theorem endorsingKeys_sublist (b : EndorsingRightsInput) :
    List.Sublist (optionKeys b.contructRPCOptions) ["cycle", "delegate", "level"] := by
  unfold EndorsingRightsInput.contructRPCOptions optionKeys
  by_cases hc : b.Cycle = 0 <;> by_cases hd : b.Delegate = "" <;>
    by_cases hl : b.Level = 0 <;> simp [hc, hd, hl]

/-- Counterexample to C13 as stated: no `BakingRightsInput` makes the encoder
emit keys out of ascending lexicographic order, because the fixed order
cycle, delegate, level, max_priority is itself the alphabetical one. -/
theorem no_unsorted_option_keys :
    ¬ ∃ b : BakingRightsInput, ¬ Ascending (optionKeys b.contructRPCOptions) :=
  fun ⟨b, hb⟩ => hb (Ascending_all_keys.sublist (bakingKeys_sublist b))

/-- C13, amended: the order in which `contructRPCOptions` emits query options
is the fixed order cycle, delegate, level, max_priority of the endpoint,
which is also the alphabetical order of the keys: for every input of either
encoder the emitted keys are a subsequence of that order and ascend. -/
theorem optionKeys_fixed_order :
    (∀ b : BakingRightsInput,
      List.Sublist (optionKeys b.contructRPCOptions)
        ["cycle", "delegate", "level", "max_priority"] ∧
      Ascending (optionKeys b.contructRPCOptions)) ∧
    (∀ b : EndorsingRightsInput,
      List.Sublist (optionKeys b.contructRPCOptions) ["cycle", "delegate", "level"] ∧
      Ascending (optionKeys b.contructRPCOptions)) := by
  refine ⟨fun b => ⟨bakingKeys_sublist b, ?_⟩,
    fun b => ⟨endorsingKeys_sublist b, ?_⟩⟩
  · exact Ascending_all_keys.sublist (bakingKeys_sublist b)
  · have h3 : List.Sublist ["cycle", "delegate", "level"]
        ["cycle", "delegate", "level", "max_priority"] := by decide
    exact (Ascending_all_keys.sublist h3).sublist (endorsingKeys_sublist b)

/-! ## The requests of the endpoints -/

/-- The block hash of a request without a cycle is the one passed in, and
nothing is fetched. -/
theorem extractBlockHash_of_zero (c : Client) (H : String) (tr : List Call) :
    c.extractBlockHash 0 H tr = ((H, none), tr) := by
  simp [Client.extractBlockHash]

/-- The block hash of a request with a cycle is the one of the fetched
descriptor. -/
theorem extractBlockHash_of_fetched (c : Client) (C : Int) (D : Cycle) (H : String)
    (tr : List Call) (hC : C ≠ 0) (hD : c.cycleResp tr C = .ok D) :
    c.extractBlockHash C H tr = ((D.BlockHash, none), tr ++ [.Cycle C]) := by
  simp [Client.extractBlockHash, Client.Cycle, hC, hD]

/-- `StakingBalance` on an input that fails `validate`. -/
theorem StakingBalance_of_invalid (c : Client) (input : StakingBalanceInput) (tr : List Call)
    (e : GoError) (hv : input.validate = some e) :
    c.StakingBalance input tr =
      ((0, some (.Wrap e ("could not get staking balance for '" ++ input.Delegate ++ "'"))),
        tr) := by
  simp [Client.StakingBalance, hv]

/-- `StakingBalance` when the block hash cannot be resolved. -/
theorem StakingBalance_of_unresolved (c : Client) (input : StakingBalanceInput)
    (tr tr1 : List Call) (s : String) (e : GoError) (hv : input.validate = none)
    (hB : c.extractBlockHash input.Cycle input.Blockhash tr = ((s, some e), tr1)) :
    c.StakingBalance input tr =
      ((0, some (.Wrap e ("could not get staking balance for '" ++ input.Delegate ++ "'"))),
        tr1) := by
  simp [Client.StakingBalance, hv, hB]

/-- `StakingBalance` once the block hash `B` is resolved: the one transport
call, and what becomes of its answer. -/
theorem StakingBalance_of_resolved (c : Client) (input : StakingBalanceInput)
    (tr tr1 : List Call) (B : String) (hv : input.validate = none)
    (hB : c.extractBlockHash input.Cycle input.Blockhash tr = ((B, none), tr1)) :
    c.StakingBalance input tr =
      (match c.getResp tr1 (stakingBalancePath c B input.Delegate) [] with
        | .error err =>
          (0, some (.Wrap err ("could not get staking balance for '" ++ input.Delegate ++ "'")))
        | .ok resp =>
          match unmarshalString resp "" with
          | (_, some err) =>
            (0, some (.Wrap err
              ("could not unmarshal staking balance for '" ++ input.Delegate ++ "'")))
          | (stakingBalanceStr, none) => Atoi stakingBalanceStr,
        tr1 ++ [.get (stakingBalancePath c B input.Delegate) []]) := by
  simp only [Client.StakingBalance, hv, hB, Client.get, stakingBalancePath]
  cases c.getResp tr1 ("/chains/" ++ c.chain ++ "/blocks/" ++ B ++ "/context/delegates/" ++
      input.Delegate ++ "/staking_balance") [] with
  | error err => rfl
  | ok resp =>
    simp only
    rcases unmarshalString resp "" with ⟨s, _ | err⟩ <;> rfl

/-- C14: on an input that passes `validate` and whose block hash is resolved,
`StakingBalance` makes its transport request without query options to the
path "/chains/<chain>/blocks/<B>/context/delegates/<Delegate>/staking_balance":
with `Cycle == 0` it is the only request and `B` is `input.Blockhash`, with
`Cycle != 0` it follows the descriptor fetch and `B` is the block hash of
the descriptor. -/
theorem StakingBalance_request (c : Client) (input : StakingBalanceInput) (tr : List Call)
    (hv : input.validate = none) :
    (input.Cycle = 0 →
      (c.StakingBalance input tr).2 =
        tr ++ [.get ("/chains/" ++ c.chain ++ "/blocks/" ++ input.Blockhash ++
          "/context/delegates/" ++ input.Delegate ++ "/staking_balance") []]) ∧
    (∀ D : Cycle, input.Cycle ≠ 0 → (c.Cycle input.Cycle tr).1 = .ok D →
      (c.StakingBalance input tr).2 =
        tr ++ [.Cycle input.Cycle, .get ("/chains/" ++ c.chain ++ "/blocks/" ++ D.BlockHash ++
          "/context/delegates/" ++ input.Delegate ++ "/staking_balance") []]) := by
  constructor
  · intro h0
    have hB : c.extractBlockHash input.Cycle input.Blockhash tr =
        ((input.Blockhash, none), tr) := by rw [h0]; exact extractBlockHash_of_zero c _ tr
    rw [StakingBalance_of_resolved c input tr tr _ hv hB]
    rfl
  · intro D hC hD
    rw [StakingBalance_of_resolved c input tr _ _ hv
      (extractBlockHash_of_fetched c input.Cycle D input.Blockhash tr hC hD)]
    simp [stakingBalancePath]

/-- Witness of C14: a request by block hash and a request by cycle. -/
theorem StakingBalance_request_witness :
    StakingBalanceInput.validate ⟨"BLhash", 0, "tz1"⟩ = none ∧
    (deadClient.StakingBalance ⟨"BLhash", 0, "tz1"⟩ []).2 =
      [] ++ [.get ("/chains/" ++ deadClient.chain ++ "/blocks/" ++ "BLhash" ++
        "/context/delegates/" ++ "tz1" ++ "/staking_balance") []] ∧
    StakingBalanceInput.validate ⟨"", 100, "tz1"⟩ = none ∧
    (snapshotClient.StakingBalance ⟨"", 100, "tz1"⟩ []).2 =
      [] ++ [.Cycle 100, .get ("/chains/" ++ snapshotClient.chain ++ "/blocks/" ++
        "BLsnapshot" ++ "/context/delegates/" ++ "tz1" ++ "/staking_balance") []] :=
  ⟨rfl, (StakingBalance_request deadClient ⟨"BLhash", 0, "tz1"⟩ [] rfl).1 rfl, rfl,
    (StakingBalance_request snapshotClient ⟨"", 100, "tz1"⟩ [] rfl).2 ⟨"BLsnapshot"⟩
      (by decide) rfl⟩

/-- A safe string between two quotes is read as that JSON string. -/
theorem parseJSON_quoted (s : String) (h : safeString s) :
    parseJSON ("\"" ++ s ++ "\"") = .ok (.str s) := by
  have hdata : ("\"" ++ s ++ "\"").data = encodeString s ++ [] := by
    rw [encodeString_safe s h]
    simp [String.data_append]
  unfold parseJSON
  rw [hdata, scanFrom_encodeString s h .BeginValue [] [] (by simp)]
  rfl

/-- The decimal rendering of a 64-bit integer between two quotes is
unmarshalled and converted back to that integer. -/
theorem Atoi_unmarshalString_Itoa (n : Int) (hlo : -(2 ^ 63) ≤ n) (hhi : n < 2 ^ 63) :
    unmarshalString ("\"" ++ Itoa n ++ "\"") "" = (Itoa n, none) ∧
      Atoi (Itoa n) = (n, none) := by
  refine ⟨?_, Atoi_Itoa n hlo hhi⟩
  unfold unmarshalString
  rw [parseJSON_quoted _ (safeString_Itoa n)]

/-- C15: on a validated input whose block hash is resolved, if the transport
answers with the JSON string that holds the decimal rendering of an integer
`n` in `[0, 2^63-1]`, `StakingBalance` returns exactly `n` and a nil error. -/
theorem StakingBalance_value (c : Client) (input : StakingBalanceInput) (tr tr1 : List Call)
    (B : String) (n : Int) (hv : input.validate = none)
    (hB : c.extractBlockHash input.Cycle input.Blockhash tr = ((B, none), tr1))
    (hn : 0 ≤ n ∧ n ≤ 2 ^ 63 - 1)
    (hget : (c.get ("/chains/" ++ c.chain ++ "/blocks/" ++ B ++ "/context/delegates/" ++
      input.Delegate ++ "/staking_balance") [] tr1).1 = .ok ("\"" ++ Itoa n ++ "\"")) :
    (c.StakingBalance input tr).1 = (n, none) := by
  have hget' : c.getResp tr1 (stakingBalancePath c B input.Delegate) [] =
      .ok ("\"" ++ Itoa n ++ "\"") := hget
  obtain ⟨hu, ha⟩ := Atoi_unmarshalString_Itoa n (by omega) (by omega)
  rw [StakingBalance_of_resolved c input tr tr1 B hv hB, hget']
  simp only [hu, ha]

/-- Witness of C15: the balance 1216660108948, beyond 32 bits. -/
theorem StakingBalance_value_witness :
    StakingBalanceInput.validate ⟨"BLhash", 0, "tz1"⟩ = none ∧
    ((0 : Int) ≤ 1216660108948 ∧ (1216660108948 : Int) ≤ 2 ^ 63 - 1) ∧
    "\"" ++ Itoa 1216660108948 ++ "\"" = "\"1216660108948\"" ∧
    (2 : Int) ^ 32 < 1216660108948 ∧
    ((bodyClient "\"1216660108948\"").StakingBalance ⟨"BLhash", 0, "tz1"⟩ []).1 =
      (1216660108948, none) :=
  ⟨rfl, by decide, by decide, by decide,
    StakingBalance_value (bodyClient "\"1216660108948\"") ⟨"BLhash", 0, "tz1"⟩ [] []
      "BLhash" 1216660108948 rfl rfl (by decide) rfl⟩

/-- C16: for every `BakingRightsInput` with a non-empty `BlockHash`,
`BakingRights` makes one transport request, to the path
"/chains/<chain>/blocks/<BlockHash>/helpers/baking_rights" and with the
query options `contructRPCOptions` returns for the input. -/
theorem BakingRights_request (c : Client) (ub : String → BakingRights × Option GoError)
    (b : BakingRightsInput) (tr : List Call) (hb : b.BlockHash ≠ "") :
    (c.BakingRights ub b tr).2 =
      tr ++ [.get ("/chains/" ++ c.chain ++ "/blocks/" ++ b.BlockHash ++
        "/helpers/baking_rights") b.contructRPCOptions] := by
  have hv : b.validateStruct = none := by
    simp [BakingRightsInput.validateStruct, validateStruct_single, hb]
  simp only [Client.BakingRights, hv, Client.get]
  cases c.getResp tr ("/chains/" ++ c.chain ++ "/blocks/" ++ b.BlockHash ++
      "/helpers/baking_rights") b.contructRPCOptions with
  | error err => rfl
  | ok resp =>
    simp only
    rcases ub resp with ⟨r, _ | err⟩ <;> rfl

/-- Witness of C16: a request with three options. -/
theorem BakingRights_request_witness :
    "BLhash" ≠ "" ∧
    (deadClient.BakingRights (fun _ => ([], none)) ⟨"BLhash", 5, 100, "tz1", 0⟩ []).2 =
      [] ++ [.get ("/chains/" ++ deadClient.chain ++ "/blocks/" ++ "BLhash" ++
        "/helpers/baking_rights")
        (BakingRightsInput.contructRPCOptions ⟨"BLhash", 5, 100, "tz1", 0⟩)] ∧
    BakingRightsInput.contructRPCOptions ⟨"BLhash", 5, 100, "tz1", 0⟩ =
      [⟨"cycle", "100"⟩, ⟨"delegate", "tz1"⟩, ⟨"level", "5"⟩] :=
  ⟨by decide,
    BakingRights_request deadClient (fun _ => ([], none)) ⟨"BLhash", 5, 100, "tz1", 0⟩ []
      (by decide),
    by decide⟩

/-- C17: for every `EndorsingRightsInput` with a non-empty `BlockHash`,
`EndorsingRights` makes one transport request, to the path
"/chains/<chain>/blocks/<BlockHash>/helpers/endorsing_rights" and with the
query options `contructRPCOptions` returns for the input. -/
theorem EndorsingRights_request (c : Client)
    (ue : String → EndorsingRights × Option GoError)
    (b : EndorsingRightsInput) (tr : List Call) (hb : b.BlockHash ≠ "") :
    (c.EndorsingRights ue b tr).2 =
      tr ++ [.get ("/chains/" ++ c.chain ++ "/blocks/" ++ b.BlockHash ++
        "/helpers/endorsing_rights") b.contructRPCOptions] := by
  have hv : b.validateStruct = none := by
    simp [EndorsingRightsInput.validateStruct, validateStruct_single, hb]
  simp only [Client.EndorsingRights, hv, Client.get]
  cases c.getResp tr ("/chains/" ++ c.chain ++ "/blocks/" ++ b.BlockHash ++
      "/helpers/endorsing_rights") b.contructRPCOptions with
  | error err => rfl
  | ok resp =>
    simp only
    rcases ue resp with ⟨r, _ | err⟩ <;> rfl

/-- Witness of C17: a request with two options. -/
theorem EndorsingRights_request_witness :
    "BLhash" ≠ "" ∧
    (deadClient.EndorsingRights (fun _ => ([], none)) ⟨"BLhash", -7, 0, "tz1"⟩ []).2 =
      [] ++ [.get ("/chains/" ++ deadClient.chain ++ "/blocks/" ++ "BLhash" ++
        "/helpers/endorsing_rights")
        (EndorsingRightsInput.contructRPCOptions ⟨"BLhash", -7, 0, "tz1"⟩)] ∧
    EndorsingRightsInput.contructRPCOptions ⟨"BLhash", -7, 0, "tz1"⟩ =
      [⟨"delegate", "tz1"⟩, ⟨"level", "-7"⟩] :=
  ⟨by decide,
    EndorsingRights_request deadClient (fun _ => ([], none)) ⟨"BLhash", -7, 0, "tz1"⟩ []
      (by decide),
    by decide⟩

/-! ## The errors of the endpoints -/

/-- Every error of `BakingRights` wraps its cause with one of three texts. -/
theorem BakingRights_error (c : Client) (ub : String → BakingRights × Option GoError)
    (b : BakingRightsInput) (tr : List Call) (err : GoError)
    (h : (c.BakingRights ub b tr).1.2 = some err) :
    ∃ cause, err = .Wrap cause "invalid input" ∨ err = .Wrap cause "could not get baking rights" ∨
      err = .Wrap cause "could not unmarshal baking rights" := by
  unfold Client.BakingRights at h
  cases hv : b.validateStruct with
  | some e => rw [hv] at h; exact ⟨e, Or.inl (by simpa using h.symm)⟩
  | none =>
    rw [hv] at h
    simp only [Client.get] at h
    cases hg : c.getResp tr ("/chains/" ++ c.chain ++ "/blocks/" ++ b.BlockHash ++
        "/helpers/baking_rights") b.contructRPCOptions with
    | error e => rw [hg] at h; exact ⟨e, Or.inr (Or.inl (by simpa using h.symm))⟩
    | ok resp =>
      rw [hg] at h
      rcases hu : ub resp with ⟨r, _ | e⟩
      · simp [hu] at h
      · exact ⟨e, Or.inr (Or.inr (by simpa [hu] using h.symm))⟩

/-- Every error of `EndorsingRights` wraps its cause with one of three texts. -/
theorem EndorsingRights_error (c : Client)
    (ue : String → EndorsingRights × Option GoError)
    (b : EndorsingRightsInput) (tr : List Call) (err : GoError)
    (h : (c.EndorsingRights ue b tr).1.2 = some err) :
    ∃ cause, err = .Wrap cause "invalid input" ∨
      err = .Wrap cause "could not get endorsing rights" ∨
      err = .Wrap cause "could not unmarshal endorsing rights" := by
  unfold Client.EndorsingRights at h
  cases hv : b.validateStruct with
  | some e => rw [hv] at h; exact ⟨e, Or.inl (by simpa using h.symm)⟩
  | none =>
    rw [hv] at h
    simp only [Client.get] at h
    cases hg : c.getResp tr ("/chains/" ++ c.chain ++ "/blocks/" ++ b.BlockHash ++
        "/helpers/endorsing_rights") b.contructRPCOptions with
    | error e => rw [hg] at h; exact ⟨e, Or.inr (Or.inl (by simpa using h.symm))⟩
    | ok resp =>
      rw [hg] at h
      rcases hu : ue resp with ⟨r, _ | e⟩
      · simp [hu] at h
      · exact ⟨e, Or.inr (Or.inr (by simpa [hu] using h.symm))⟩

/-- Counterexample to C18 as stated: on an unreachable node the errors of
`StakingBalance` and `BakingRights` read "could not get ...", they do not
begin with "failed to", and the one of `StakingBalance` does not contain
"failed to get delegate 'tz1' staking balance". -/
theorem endpoint_error_texts :
    (deadClient.StakingBalance ⟨"BLhash", 0, "tz1"⟩ []).1.2.map GoError.Error =
      some "could not get staking balance for 'tz1': no route to host" ∧
    beginsWith "could not get staking balance for 'tz1': no route to host" "failed to" =
      false ∧
    containsText "could not get staking balance for 'tz1': no route to host"
      "failed to get delegate 'tz1' staking balance" = false ∧
    (deadClient.BakingRights (fun _ => ([], none)) ⟨"BLhash", 0, 0, "", 0⟩ []).1.2.map
      GoError.Error = some "could not get baking rights: no route to host" ∧
    beginsWith "could not get baking rights: no route to host" "failed to" = false := by
  decide

/-- C18, amended: the errors of the endpoints wrap their cause with a fixed
text, and the message of a wrapped error is that text, ": " and the message
of the cause. `StakingBalance` wraps with "could not get staking balance for
'<delegate>'" when the validation, the block hash resolution or the
transport fails, and with "could not unmarshal staking balance for
'<delegate>'" when the body does not unmarshal into a string.
`BakingRights` and `EndorsingRights` wrap with "invalid input", "could not
get baking rights" (or "... endorsing rights") or "could not unmarshal
baking rights" (or "... endorsing rights"), which name no key. -/
theorem endpoint_errors_wrapped (c : Client) (ub : String → BakingRights × Option GoError)
    (ue : String → EndorsingRights × Option GoError) (tr : List Call) :
    (∀ (input : StakingBalanceInput) (e : GoError), input.validate = some e →
      (c.StakingBalance input tr).1.2 =
        some (.Wrap e ("could not get staking balance for '" ++ input.Delegate ++ "'"))) ∧
    (∀ (input : StakingBalanceInput) (s : String) (e : GoError) (tr1 : List Call),
      input.validate = none →
      c.extractBlockHash input.Cycle input.Blockhash tr = ((s, some e), tr1) →
      (c.StakingBalance input tr).1.2 =
        some (.Wrap e ("could not get staking balance for '" ++ input.Delegate ++ "'"))) ∧
    (∀ (input : StakingBalanceInput) (B : String) (e : GoError) (tr1 : List Call),
      input.validate = none →
      c.extractBlockHash input.Cycle input.Blockhash tr = ((B, none), tr1) →
      (c.get (stakingBalancePath c B input.Delegate) [] tr1).1 = .error e →
      (c.StakingBalance input tr).1.2 =
        some (.Wrap e ("could not get staking balance for '" ++ input.Delegate ++ "'"))) ∧
    (∀ (input : StakingBalanceInput) (B resp s : String) (e : GoError) (tr1 : List Call),
      input.validate = none →
      c.extractBlockHash input.Cycle input.Blockhash tr = ((B, none), tr1) →
      (c.get (stakingBalancePath c B input.Delegate) [] tr1).1 = .ok resp →
      unmarshalString resp "" = (s, some e) →
      (c.StakingBalance input tr).1.2 =
        some (.Wrap e ("could not unmarshal staking balance for '" ++ input.Delegate ++ "'"))) ∧
    (∀ (b : BakingRightsInput) (err : GoError), (c.BakingRights ub b tr).1.2 = some err →
      ∃ cause, err = .Wrap cause "invalid input" ∨
        err = .Wrap cause "could not get baking rights" ∨
        err = .Wrap cause "could not unmarshal baking rights") ∧
    (∀ (b : EndorsingRightsInput) (err : GoError),
      (c.EndorsingRights ue b tr).1.2 = some err →
      ∃ cause, err = .Wrap cause "invalid input" ∨
        err = .Wrap cause "could not get endorsing rights" ∨
        err = .Wrap cause "could not unmarshal endorsing rights") ∧
    (∀ (cause : GoError) (text : String),
      (GoError.Wrap cause text).Error = text ++ ": " ++ cause.Error ∧
        (GoError.Wrap cause text).Unwrap = some cause) := by
  refine ⟨?_, ?_, ?_, ?_, fun b => BakingRights_error c ub b tr,
    fun b => EndorsingRights_error c ue b tr, fun _ _ => ⟨rfl, rfl⟩⟩
  · intro input e hv
    rw [StakingBalance_of_invalid c input tr e hv]
  · intro input s e tr1 hv hB
    rw [StakingBalance_of_unresolved c input tr tr1 s e hv hB]
  · intro input B e tr1 hv hB hg
    have hg' : c.getResp tr1 (stakingBalancePath c B input.Delegate) [] = .error e := hg
    rw [StakingBalance_of_resolved c input tr tr1 B hv hB, hg']
  · intro input B resp s e tr1 hv hB hg hu
    have hg' : c.getResp tr1 (stakingBalancePath c B input.Delegate) [] = .ok resp := hg
    rw [StakingBalance_of_resolved c input tr tr1 B hv hB, hg']
    simp only [hu]

/-- Witness of C18, amended: a transport failure of `StakingBalance` and the
error of `BakingRights` on an unreachable node. -/
theorem endpoint_errors_wrapped_witness :
    StakingBalanceInput.validate ⟨"BLhash", 0, "tz1"⟩ = none ∧
    (deadClient.StakingBalance ⟨"BLhash", 0, "tz1"⟩ []).1.2 =
      some (.Wrap (.Remote "no route to host") ("could not get staking balance for '" ++
        (StakingBalanceInput.mk "BLhash" 0 "tz1").Delegate ++ "'")) ∧
    ∃ cause, GoError.Wrap (.Remote "no route to host") "could not get baking rights" =
        .Wrap cause "invalid input" ∨
      GoError.Wrap (.Remote "no route to host") "could not get baking rights" =
        .Wrap cause "could not get baking rights" ∨
      GoError.Wrap (.Remote "no route to host") "could not get baking rights" =
        .Wrap cause "could not unmarshal baking rights" :=
  have h := endpoint_errors_wrapped deadClient (fun _ => ([], none)) (fun _ => ([], none)) []
  ⟨rfl, h.2.2.1 ⟨"BLhash", 0, "tz1"⟩ "BLhash" (.Remote "no route to host") [] rfl rfl rfl,
    h.2.2.2.2.1 ⟨"BLhash", 0, 0, "", 0⟩ _ rfl⟩

/-- C19: the failing input. The body is the JSON string "abc": the error
`StakingBalance` returns is the bare error of `strconv.Atoi`, which wraps
nothing and does not name the delegate, whereas the body `junk` gives an
error wrapped with the operation and the delegate. -/
theorem StakingBalance_conversion_error_bare :
    StakingBalanceInput.validate ⟨"BLhash", 0, "tz1delegate"⟩ = none ∧
    ((bodyClient "\"abc\"").StakingBalance ⟨"BLhash", 0, "tz1delegate"⟩ []).1 =
      (0, some (.NumError "Atoi" "abc" .ErrSyn)) ∧
    (GoError.NumError "Atoi" "abc" .ErrSyn).Unwrap = none ∧
    (GoError.NumError "Atoi" "abc" .ErrSyn).Error =
      "strconv.Atoi: parsing \"abc\": invalid syntax" ∧
    containsText "strconv.Atoi: parsing \"abc\": invalid syntax" "tz1delegate" = false ∧
    ((bodyClient "junk").StakingBalance ⟨"BLhash", 0, "tz1delegate"⟩ []).1 =
      (0, some (.Wrap (.SyntaxError "invalid character 'j' looking for beginning of value")
        "could not unmarshal staking balance for 'tz1delegate'")) := by
  decide

/-- C20: the failing input. The body is the JSON string "9223372036854775808",
one more than the largest `int`: `StakingBalance` returns the range error of
`strconv.Atoi` together with the clamped value 9223372036854775807, not 0. -/
theorem StakingBalance_range_error_value :
    StakingBalanceInput.validate ⟨"BLhash", 0, "tz1"⟩ = none ∧
    ((bodyClient "\"9223372036854775808\"").StakingBalance ⟨"BLhash", 0, "tz1"⟩ []).1 =
      (9223372036854775807, some (.NumError "Atoi" "9223372036854775808" .ErrRange)) := by
  decide

/-! ## Results and round trips of the endpoints -/

/-- The trace of `BakingRights`: nothing on an empty `BlockHash`, else the one
transport call. -/
theorem BakingRights_trace (c : Client) (ub : String → BakingRights × Option GoError)
    (b : BakingRightsInput) (tr : List Call) :
    (c.BakingRights ub b tr).2 =
      if b.BlockHash = "" then tr
      else tr ++ [.get ("/chains/" ++ c.chain ++ "/blocks/" ++ b.BlockHash ++
        "/helpers/baking_rights") b.contructRPCOptions] := by
  by_cases hb : b.BlockHash = ""
  · simp [Client.BakingRights, BakingRightsInput.validateStruct, validateStruct_single, hb]
  · have hv : b.validateStruct = none := by
      simp [BakingRightsInput.validateStruct, validateStruct_single, hb]
    simp only [Client.BakingRights, hv, Client.get, if_neg hb]
    cases c.getResp tr ("/chains/" ++ c.chain ++ "/blocks/" ++ b.BlockHash ++
        "/helpers/baking_rights") b.contructRPCOptions with
    | error err => rfl
    | ok resp =>
      simp only
      rcases ub resp with ⟨r, _ | err⟩ <;> rfl

/-- The trace of `EndorsingRights`: nothing on an empty `BlockHash`, else the
one transport call. -/
theorem EndorsingRights_trace (c : Client)
    (ue : String → EndorsingRights × Option GoError)
    (b : EndorsingRightsInput) (tr : List Call) :
    (c.EndorsingRights ue b tr).2 =
      if b.BlockHash = "" then tr
      else tr ++ [.get ("/chains/" ++ c.chain ++ "/blocks/" ++ b.BlockHash ++
        "/helpers/endorsing_rights") b.contructRPCOptions] := by
  by_cases hb : b.BlockHash = ""
  · simp [Client.EndorsingRights, EndorsingRightsInput.validateStruct, validateStruct_single,
      hb]
  · have hv : b.validateStruct = none := by
      simp [EndorsingRightsInput.validateStruct, validateStruct_single, hb]
    simp only [Client.EndorsingRights, hv, Client.get, if_neg hb]
    cases c.getResp tr ("/chains/" ++ c.chain ++ "/blocks/" ++ b.BlockHash ++
        "/helpers/endorsing_rights") b.contructRPCOptions with
    | error err => rfl
    | ok resp =>
      simp only
      rcases ue resp with ⟨r, _ | err⟩ <;> rfl

/-- C21: whenever `BakingRights` or `EndorsingRights` returns a non-nil error,
the list returned with it is empty, whatever the decoder had stored before
it failed. -/
theorem rights_error_empty (c : Client) (ub : String → BakingRights × Option GoError)
    (ue : String → EndorsingRights × Option GoError) (tr : List Call) :
    (∀ b : BakingRightsInput, (c.BakingRights ub b tr).1.2 ≠ none →
      (c.BakingRights ub b tr).1.1 = []) ∧
    (∀ b : EndorsingRightsInput, (c.EndorsingRights ue b tr).1.2 ≠ none →
      (c.EndorsingRights ue b tr).1.1 = []) := by
  constructor
  · intro b
    unfold Client.BakingRights
    cases b.validateStruct with
    | some e => intro _; rfl
    | none =>
      simp only [Client.get]
      cases c.getResp tr ("/chains/" ++ c.chain ++ "/blocks/" ++ b.BlockHash ++
          "/helpers/baking_rights") b.contructRPCOptions with
      | error err => intro _; rfl
      | ok resp =>
        simp only
        rcases ub resp with ⟨r, _ | err⟩
        · intro h; exact absurd rfl h
        · intro _; rfl
  · intro b
    unfold Client.EndorsingRights
    cases b.validateStruct with
    | some e => intro _; rfl
    | none =>
      simp only [Client.get]
      cases c.getResp tr ("/chains/" ++ c.chain ++ "/blocks/" ++ b.BlockHash ++
          "/helpers/endorsing_rights") b.contructRPCOptions with
      | error err => intro _; rfl
      | ok resp =>
        simp only
        rcases ue resp with ⟨r, _ | err⟩
        · intro h; exact absurd rfl h
        · intro _; rfl

/-- Witness of C21: decoders that fail after having stored one entry. -/
theorem rights_error_empty_witness :
    ((bodyClient "[1,").BakingRights
      (fun _ => ([⟨1, "tz1", 0, "2020-01-01T00:00:00Z"⟩], some (.SyntaxError "cut")))
      ⟨"BLhash", 0, 0, "", 0⟩ []).1.2 ≠ none ∧
    ((bodyClient "[1,").BakingRights
      (fun _ => ([⟨1, "tz1", 0, "2020-01-01T00:00:00Z"⟩], some (.SyntaxError "cut")))
      ⟨"BLhash", 0, 0, "", 0⟩ []).1.1 = [] ∧
    ((bodyClient "[1,").EndorsingRights
      (fun _ => ([⟨1, "tz1", [3], "2020-01-01T00:00:00Z"⟩], some (.SyntaxError "cut")))
      ⟨"BLhash", 0, 0, ""⟩ []).1.1 = [] :=
  have h := rights_error_empty (bodyClient "[1,")
    (fun _ => ([⟨1, "tz1", 0, "2020-01-01T00:00:00Z"⟩], some (.SyntaxError "cut")))
    (fun _ => ([⟨1, "tz1", [3], "2020-01-01T00:00:00Z"⟩], some (.SyntaxError "cut"))) []
  ⟨by decide, h.1 ⟨"BLhash", 0, 0, "", 0⟩ (by decide), h.2 ⟨"BLhash", 0, 0, ""⟩ (by decide)⟩

/-- C23: one round trip and no retry. On a valid input `BakingRights` and
`EndorsingRights` make exactly one request, a transport call, whether it
succeeds or fails; `StakingBalance` with `Cycle == 0` makes exactly one
request, a transport call, and so fetches no cycle descriptor. -/
theorem one_round_trip (c : Client) (ub : String → BakingRights × Option GoError)
    (ue : String → EndorsingRights × Option GoError) (tr : List Call) :
    (∀ b : BakingRightsInput, b.BlockHash ≠ "" →
      ∃ path opts, (c.BakingRights ub b tr).2 = tr ++ [.get path opts]) ∧
    (∀ b : EndorsingRightsInput, b.BlockHash ≠ "" →
      ∃ path opts, (c.EndorsingRights ue b tr).2 = tr ++ [.get path opts]) ∧
    (∀ input : StakingBalanceInput, input.validate = none → input.Cycle = 0 →
      ∃ path opts, (c.StakingBalance input tr).2 = tr ++ [.get path opts]) := by
  refine ⟨fun b hb => ?_, fun b hb => ?_, fun input hv h0 => ?_⟩
  · exact ⟨_, _, by rw [BakingRights_trace, if_neg hb]⟩
  · exact ⟨_, _, by rw [EndorsingRights_trace, if_neg hb]⟩
  · have hB : c.extractBlockHash input.Cycle input.Blockhash tr =
        ((input.Blockhash, none), tr) := by rw [h0]; exact extractBlockHash_of_zero c _ tr
    exact ⟨_, _, by rw [StakingBalance_of_resolved c input tr tr _ hv hB]⟩

/-- Witness of C23: one request each, on a node that fails and on one that
answers. -/
theorem one_round_trip_witness :
    (∃ path opts, (deadClient.BakingRights (fun _ => ([], none))
      ⟨"BLhash", 0, 100, "", 0⟩ []).2 = [] ++ [.get path opts]) ∧
    (∃ path opts, (snapshotClient.EndorsingRights (fun _ => ([], none))
      ⟨"BLhash", 0, 100, ""⟩ []).2 = [] ++ [.get path opts]) ∧
    (∃ path opts, (snapshotClient.StakingBalance ⟨"BLhash", 0, "tz1"⟩ []).2 =
      [] ++ [.get path opts]) :=
  ⟨(one_round_trip deadClient (fun _ => ([], none)) (fun _ => ([], none)) []).1
      ⟨"BLhash", 0, 100, "", 0⟩ (by decide),
    (one_round_trip snapshotClient (fun _ => ([], none)) (fun _ => ([], none)) []).2.1
      ⟨"BLhash", 0, 100, ""⟩ (by decide),
    (one_round_trip snapshotClient (fun _ => ([], none)) (fun _ => ([], none)) []).2.2
      ⟨"BLhash", 0, "tz1"⟩ rfl rfl⟩

/-- A text occurs in every string built around it. -/
theorem containsText_of_data (s t : String) (a b : List Char)
    (h : s.data = a ++ (t.data ++ b)) : containsText s t = true := by
  unfold containsText
  rw [List.any_eq_true]
  refine ⟨t.data ++ b, (List.mem_tails _ _).mpr ⟨a, h.symm⟩, ?_⟩
  simp

/-- C26: on a validated input with `Cycle != 0` whose descriptor fetch fails
with `E`, `StakingBalance` returns 0 and the error "could not get staking
balance for '<delegate>': failed to get cycle: <cycle>: <E>", which names
the delegate and the cycle; the fetch is the only request, the transport is
not called. -/
theorem StakingBalance_cycle_fetch_error (c : Client) (input : StakingBalanceInput)
    (tr : List Call) (E : GoError) (hv : input.validate = none) (hC : input.Cycle ≠ 0)
    (hE : (c.Cycle input.Cycle tr).1 = .error E) :
    ∃ err, c.StakingBalance input tr = ((0, some err), tr ++ [.Cycle input.Cycle]) ∧
      err.Error = "could not get staking balance for '" ++ input.Delegate ++
        "': failed to get cycle: " ++ Itoa input.Cycle ++ ": " ++ E.Error ∧
      containsText err.Error input.Delegate = true ∧
      containsText err.Error (Itoa input.Cycle) = true := by
  have hE' : c.cycleResp tr input.Cycle = .error E := hE
  have hB : c.extractBlockHash input.Cycle input.Blockhash tr =
      (("", some (.Wrap E ("failed to get cycle: " ++ Itoa input.Cycle))),
        tr ++ [.Cycle input.Cycle]) := by
    simp [Client.extractBlockHash, Client.Cycle, hC, hE']
  refine ⟨_, StakingBalance_of_unresolved c input tr _ _ _ hv hB, ?_, ?_, ?_⟩
  · have hlit : "': failed to get cycle: " = "'" ++ ": " ++ "failed to get cycle: " := by
      decide
    simp only [GoError.Error, hlit, String.append_assoc]
  · exact containsText_of_data _ _ "could not get staking balance for '".data
      ("': ".data ++ (("failed to get cycle: " ++ Itoa input.Cycle) ++ ": " ++ E.Error).data)
      (by simp [GoError.Error, String.data_append])
  · exact containsText_of_data _ _
      ("could not get staking balance for '".data ++ input.Delegate.data ++
        "': failed to get cycle: ".data) (": ".data ++ E.Error.data)
      (by simp [GoError.Error, String.data_append])

/-- Witness of C26: cycle 100 on an unreachable node. -/
theorem StakingBalance_cycle_fetch_error_witness :
    StakingBalanceInput.validate ⟨"", 100, "tz1"⟩ = none ∧
    ∃ err, deadClient.StakingBalance ⟨"", 100, "tz1"⟩ [] = ((0, some err), [] ++ [.Cycle 100]) ∧
      err.Error = "could not get staking balance for '" ++ "tz1" ++
        "': failed to get cycle: " ++ Itoa 100 ++ ": " ++
        (GoError.Remote "no route to host").Error ∧
      containsText err.Error "tz1" = true ∧ containsText err.Error (Itoa 100) = true :=
  ⟨rfl, StakingBalance_cycle_fetch_error deadClient ⟨"", 100, "tz1"⟩ []
    (.Remote "no route to host") rfl (by decide) rfl⟩

/-- C28: the cross-field check of `validate` comes before the required-field
check. With neither block hash nor cycle the error is "invalid input:
missing key cycle or blockhash", with both it is "invalid input: cannot
have both cycle and blockhash", whether or not `Delegate` is empty; the
required-field failure wrapped with "invalid input" is the error exactly
when one of the two is set and `Delegate` is empty. -/
theorem validate_precheck_first (s : StakingBalanceInput) :
    (s.Blockhash = "" ∧ s.Cycle = 0 →
      s.validate = some (.New "invalid input: missing key cycle or blockhash") ∧
      s.validate.map GoError.Error = some "invalid input: missing key cycle or blockhash") ∧
    (s.Blockhash ≠ "" ∧ s.Cycle ≠ 0 →
      s.validate = some (.New "invalid input: cannot have both cycle and blockhash") ∧
      s.validate.map GoError.Error =
        some "invalid input: cannot have both cycle and blockhash") ∧
    ((∃ cause, s.validate = some (.Wrap cause "invalid input")) ↔
      (Xor' (s.Blockhash ≠ "") (s.Cycle ≠ 0) ∧ s.Delegate = "")) ∧
    (Xor' (s.Blockhash ≠ "") (s.Cycle ≠ 0) ∧ s.Delegate = "" →
      s.validate =
        some (.Wrap (.FieldErrors "StakingBalanceInput" ["Delegate"]) "invalid input")) := by
  unfold StakingBalanceInput.validate
  rw [validateStruct_single]
  by_cases hb : s.Blockhash = "" <;> by_cases hc : s.Cycle = 0 <;>
    by_cases hd : s.Delegate = "" <;> simp [hb, hc, hd, Xor', GoError.Error]

/-- Witness of C28: the three errors on inputs with an empty `Delegate`. -/
theorem validate_precheck_first_witness :
    (StakingBalanceInput.validate ⟨"", 0, ""⟩ =
        some (.New "invalid input: missing key cycle or blockhash") ∧
      (StakingBalanceInput.validate ⟨"", 0, ""⟩).map GoError.Error =
        some "invalid input: missing key cycle or blockhash") ∧
    (StakingBalanceInput.validate ⟨"BLhash", 7, ""⟩ =
        some (.New "invalid input: cannot have both cycle and blockhash") ∧
      (StakingBalanceInput.validate ⟨"BLhash", 7, ""⟩).map GoError.Error =
        some "invalid input: cannot have both cycle and blockhash") ∧
    StakingBalanceInput.validate ⟨"BLhash", 0, ""⟩ =
      some (.Wrap (.FieldErrors "StakingBalanceInput" ["Delegate"]) "invalid input") :=
  ⟨(validate_precheck_first ⟨"", 0, ""⟩).1 ⟨rfl, rfl⟩,
    (validate_precheck_first ⟨"BLhash", 7, ""⟩).2.1 ⟨by decide, by decide⟩,
    (validate_precheck_first ⟨"BLhash", 0, ""⟩).2.2.2 ⟨Or.inl ⟨by decide, by decide⟩, rfl⟩⟩

/-! ## Bodies that are not JSON -/

/-- Counterexample to C22 as stated: on the body `junk` the errors of the
three endpoints read "could not unmarshal ...: invalid character 'j' looking
for beginning of value"; none contains "failed to parse json". -/
theorem junk_error_texts :
    ((bodyClient "junk").StakingBalance ⟨"BLhash", 0, "tz1"⟩ []).1.2.map GoError.Error =
      some ("could not unmarshal staking balance for 'tz1': " ++
        "invalid character 'j' looking for beginning of value") ∧
    containsText ("could not unmarshal staking balance for 'tz1': " ++
      "invalid character 'j' looking for beginning of value") "failed to parse json" = false ∧
    ((bodyClient "junk").BakingRights (unmarshalVia fun _ => ([], none))
      ⟨"BLhash", 0, 0, "", 0⟩ []).1.2.map GoError.Error =
      some ("could not unmarshal baking rights: " ++
        "invalid character 'j' looking for beginning of value") ∧
    containsText ("could not unmarshal baking rights: " ++
      "invalid character 'j' looking for beginning of value") "failed to parse json" = false ∧
    ((bodyClient "junk").EndorsingRights (unmarshalVia fun _ => ([], none))
      ⟨"BLhash", 0, 0, ""⟩ []).1.2.map GoError.Error =
      some ("could not unmarshal endorsing rights: " ++
        "invalid character 'j' looking for beginning of value") ∧
    containsText ("could not unmarshal endorsing rights: " ++
      "invalid character 'j' looking for beginning of value") "failed to parse json" = false := by
  decide

/-- C22, amended: when the transport succeeds with a body that is not valid
JSON, the endpoint returns its zero value and the syntax error of the JSON
decoder wrapped with "could not unmarshal staking balance for '<delegate>'",
"could not unmarshal baking rights" or "could not unmarshal endorsing
rights"; for the body `junk` the syntax error reads "invalid character 'j'
looking for beginning of value". -/
theorem invalid_json_errors (c : Client) (tr : List Call) (resp : String) (e : GoError)
    (hp : parseJSON resp = .error e) :
    (∀ (input : StakingBalanceInput) (B : String) (tr1 : List Call),
      input.validate = none →
      c.extractBlockHash input.Cycle input.Blockhash tr = ((B, none), tr1) →
      (c.get (stakingBalancePath c B input.Delegate) [] tr1).1 = .ok resp →
      (c.StakingBalance input tr).1 = (0, some (.Wrap e
        ("could not unmarshal staking balance for '" ++ input.Delegate ++ "'")))) ∧
    (∀ (decode : JSON → BakingRights × Option GoError) (b : BakingRightsInput),
      b.BlockHash ≠ "" →
      (c.get ("/chains/" ++ c.chain ++ "/blocks/" ++ b.BlockHash ++ "/helpers/baking_rights")
        b.contructRPCOptions tr).1 = .ok resp →
      (c.BakingRights (unmarshalVia decode) b tr).1 =
        ([], some (.Wrap e "could not unmarshal baking rights"))) ∧
    (∀ (decode : JSON → EndorsingRights × Option GoError) (b : EndorsingRightsInput),
      b.BlockHash ≠ "" →
      (c.get ("/chains/" ++ c.chain ++ "/blocks/" ++ b.BlockHash ++
        "/helpers/endorsing_rights") b.contructRPCOptions tr).1 = .ok resp →
      (c.EndorsingRights (unmarshalVia decode) b tr).1 =
        ([], some (.Wrap e "could not unmarshal endorsing rights"))) ∧
    (parseJSON "junk" =
      .error (.SyntaxError "invalid character 'j' looking for beginning of value")) := by
  refine ⟨?_, ?_, ?_, rfl⟩
  · intro input B tr1 hv hB hg
    have hg' : c.getResp tr1 (stakingBalancePath c B input.Delegate) [] = .ok resp := hg
    rw [StakingBalance_of_resolved c input tr tr1 B hv hB, hg']
    simp [unmarshalString, hp]
  · intro decode b hb hg
    have hg' : c.getResp tr ("/chains/" ++ c.chain ++ "/blocks/" ++ b.BlockHash ++
        "/helpers/baking_rights") b.contructRPCOptions = .ok resp := hg
    have hv : b.validateStruct = none := by
      simp [BakingRightsInput.validateStruct, validateStruct_single, hb]
    simp [Client.BakingRights, hv, Client.get, hg', unmarshalVia, hp]
  · intro decode b hb hg
    have hg' : c.getResp tr ("/chains/" ++ c.chain ++ "/blocks/" ++ b.BlockHash ++
        "/helpers/endorsing_rights") b.contructRPCOptions = .ok resp := hg
    have hv : b.validateStruct = none := by
      simp [EndorsingRightsInput.validateStruct, validateStruct_single, hb]
    simp [Client.EndorsingRights, hv, Client.get, hg', unmarshalVia, hp]

/-- Witness of C22, amended: the body `junk` at the staking balance endpoint. -/
theorem invalid_json_errors_witness :
    parseJSON "junk" =
      .error (.SyntaxError "invalid character 'j' looking for beginning of value") ∧
    ((bodyClient "junk").StakingBalance ⟨"BLhash", 0, "tz1"⟩ []).1 =
      (0, some (.Wrap (.SyntaxError "invalid character 'j' looking for beginning of value")
        ("could not unmarshal staking balance for '" ++
          (StakingBalanceInput.mk "BLhash" 0 "tz1").Delegate ++ "'"))) :=
  ⟨rfl, (invalid_json_errors (bodyClient "junk") [] "junk"
    (.SyntaxError "invalid character 'j' looking for beginning of value") rfl).1
    ⟨"BLhash", 0, "tz1"⟩ "BLhash" [] rfl rfl rfl⟩

/-! ## What the documentation says of the rights endpoints -/

/-- Counterexample to C29 as stated: the request of `EndorsingRights` goes to
"/chains/main/blocks/BLhash/helpers/endorsing_rights", which does not end in
"/helpers/baking_rights". -/
theorem EndorsingRights_path_example :
    (snapshotClient.EndorsingRights (fun _ => ([], none)) ⟨"BLhash", 0, 0, ""⟩ []).2 =
      [.get "/chains/main/blocks/BLhash/helpers/endorsing_rights" []] ∧
    endsWith "/chains/main/blocks/BLhash/helpers/endorsing_rights" "/helpers/baking_rights" =
      false := by
  decide

/-- C29, amended: the request `EndorsingRights` makes to obtain an
`EndorsingRights` value goes to a path that ends in
"/helpers/endorsing_rights", as the documentation of the function and the
link in the documentation of the type say, and never to one that ends in
"/helpers/baking_rights". -/
theorem EndorsingRights_path (c : Client) (ue : String → EndorsingRights × Option GoError)
    (b : EndorsingRightsInput) (tr : List Call) (hb : b.BlockHash ≠ "") :
    ∃ path opts, (c.EndorsingRights ue b tr).2 = tr ++ [.get path opts] ∧
      endsWith path "/helpers/endorsing_rights" = true ∧
      endsWith path "/helpers/baking_rights" = false := by
  have h1 : "/helpers/endorsing_rights".data <:+
      ("/chains/" ++ c.chain ++ "/blocks/" ++ b.BlockHash ++
        "/helpers/endorsing_rights").data := by
    rw [String.data_append]
    exact List.suffix_append _ _
  refine ⟨_, _, by rw [EndorsingRights_trace, if_neg hb], ?_, ?_⟩
  · simpa [endsWith] using h1
  · have hno : ¬ ("/helpers/baking_rights".data <:+ "/helpers/endorsing_rights".data) := by
      rw [← List.isSuffixOf_iff_suffix]
      decide
    cases hs : endsWith ("/chains/" ++ c.chain ++ "/blocks/" ++ b.BlockHash ++
        "/helpers/endorsing_rights") "/helpers/baking_rights" with
    | false => rfl
    | true =>
      have h2 : "/helpers/baking_rights".data <:+
          ("/chains/" ++ c.chain ++ "/blocks/" ++ b.BlockHash ++
            "/helpers/endorsing_rights").data := by
        simpa [endsWith] using hs
      exact absurd (List.suffix_of_suffix_length_le h2 h1 (by decide)) hno

/-- Witness of C29, amended. -/
theorem EndorsingRights_path_witness :
    "BLhash" ≠ "" ∧
    ∃ path opts, (snapshotClient.EndorsingRights (fun _ => ([], none))
        ⟨"BLhash", 0, 0, ""⟩ []).2 = [] ++ [.get path opts] ∧
      endsWith path "/helpers/endorsing_rights" = true ∧
      endsWith path "/helpers/baking_rights" = false :=
  ⟨by decide, EndorsingRights_path snapshotClient (fun _ => ([], none))
    ⟨"BLhash", 0, 0, ""⟩ [] (by decide)⟩

/-- Counterexample to C30 as stated: no `BakingRightsInput` makes the encoder
emit an option with the key "all". -/
theorem no_all_option :
    ¬ ∃ b : BakingRightsInput, "all" ∈ optionKeys b.contructRPCOptions := by
  rintro ⟨b, hb⟩
  have h := (bakingKeys_sublist b).subset hb
  revert h
  decide

/-- C30, amended: `BakingRightsInput` has no field for the parameter `all` of
the RPC. The options `BakingRights` sends are those of `contructRPCOptions`,
whose keys are among cycle, delegate, level and max_priority, so that for no
input an entry with the key "all" is sent. -/
theorem BakingRights_sends_no_all (c : Client) (ub : String → BakingRights × Option GoError)
    (b : BakingRightsInput) (tr : List Call) :
    ((c.BakingRights ub b tr).2 = tr ∨
      (c.BakingRights ub b tr).2 =
        tr ++ [.get ("/chains/" ++ c.chain ++ "/blocks/" ++ b.BlockHash ++
          "/helpers/baking_rights") b.contructRPCOptions]) ∧
    (∀ k ∈ optionKeys b.contructRPCOptions,
      k ∈ ["cycle", "delegate", "level", "max_priority"]) ∧
    "all" ∉ optionKeys b.contructRPCOptions := by
  refine ⟨?_, fun k hk => (bakingKeys_sublist b).subset hk, fun hb => ?_⟩
  · rw [BakingRights_trace]
    by_cases h : b.BlockHash = ""
    · left; rw [if_pos h]
    · right; rw [if_neg h]
  · have h := (bakingKeys_sublist b).subset hb
    revert h
    decide

/-! ## Integers beyond 64 bits -/

/-- On digits the loop of `ParseUint` returns their value when it fits 64
bits, and the range error with the largest value when it does not. -/
theorem parseUintLoop_all_digits (cs : List Char) (n : Nat)
    (hd : ∀ c ∈ cs, isDigit c = true) (hn : n ≤ maxUint64) :
    parseUintLoop cs n =
      if decVal cs n ≤ maxUint64 then (decVal cs n, none) else (maxUint64, some .ErrRange) := by
  have hmax : maxUint64 = 18446744073709551615 := rfl
  induction cs generalizing n with
  | nil => simp [parseUintLoop, decVal, hn]
  | cons c cs ih =>
    have hc : isDigit c = true := hd c (List.mem_cons_self _ _)
    have hle := le_decVal cs (n * 10 + (c.toNat - 48))
    have hcons : decVal (c :: cs) n = decVal cs (n * 10 + (c.toNat - 48)) := rfl
    unfold parseUintLoop
    rw [if_pos hc, hcons]
    by_cases h1 : n ≥ maxUint64 / 10 + 1
    · rw [if_pos h1, if_neg (by omega)]
    · rw [if_neg h1]
      by_cases h2 : n * 10 + (c.toNat - 48) > maxUint64
      · rw [if_pos h2, if_neg (by omega)]
      · rw [if_neg h2]
        exact ih _ (fun c hc => hd c (List.mem_cons_of_mem _ hc)) (by omega)

/-- `ParseUint` on a non-empty string of digits. -/
theorem ParseUint_all_digits (ds : List Char) (hne : ds ≠ [])
    (hd : ∀ c ∈ ds, isDigit c = true) :
    ParseUint ds =
      if decVal ds 0 ≤ maxUint64 then (decVal ds 0, none) else (maxUint64, some .ErrRange) := by
  unfold ParseUint
  rw [if_neg hne]
  exact parseUintLoop_all_digits ds 0 hd (by decide)

/-- `Atoi` reports a range error on a numeral beyond 64 bits. -/
theorem Atoi_out_of_range (s : String) (h : OutOfRange s) :
    (Atoi s).2 = some (.NumError "Atoi" s .ErrRange) := by
  have hmax : maxUint64 = 18446744073709551615 := rfl
  obtain ⟨ds, hne, hd, hcase⟩ := h
  have hP := ParseUint_all_digits ds hne hd
  rw [hmax] at hP
  rcases hcase with ⟨hs, hv⟩ | ⟨hs, hv⟩
  · obtain ⟨c, rest, rfl⟩ : ∃ c rest, ds = c :: rest := by
      cases ds with
      | nil => exact absurd rfl hne
      | cons c rest => exact ⟨c, rest, rfl⟩
    have hcb := isDigit_bounds c (hd c (List.mem_cons_self _ _))
    have hminus : c ≠ '-' := by rintro rfl; revert hcb; decide
    have hplus : c ≠ '+' := by rintro rfl; revert hcb; decide
    simp only [Atoi, hs, ParseInt, hminus, hplus, or_self, if_false, hP]
    by_cases hfit : decVal (c :: rest) 0 ≤ 18446744073709551615
    · have hbig : 9223372036854775808 ≤ decVal (c :: rest) 0 := by omega
      simp [hfit, hbig]
    · simp [hfit]
  · simp only [Atoi, hs, ParseInt, or_true, if_true, hP]
    by_cases hfit : decVal ds 0 ≤ 18446744073709551615
    · have hbig : 9223372036854775808 < decVal ds 0 := by omega
      simp [hfit, hbig]
    · simp [hfit]

/-- A value `ParseInt` returns without an error is a 64-bit signed integer. -/
theorem ParseInt_ok_range (s : List Char) (v : Int) (h : ParseInt s = (v, none)) :
    -(2 ^ 63) ≤ v ∧ v < 2 ^ 63 := by
  cases s with
  | nil => simp [ParseInt] at h
  | cons c rest =>
    simp only [ParseInt] at h
    rcases hP : ParseUint (if c = '+' ∨ c = '-' then rest else c :: rest) with ⟨un, _ | k⟩
    · rw [hP] at h
      by_cases hneg : c = '-'
      · simp only [hneg, decide_True, Bool.not_true, Bool.false_and, Bool.true_and,
          decide_eq_true_eq, Bool.false_eq_true, if_false, if_true] at h
        split at h
        · simp at h
        · have hv : -(un : Int) = v := by simpa using h
          omega
      · simp only [hneg, decide_False, Bool.not_false, Bool.true_and, Bool.false_and,
          decide_eq_true_eq, Bool.false_eq_true, if_false] at h
        split at h
        · simp at h
        · have hv : (un : Int) = v := by simpa using h
          omega
    · rw [hP] at h
      cases k with
      | ErrSyn => simp at h
      | ErrRange =>
        by_cases hneg : c = '-'
        · simp only [hneg, decide_True, Bool.not_true, Bool.false_and, Bool.true_and,
            decide_eq_true_eq, Bool.false_eq_true, if_false, if_true] at h
          split at h
          · simp at h
          · have hv : -(un : Int) = v := by simpa using h
            omega
        · simp only [hneg, decide_False, Bool.not_false, Bool.true_and, Bool.false_and,
            decide_eq_true_eq, Bool.false_eq_true, if_false] at h
          split at h
          · simp at h
          · have hv : (un : Int) = v := by simpa using h
            omega

/-- A value `Atoi` returns without an error is a 64-bit signed integer. -/
theorem Atoi_ok_range (s : String) (v : Int) (h : Atoi s = (v, none)) :
    -(2 ^ 63) ≤ v ∧ v < 2 ^ 63 := by
  unfold Atoi at h
  rcases hp : ParseInt s.data with ⟨w, _ | k⟩
  · rw [hp] at h
    have hw : w = v := by simpa using h
    exact ParseInt_ok_range s.data v (by rw [hp, hw])
  · rw [hp] at h; simp at h

/-- After `UnmarshalJSON` each field of the receiver is what it was before, or
the integer `Atoi` made of the whole string the helper holds for it. -/
theorem UnmarshalJSON_field (f0 : FrozenBalance) (data : String) (fld : HelperField) :
    (f0.UnmarshalJSON data).1.get fld = f0.get fld ∨
      ∃ hh, unmarshalHelper data ⟨"", "", ""⟩ = (hh, none) ∧
        Atoi (hh.get fld) = ((f0.UnmarshalJSON data).1.get fld, none) := by
  rcases hu : unmarshalHelper data ⟨"", "", ""⟩ with ⟨hh, _ | e⟩
  · rcases hA : Atoi hh.Deposits with ⟨a, _ | e⟩
    · rcases hB : Atoi hh.Fees with ⟨b, _ | e⟩
      · rcases hC : Atoi hh.Rewards with ⟨c, _ | e⟩
        · right
          refine ⟨hh, rfl, ?_⟩
          cases fld <;>
            simp [FrozenBalance.UnmarshalJSON, hu, hA, hB, hC, FrozenBalance.get,
              FrozenBalanceHelper.get]
        · cases fld
          · right
            exact ⟨hh, rfl, by
              simp [FrozenBalance.UnmarshalJSON, hu, hA, hB, hC, FrozenBalance.get,
                FrozenBalanceHelper.get]⟩
          · right
            exact ⟨hh, rfl, by
              simp [FrozenBalance.UnmarshalJSON, hu, hA, hB, hC, FrozenBalance.get,
                FrozenBalanceHelper.get]⟩
          · left
            simp [FrozenBalance.UnmarshalJSON, hu, hA, hB, hC, FrozenBalance.get]
      · cases fld
        · right
          exact ⟨hh, rfl, by
            simp [FrozenBalance.UnmarshalJSON, hu, hA, hB, FrozenBalance.get,
              FrozenBalanceHelper.get]⟩
        · left
          simp [FrozenBalance.UnmarshalJSON, hu, hA, hB, FrozenBalance.get]
        · left
          simp [FrozenBalance.UnmarshalJSON, hu, hA, hB, FrozenBalance.get]
    · left
      simp [FrozenBalance.UnmarshalJSON, hu, hA]
  · left
    simp [FrozenBalance.UnmarshalJSON, hu]

/-- When `UnmarshalJSON` succeeds, each field of the result is the integer
`Atoi` made of the string the helper holds for it. -/
theorem UnmarshalJSON_ok_value (f0 f : FrozenBalance) (data : String)
    (h : f0.UnmarshalJSON data = (f, none)) :
    ∃ hh, unmarshalHelper data ⟨"", "", ""⟩ = (hh, none) ∧
      ∀ fld : HelperField, Atoi (hh.get fld) = (f.get fld, none) := by
  unfold FrozenBalance.UnmarshalJSON at h
  rcases hu : unmarshalHelper data ⟨"", "", ""⟩ with ⟨hh, _ | e⟩
  · rw [hu] at h
    rcases hA : Atoi hh.Deposits with ⟨a, _ | e⟩
    · rcases hB : Atoi hh.Fees with ⟨b, _ | e⟩
      · rcases hC : Atoi hh.Rewards with ⟨c, _ | e⟩
        · simp only [hA, hB, hC, Prod.mk.injEq, and_true] at h
          subst h
          refine ⟨hh, rfl, fun fld => ?_⟩
          cases fld <;> simp [FrozenBalance.get, FrozenBalanceHelper.get, hA, hB, hC]
        · simp [hA, hB, hC] at h
      · simp [hA, hB] at h
    · simp [hA] at h
  · rw [hu] at h; simp at h

/-- The string the helper holds for a field after an object was decoded. -/
theorem unmarshalHelper_get (data : String) (members : List (String × JSON))
    (hh : FrozenBalanceHelper) (fld : HelperField)
    (hp : parseJSON data = .ok (.obj members))
    (hu : unmarshalHelper data ⟨"", "", ""⟩ = (hh, none)) :
    hh.get fld = (lastString (fieldValues fld members)).getD "" := by
  unfold unmarshalHelper at hu
  rw [hp] at hu
  have hfold : members.foldl decodeMember (⟨"", "", ""⟩, none) = (hh, none) := hu
  have hget := foldl_decodeMember_get members (⟨"", "", ""⟩, none) fld
  rw [hfold] at hget
  rw [hget]
  cases fld <;> rfl

/-- Counterexample to C24 as stated: in this object a member gives the fees
the string "9223372036854775808", digits denoting `2^63`, and a later member
gives them "1". The later string wins and `UnmarshalJSON` succeeds with
(5, 1, 2). -/
theorem FrozenBalance.UnmarshalJSON_overridden_range :
    parseJSON ("\x7b\"fees\":\"9223372036854775808\",\"deposits\":\"5\"," ++
        "\"fees\":\"1\",\"rewards\":\"2\"\x7d") =
      .ok (.obj [("fees", .str "9223372036854775808"), ("deposits", .str "5"),
        ("fees", .str "1"), ("rewards", .str "2")]) ∧
    OutOfRange "9223372036854775808" ∧
    FrozenBalance.UnmarshalJSON ⟨7, 8, 9⟩
      ("\x7b\"fees\":\"9223372036854775808\",\"deposits\":\"5\"," ++
        "\"fees\":\"1\",\"rewards\":\"2\"\x7d") = (⟨5, 1, 2⟩, none) :=
  ⟨rfl, ⟨"9223372036854775808".data, by decide, by decide, Or.inl ⟨rfl, by decide⟩⟩, rfl⟩

/-- C24, amended: for every payload that is a JSON object in which, for one
of the fields, the last JSON string among the members matched to the field
is a string of decimal digits denoting an integer above `2^63-1`, or with a
leading `-` one below `-2^63`, `UnmarshalJSON` returns a non-nil error, and
the field of the receiver keeps the value it had: no wrapped-around, clamped
or truncated value is stored into it. A member is matched to a field by its
name, exactly or else without regard to case. -/
theorem FrozenBalance.UnmarshalJSON_out_of_range (f0 : FrozenBalance) (data : String)
    (members : List (String × JSON)) (fld : HelperField) (s : String)
    (hp : parseJSON data = .ok (.obj members))
    (hs : lastString (fieldValues fld members) = some s) (hr : OutOfRange s) :
    (f0.UnmarshalJSON data).2 ≠ none ∧ (f0.UnmarshalJSON data).1.get fld = f0.get fld := by
  have hA := Atoi_out_of_range s hr
  have hkey : ∀ hh, unmarshalHelper data ⟨"", "", ""⟩ = (hh, none) →
      (Atoi (hh.get fld)).2 ≠ none := by
    intro hh hu
    rw [unmarshalHelper_get data members hh fld hp hu, hs, Option.getD_some, hA]
    simp
  constructor
  · intro hok
    obtain ⟨f, hf⟩ : ∃ f, f0.UnmarshalJSON data = (f, none) :=
      ⟨(f0.UnmarshalJSON data).1, Prod.ext rfl hok⟩
    obtain ⟨hh, hu, hall⟩ := UnmarshalJSON_ok_value f0 f data hf
    exact hkey hh hu (by rw [hall fld])
  · rcases UnmarshalJSON_field f0 data fld with h | ⟨hh, hu, hat⟩
    · exact h
    · exact absurd (by rw [hat]) (hkey hh hu)

/-- Witness of C24, amended: fees of 2^63, one more than the largest `int`. -/
theorem FrozenBalance.UnmarshalJSON_out_of_range_witness :
    parseJSON "\x7b\"deposits\":\"1\",\"fees\":\"9223372036854775808\",\"rewards\":\"2\"\x7d" =
      .ok (.obj [("deposits", .str "1"), ("fees", .str "9223372036854775808"),
        ("rewards", .str "2")]) ∧
    OutOfRange "9223372036854775808" ∧
    (FrozenBalance.UnmarshalJSON ⟨7, 8, 9⟩
      "\x7b\"deposits\":\"1\",\"fees\":\"9223372036854775808\",\"rewards\":\"2\"\x7d").2 ≠
        none ∧
    (FrozenBalance.UnmarshalJSON ⟨7, 8, 9⟩
      "\x7b\"deposits\":\"1\",\"fees\":\"9223372036854775808\",\"rewards\":\"2\"\x7d").1.get
        .Fees = FrozenBalance.get ⟨7, 8, 9⟩ .Fees :=
  have hr : OutOfRange "9223372036854775808" :=
    ⟨"9223372036854775808".data, by decide, by decide, Or.inl ⟨rfl, by decide⟩⟩
  ⟨rfl, hr, FrozenBalance.UnmarshalJSON_out_of_range ⟨7, 8, 9⟩ _ _ .Fees
    "9223372036854775808" rfl rfl hr⟩

/-- C25: encoding renders canonically, whatever the wire literal was. For
every payload on which `UnmarshalJSON` succeeds with the value `f`, leading
zeros or a `+` in its strings included, `MarshalJSON(f)` writes the
canonical rendering of the three fields, decoding it gives `f` again on any
receiver, and encoding what was decoded gives the same bytes. -/
theorem FrozenBalance.reencode_canonical (f0 f : FrozenBalance) (p : String)
    (h : f0.UnmarshalJSON p = (f, none)) :
    f.MarshalJSON = ("\x7b\"deposits\":\"" ++ Itoa f.Deposits ++ "\",\"fees\":\"" ++
      Itoa f.Fees ++ "\",\"rewards\":\"" ++ Itoa f.Rewards ++ "\"\x7d", none) ∧
    CanonicalDecimal (Itoa f.Deposits) f.Deposits ∧ CanonicalDecimal (Itoa f.Fees) f.Fees ∧
    CanonicalDecimal (Itoa f.Rewards) f.Rewards ∧
    (∀ f1 : FrozenBalance, f1.UnmarshalJSON f.MarshalJSON.1 = (f, none)) ∧
    (∀ f1 : FrozenBalance, (f1.UnmarshalJSON f.MarshalJSON.1).1.MarshalJSON = f.MarshalJSON) := by
  obtain ⟨hh, -, hall⟩ := UnmarshalJSON_ok_value f0 f p h
  have hd := Atoi_ok_range _ _ (hall .Deposits)
  have hf := Atoi_ok_range _ _ (hall .Fees)
  have hr := Atoi_ok_range _ _ (hall .Rewards)
  have hback : ∀ f1 : FrozenBalance, f1.UnmarshalJSON f.MarshalJSON.1 = (f, none) :=
    fun f1 => UnmarshalJSON_MarshalJSON_int64 f f1 hd hf hr
  refine ⟨MarshalJSON_bytes f, Itoa_canonical _, Itoa_canonical _, Itoa_canonical _, hback,
    fun f1 => ?_⟩
  rw [hback f1]

/-- Witness of C25: the strings "007", "+5" and "-0" are decoded to 7, 5 and 0
and encoded as "7", "5" and "0". -/
theorem FrozenBalance.reencode_canonical_witness :
    FrozenBalance.UnmarshalJSON ⟨1, 2, 3⟩
      "\x7b\"deposits\":\"007\",\"fees\":\"+5\",\"rewards\":\"-0\"\x7d" = (⟨7, 5, 0⟩, none) ∧
    (FrozenBalance.MarshalJSON ⟨7, 5, 0⟩).1 =
      "\x7b\"deposits\":\"7\",\"fees\":\"5\",\"rewards\":\"0\"\x7d" ∧
    FrozenBalance.UnmarshalJSON ⟨1, 2, 3⟩ (FrozenBalance.MarshalJSON ⟨7, 5, 0⟩).1 =
      (⟨7, 5, 0⟩, none) ∧
    (FrozenBalance.UnmarshalJSON ⟨1, 2, 3⟩
      (FrozenBalance.MarshalJSON ⟨7, 5, 0⟩).1).1.MarshalJSON =
      FrozenBalance.MarshalJSON ⟨7, 5, 0⟩ :=
  have h := FrozenBalance.reencode_canonical ⟨1, 2, 3⟩ ⟨7, 5, 0⟩
    "\x7b\"deposits\":\"007\",\"fees\":\"+5\",\"rewards\":\"-0\"\x7d" rfl
  ⟨rfl, by decide, h.2.2.2.2.1 ⟨1, 2, 3⟩, h.2.2.2.2.2 ⟨1, 2, 3⟩⟩

/-! ## The cycle descriptor is fetched on every resolution -/

/-- One resolution of a cycle other than zero: the descriptor is fetched
once, and the result is made of the answer to that fetch. -/
theorem extractBlockHash_of_cycle (c : Client) (C : Int) (H : String) (tr : List Call)
    (hC : C ≠ 0) :
    c.extractBlockHash C H tr = (resolved C (c.cycleResp tr C), tr ++ [.Cycle C]) := by
  unfold Client.extractBlockHash Client.Cycle resolved
  rw [if_pos hC]
  cases c.cycleResp tr C <;> rfl

/-- C27: the cycle descriptor is fetched afresh on every resolution. Each
call `extractBlockHash(C, H)` with `C != 0` adds exactly one fetch of `C`
to the trace, so `k` successive resolutions add `k` fetches, and the i-th
returns what the answer to its own fetch holds. -/
theorem resolveTimes_fresh (c : Client) (C : Int) (H : String) (hC : C ≠ 0) (k : Nat)
    (tr : List Call) :
    (c.extractBlockHash C H tr).2 = tr ++ [.Cycle C] ∧
    (resolveTimes c C H k tr).2 = tr ++ List.replicate k (.Cycle C) ∧
    (resolveTimes c C H k tr).1 = (List.range k).map fun i =>
      resolved C (c.cycleResp (tr ++ List.replicate i (.Cycle C)) C) := by
  refine ⟨by rw [extractBlockHash_of_cycle c C H tr hC], ?_⟩
  induction k generalizing tr with
  | zero => simp [resolveTimes]
  | succ k ih =>
    obtain ⟨h1, h2⟩ := ih (tr ++ [.Cycle C])
    simp only [resolveTimes, extractBlockHash_of_cycle c C H tr hC]
    constructor
    · rw [h1, List.replicate_succ, List.append_assoc]
      rfl
    · rw [h2, List.range_succ_eq_map, List.map_cons, List.map_map]
      simp [List.replicate_succ]

/-- Witness of C27: on a node whose snapshot block moves, two resolutions of
cycle 5 fetch twice and return the two different hashes. -/
theorem resolveTimes_fresh_witness :
    (5 : Int) ≠ 0 ∧
    (movingClient.extractBlockHash 5 "" []).2 = [] ++ [.Cycle 5] ∧
    (resolveTimes movingClient 5 "" 2 []).2 = [] ++ List.replicate 2 (.Cycle 5) ∧
    (resolveTimes movingClient 5 "" 2 []).1 = (List.range 2).map (fun i =>
      resolved 5 (movingClient.cycleResp ([] ++ List.replicate i (.Cycle 5)) 5)) ∧
    resolveTimes movingClient 5 "" 2 [] =
      ([("BL0", none), ("BL1", none)], [.Cycle 5, .Cycle 5]) :=
  have h := resolveTimes_fresh movingClient 5 "" (by decide) 2 []
  ⟨by decide, h.1, h.2.1, h.2.2, by decide⟩

/-! ## The two option encoders side by side -/

/-- C31: the two option encoders agree on the fields they share. For every
`BlockHash`, `Level`, `Cycle` and `Delegate` the endorsing encoder returns
what the baking encoder returns with `MaxPriority = 0`; for every
`MaxPriority` the baking result is the endorsing result followed by the
option ("max_priority", itoa MaxPriority) when `MaxPriority` is not zero
and by nothing when it is zero. -/
theorem encoders_agree (BlockHash Delegate : String) (Level Cycle MaxPriority : Int) :
    EndorsingRightsInput.contructRPCOptions ⟨BlockHash, Level, Cycle, Delegate⟩ =
      BakingRightsInput.contructRPCOptions ⟨BlockHash, Level, Cycle, Delegate, 0⟩ ∧
    BakingRightsInput.contructRPCOptions ⟨BlockHash, Level, Cycle, Delegate, MaxPriority⟩ =
      EndorsingRightsInput.contructRPCOptions ⟨BlockHash, Level, Cycle, Delegate⟩ ++
        (if MaxPriority ≠ 0 then [⟨"max_priority", Itoa MaxPriority⟩] else []) ∧
    (MaxPriority ≠ 0 →
      BakingRightsInput.contructRPCOptions ⟨BlockHash, Level, Cycle, Delegate, MaxPriority⟩ =
        EndorsingRightsInput.contructRPCOptions ⟨BlockHash, Level, Cycle, Delegate⟩ ++
          [⟨"max_priority", Itoa MaxPriority⟩]) := by
  unfold BakingRightsInput.contructRPCOptions EndorsingRightsInput.contructRPCOptions
  refine ⟨by simp, ?_, fun hm => ?_⟩
  · by_cases hm : MaxPriority = 0 <;> simp [hm]
  · simp [hm]

/-- Witness of C31: all four optional fields set, with a priority of 3. -/
theorem encoders_agree_witness :
    (3 : Int) ≠ 0 ∧
    EndorsingRightsInput.contructRPCOptions ⟨"BLhash", 7, 100, "tz1abc"⟩ =
      BakingRightsInput.contructRPCOptions ⟨"BLhash", 7, 100, "tz1abc", 0⟩ ∧
    BakingRightsInput.contructRPCOptions ⟨"BLhash", 7, 100, "tz1abc", 3⟩ =
      EndorsingRightsInput.contructRPCOptions ⟨"BLhash", 7, 100, "tz1abc"⟩ ++
        [⟨"max_priority", Itoa 3⟩] ∧
    BakingRightsInput.contructRPCOptions ⟨"BLhash", 7, 100, "tz1abc", 3⟩ =
      [⟨"cycle", "100"⟩, ⟨"delegate", "tz1abc"⟩, ⟨"level", "7"⟩, ⟨"max_priority", "3"⟩] :=
  have h := encoders_agree "BLhash" "tz1abc" 7 100 3
  ⟨by decide, h.1, h.2.2 (by decide), by decide⟩

/-- C32: for every input of either encoder the keys of the returned options
are pairwise distinct and drawn from "cycle", "delegate", "level" and
"max_priority" (from the first three for endorsing rights), so that at most
4 options (3 for endorsing rights) are returned; each option is the entry
of its key made of `Cycle`, `Delegate`, `Level` or `MaxPriority`, none is
made of `BlockHash`; and the result is the same whatever `BlockHash`
holds. -/
theorem optionKeys_distinct :
    (∀ b : BakingRightsInput,
      (optionKeys b.contructRPCOptions).Nodup ∧
      (∀ k ∈ optionKeys b.contructRPCOptions,
        k ∈ ["cycle", "delegate", "level", "max_priority"]) ∧
      b.contructRPCOptions.length ≤ 4 ∧
      (∀ o ∈ b.contructRPCOptions,
        o ∈ [(⟨"cycle", Itoa b.Cycle⟩ : rpcOptions), ⟨"delegate", b.Delegate⟩,
          ⟨"level", Itoa b.Level⟩, ⟨"max_priority", Itoa b.MaxPriority⟩]) ∧
      ∀ H : String,
        BakingRightsInput.contructRPCOptions ⟨H, b.Level, b.Cycle, b.Delegate, b.MaxPriority⟩ =
          b.contructRPCOptions) ∧
    (∀ b : EndorsingRightsInput,
      (optionKeys b.contructRPCOptions).Nodup ∧
      (∀ k ∈ optionKeys b.contructRPCOptions, k ∈ ["cycle", "delegate", "level"]) ∧
      b.contructRPCOptions.length ≤ 3 ∧
      (∀ o ∈ b.contructRPCOptions,
        o ∈ [(⟨"cycle", Itoa b.Cycle⟩ : rpcOptions), ⟨"delegate", b.Delegate⟩,
          ⟨"level", Itoa b.Level⟩]) ∧
      ∀ H : String,
        EndorsingRightsInput.contructRPCOptions ⟨H, b.Level, b.Cycle, b.Delegate⟩ =
          b.contructRPCOptions) := by
  have h4 : (["cycle", "delegate", "level", "max_priority"] : List String).Nodup := by decide
  have h3 : (["cycle", "delegate", "level"] : List String).Nodup := by decide
  refine ⟨fun b => ⟨h4.sublist (bakingKeys_sublist b),
      fun k hk => (bakingKeys_sublist b).subset hk, ?_, ?_, fun H => rfl⟩,
    fun b => ⟨h3.sublist (endorsingKeys_sublist b),
      fun k hk => (endorsingKeys_sublist b).subset hk, ?_, ?_, fun H => rfl⟩⟩
  · have h := (bakingKeys_sublist b).length_le
    simpa [optionKeys] using h
  · rw [BakingRightsInput.contructRPCOptions_eq]
    intro o ho
    exact ((List.filter_sublist _).map Prod.snd).subset ho
  · have h := (endorsingKeys_sublist b).length_le
    simpa [optionKeys] using h
  · unfold EndorsingRightsInput.contructRPCOptions
    by_cases hc : b.Cycle = 0 <;> by_cases hd : b.Delegate = "" <;>
      by_cases hl : b.Level = 0 <;> simp [hc, hd, hl]

/-! ## The round trip over all of `int` -/

/-- C35: the round trip of the codec holds for every 64-bit signed integer.
For every `FrozenBalance` whose `Deposits`, `Fees` and `Rewards` lie in
`[-2^63, 2^63-1]`, negative values and `-2^63` included, `MarshalJSON`
succeeds and `UnmarshalJSON` applied to its output succeeds, on any
receiver, and reproduces all three fields. -/
theorem FrozenBalance.roundtrip_int64 (f f0 : FrozenBalance)
    (hd : -(2 ^ 63) ≤ f.Deposits ∧ f.Deposits ≤ 2 ^ 63 - 1)
    (hf : -(2 ^ 63) ≤ f.Fees ∧ f.Fees ≤ 2 ^ 63 - 1)
    (hr : -(2 ^ 63) ≤ f.Rewards ∧ f.Rewards ≤ 2 ^ 63 - 1) :
    f.MarshalJSON.2 = none ∧ (f0.UnmarshalJSON f.MarshalJSON.1).2 = none ∧
      (f0.UnmarshalJSON f.MarshalJSON.1).1.Deposits = f.Deposits ∧
      (f0.UnmarshalJSON f.MarshalJSON.1).1.Fees = f.Fees ∧
      (f0.UnmarshalJSON f.MarshalJSON.1).1.Rewards = f.Rewards := by
  have h := UnmarshalJSON_MarshalJSON_int64 f f0 ⟨hd.1, by omega⟩ ⟨hf.1, by omega⟩
    ⟨hr.1, by omega⟩
  rw [h]
  exact ⟨rfl, rfl, rfl, rfl, rfl⟩

/-- Witness of C35: the smallest `int`, -1 and the largest `int`. -/
theorem FrozenBalance.roundtrip_int64_witness :
    (-(2 ^ 63) ≤ (-9223372036854775808 : Int) ∧ (-9223372036854775808 : Int) ≤ 2 ^ 63 - 1) ∧
    (-(2 ^ 63) ≤ (-1 : Int) ∧ (-1 : Int) ≤ 2 ^ 63 - 1) ∧
    (FrozenBalance.MarshalJSON ⟨-9223372036854775808, -1, 9223372036854775807⟩).1 =
      "\x7b\"deposits\":\"-9223372036854775808\",\"fees\":\"-1\"," ++
        "\"rewards\":\"9223372036854775807\"\x7d" ∧
    (FrozenBalance.MarshalJSON ⟨-9223372036854775808, -1, 9223372036854775807⟩).2 = none ∧
    (FrozenBalance.UnmarshalJSON ⟨1, 2, 3⟩
      (FrozenBalance.MarshalJSON ⟨-9223372036854775808, -1, 9223372036854775807⟩).1).2 =
        none ∧
    (FrozenBalance.UnmarshalJSON ⟨1, 2, 3⟩
      (FrozenBalance.MarshalJSON ⟨-9223372036854775808, -1, 9223372036854775807⟩).1).1.Deposits =
        -9223372036854775808 ∧
    (FrozenBalance.UnmarshalJSON ⟨1, 2, 3⟩
      (FrozenBalance.MarshalJSON ⟨-9223372036854775808, -1, 9223372036854775807⟩).1).1.Fees =
        -1 ∧
    (FrozenBalance.UnmarshalJSON ⟨1, 2, 3⟩
      (FrozenBalance.MarshalJSON ⟨-9223372036854775808, -1, 9223372036854775807⟩).1).1.Rewards =
        9223372036854775807 :=
  ⟨by decide, by decide, by decide,
    FrozenBalance.roundtrip_int64 ⟨-9223372036854775808, -1, 9223372036854775807⟩ ⟨1, 2, 3⟩
      (by decide) (by decide) (by decide)⟩

/-! ## What a call of `UnmarshalJSON` leaves in the receiver -/

/-- A member whose value, when matched to a field, is a string or `null`
raises no error. -/
theorem decodeMember_ok (st : FrozenBalanceHelper × Option GoError) (m : String × JSON)
    (h : st.2 = none)
    (hm : ∀ f, findField m.1 = some f → m.2 = .null ∨ ∃ s, m.2 = .str s) :
    (decodeMember st m).2 = none := by
  unfold decodeMember
  cases hg : findField m.1 with
  | none => simpa using h
  | some g =>
    rcases hm g hg with h1 | ⟨s, h1⟩ <;> rw [h1] <;> simpa using h

/-- The decoder ends without an error when every value matched to a field is
a string or `null`. -/
theorem foldl_decodeMember_ok (members : List (String × JSON))
    (st : FrozenBalanceHelper × Option GoError) (h : st.2 = none)
    (hall : ∀ f, ∀ v ∈ fieldValues f members, v = .null ∨ ∃ s, v = .str s) :
    (members.foldl decodeMember st).2 = none := by
  induction members generalizing st with
  | nil => exact h
  | cons m ms ih =>
    rw [List.foldl_cons]
    refine ih _ (decodeMember_ok st m h fun f hf => ?_) fun f v hv => ?_
    · exact hall f m.2 (by rw [fieldValues_cons, if_pos hf]; exact List.mem_cons_self _ _)
    · refine hall f v ?_
      rw [fieldValues_cons]
      split
      · exact List.mem_cons_of_mem _ hv
      · exact hv

/-- The payloads `json.Unmarshal` rejects for the helper are those of
`HelperRejects`, whatever the helper holds. -/
theorem HelperRejects_iff (data : String) (h : FrozenBalanceHelper) :
    HelperRejects data ↔ (unmarshalHelper data h).2 ≠ none := by
  unfold HelperRejects unmarshalHelper
  constructor
  · rintro (⟨e, he⟩ | ⟨v, hv, hn, ho⟩ | ⟨members, fld, v, hp, hv, hn, hs⟩)
    · rw [he]; simp
    · rw [hv]
      cases v with
      | null => exact absurd rfl hn
      | obj members => exact absurd rfl (ho members)
      | bool b => simp [decodeHelper]
      | num lit => simp [decodeHelper]
      | str s => simp [decodeHelper]
      | arr elems => simp [decodeHelper]
    · rw [hp]
      intro hnone
      have hfold : (members.foldl decodeMember (h, none)).2 = none := hnone
      rcases (foldl_decodeMember_err members _ hfold).2 fld v hv with h1 | ⟨s, h1⟩
      · exact hn h1
      · exact hs s h1
  · intro hne
    cases hp : parseJSON data with
    | error e => exact Or.inl ⟨e, rfl⟩
    | ok v =>
      rw [hp] at hne
      cases v with
      | null => exact absurd rfl hne
      | obj members =>
        right; right
        by_contra hcon
        push_neg at hcon
        refine hne (foldl_decodeMember_ok members (h, none) rfl fun f v hv => ?_)
        by_cases hn : v = .null
        · exact Or.inl hn
        · exact Or.inr (hcon members f v rfl hv hn)
      | bool b => exact Or.inr (Or.inl ⟨_, rfl, by simp, by simp⟩)
      | num lit => exact Or.inr (Or.inl ⟨_, rfl, by simp, by simp⟩)
      | str s => exact Or.inr (Or.inl ⟨_, rfl, by simp, by simp⟩)
      | arr elems => exact Or.inr (Or.inl ⟨_, rfl, by simp, by simp⟩)

/-- Counterexample to C33 as stated: a payload that is not a JSON object of
strings, its fees being `null`, and whose deposits are valid. The decoder
accepts `null` for a string and leaves the fees empty, the call fails at the
fees, and the receiver's `Deposits` has been overwritten. -/
theorem FrozenBalance.UnmarshalJSON_null_fees :
    parseJSON "\x7b\"deposits\":\"1\",\"fees\":null,\"rewards\":\"2\"\x7d" =
      .ok (.obj [("deposits", .str "1"), ("fees", .null), ("rewards", .str "2")]) ∧
    unmarshalHelper "\x7b\"deposits\":\"1\",\"fees\":null,\"rewards\":\"2\"\x7d"
      ⟨"", "", ""⟩ = (⟨"1", "", "2"⟩, none) ∧
    Atoi "1" = (1, none) ∧
    FrozenBalance.UnmarshalJSON ⟨7, 8, 9⟩
      "\x7b\"deposits\":\"1\",\"fees\":null,\"rewards\":\"2\"\x7d" =
        (⟨1, 8, 9⟩, some (.NumError "Atoi" "" .ErrSyn)) ∧
    (FrozenBalance.UnmarshalJSON ⟨7, 8, 9⟩
      "\x7b\"deposits\":\"1\",\"fees\":null,\"rewards\":\"2\"\x7d").1 ≠ ⟨7, 8, 9⟩ :=
  ⟨rfl, rfl, rfl, rfl, by decide⟩

/-- C33, amended: `UnmarshalJSON` is not atomic. The fields are converted and
assigned in the order deposits, fees, rewards: there is a payload (valid
deposits, fees "abc") and a receiver for which the call returns a non-nil
error with `Deposits` overwritten and `Fees` and `Rewards` as before. For
every receiver and payload: when `json.Unmarshal` rejects the payload (it is
not well-formed JSON, is neither an object nor `null`, or gives one of the
three fields a value that is neither a string nor `null`), or when the
string of the deposits is the one `Atoi` refuses, the call fails and the
receiver is unchanged; when the deposits are converted and the fees are
refused, only `Deposits` is overwritten; when deposits and fees are
converted and the rewards are refused, `Deposits` and `Fees` are. -/
theorem FrozenBalance.UnmarshalJSON_not_atomic (f0 : FrozenBalance) (data : String) :
    (∃ (f1 : FrozenBalance) (p : String), (f1.UnmarshalJSON p).2 ≠ none ∧
      (f1.UnmarshalJSON p).1.Deposits ≠ f1.Deposits ∧
      (f1.UnmarshalJSON p).1.Fees = f1.Fees ∧ (f1.UnmarshalJSON p).1.Rewards = f1.Rewards) ∧
    (HelperRejects data → (f0.UnmarshalJSON data).2 ≠ none ∧ (f0.UnmarshalJSON data).1 = f0) ∧
    (∀ hh, unmarshalHelper data ⟨"", "", ""⟩ = (hh, none) →
      ((Atoi hh.Deposits).2 ≠ none →
        (f0.UnmarshalJSON data).2 ≠ none ∧ (f0.UnmarshalJSON data).1 = f0) ∧
      (∀ d, Atoi hh.Deposits = (d, none) → (Atoi hh.Fees).2 ≠ none →
        (f0.UnmarshalJSON data).2 ≠ none ∧
          (f0.UnmarshalJSON data).1 = ⟨d, f0.Fees, f0.Rewards⟩) ∧
      (∀ d e, Atoi hh.Deposits = (d, none) → Atoi hh.Fees = (e, none) →
        (Atoi hh.Rewards).2 ≠ none →
        (f0.UnmarshalJSON data).2 ≠ none ∧
          (f0.UnmarshalJSON data).1 = ⟨d, e, f0.Rewards⟩)) := by
  refine ⟨⟨⟨7, 8, 9⟩, "\x7b\"deposits\":\"1\",\"fees\":\"abc\",\"rewards\":\"2\"\x7d",
    by decide, by decide, by decide, by decide⟩, fun hrej => ?_, fun hh hu => ⟨fun hA => ?_,
    fun d hA hB => ?_, fun d e hA hB hC => ?_⟩⟩
  · have hne := (HelperRejects_iff data ⟨"", "", ""⟩).mp hrej
    rcases hu : unmarshalHelper data ⟨"", "", ""⟩ with ⟨hh, _ | err⟩
    · rw [hu] at hne; exact absurd rfl hne
    · simp [FrozenBalance.UnmarshalJSON, hu]
  · rcases hA' : Atoi hh.Deposits with ⟨a, _ | err⟩
    · rw [hA'] at hA; exact absurd rfl hA
    · simp [FrozenBalance.UnmarshalJSON, hu, hA']
  · rcases hB' : Atoi hh.Fees with ⟨b, _ | err⟩
    · rw [hB'] at hB; exact absurd rfl hB
    · simp [FrozenBalance.UnmarshalJSON, hu, hA, hB']
  · rcases hC' : Atoi hh.Rewards with ⟨c, _ | err⟩
    · rw [hC'] at hC; exact absurd rfl hC
    · simp [FrozenBalance.UnmarshalJSON, hu, hA, hB, hC']

/-- Witness of C33, amended: on the receiver (7, 8, 9), fees of "abc" leave
(1, 8, 9), deposits of "abc" leave (7, 8, 9), and so do a payload that is an
array and one whose fees are a JSON number. -/
theorem FrozenBalance.UnmarshalJSON_not_atomic_witness :
    (FrozenBalance.UnmarshalJSON ⟨7, 8, 9⟩
      "\x7b\"deposits\":\"1\",\"fees\":\"abc\",\"rewards\":\"2\"\x7d").2 ≠ none ∧
    (FrozenBalance.UnmarshalJSON ⟨7, 8, 9⟩
      "\x7b\"deposits\":\"1\",\"fees\":\"abc\",\"rewards\":\"2\"\x7d").1 = ⟨1, 8, 9⟩ ∧
    (FrozenBalance.UnmarshalJSON ⟨7, 8, 9⟩
      "\x7b\"deposits\":\"abc\",\"fees\":\"1\",\"rewards\":\"2\"\x7d").2 ≠ none ∧
    (FrozenBalance.UnmarshalJSON ⟨7, 8, 9⟩
      "\x7b\"deposits\":\"abc\",\"fees\":\"1\",\"rewards\":\"2\"\x7d").1 = ⟨7, 8, 9⟩ ∧
    HelperRejects "[\"1\",\"2\",\"3\"]" ∧
    (FrozenBalance.UnmarshalJSON ⟨7, 8, 9⟩ "[\"1\",\"2\",\"3\"]").2 ≠ none ∧
    (FrozenBalance.UnmarshalJSON ⟨7, 8, 9⟩ "[\"1\",\"2\",\"3\"]").1 = ⟨7, 8, 9⟩ ∧
    HelperRejects "\x7b\"deposits\":\"1\",\"fees\":2,\"rewards\":\"3\"\x7d" ∧
    (FrozenBalance.UnmarshalJSON ⟨7, 8, 9⟩
      "\x7b\"deposits\":\"1\",\"fees\":2,\"rewards\":\"3\"\x7d").2 ≠ none ∧
    (FrozenBalance.UnmarshalJSON ⟨7, 8, 9⟩
      "\x7b\"deposits\":\"1\",\"fees\":2,\"rewards\":\"3\"\x7d").1 = ⟨7, 8, 9⟩ :=
  have hfees := ((FrozenBalance.UnmarshalJSON_not_atomic ⟨7, 8, 9⟩
    "\x7b\"deposits\":\"1\",\"fees\":\"abc\",\"rewards\":\"2\"\x7d").2.2
      ⟨"1", "abc", "2"⟩ rfl).2.1 1 rfl (by decide)
  have hdep := ((FrozenBalance.UnmarshalJSON_not_atomic ⟨7, 8, 9⟩
    "\x7b\"deposits\":\"abc\",\"fees\":\"1\",\"rewards\":\"2\"\x7d").2.2
      ⟨"abc", "1", "2"⟩ rfl).1 (by decide)
  have harr : HelperRejects "[\"1\",\"2\",\"3\"]" :=
    Or.inr (Or.inl ⟨.arr [.str "1", .str "2", .str "3"], rfl, by simp, by simp⟩)
  have hnum : HelperRejects "\x7b\"deposits\":\"1\",\"fees\":2,\"rewards\":\"3\"\x7d" :=
    Or.inr (Or.inr ⟨[("deposits", .str "1"), ("fees", .num "2"), ("rewards", .str "3")],
      .Fees, .num "2", rfl, by simp [fieldValues, findField, HelperField.all,
        HelperField.name], by simp, by simp⟩)
  ⟨hfees.1, hfees.2, hdep.1, hdep.2, harr,
    ((FrozenBalance.UnmarshalJSON_not_atomic ⟨7, 8, 9⟩ _).2.1 harr).1,
    ((FrozenBalance.UnmarshalJSON_not_atomic ⟨7, 8, 9⟩ _).2.1 harr).2, hnum,
    ((FrozenBalance.UnmarshalJSON_not_atomic ⟨7, 8, 9⟩ _).2.1 hnum).1,
    ((FrozenBalance.UnmarshalJSON_not_atomic ⟨7, 8, 9⟩ _).2.1 hnum).2⟩

/-! ## What a successful `UnmarshalJSON` depends on -/

/-- The decoder goes through the matched members only: a member whose name
selects no field leaves the helper and the saved error as they are. -/
theorem foldl_decodeMember_matched (members : List (String × JSON))
    (st : FrozenBalanceHelper × Option GoError) :
    members.foldl decodeMember st = (matchedMembers members).foldl decodeMember st := by
  induction members generalizing st with
  | nil => rfl
  | cons m ms ih =>
    unfold matchedMembers
    cases hg : findField m.1 with
    | none =>
      have hskip : decodeMember st m = st := by simp [decodeMember, hg]
      rw [List.foldl_cons, hskip, List.filter_cons_of_neg (by simp [hg])]
      exact ih st
    | some g =>
      rw [List.foldl_cons, List.filter_cons_of_pos (by simp [hg]), List.foldl_cons]
      exact ih _

/-- Two payloads that fill the helper alike are decoded alike. -/
theorem UnmarshalJSON_congr (f : FrozenBalance) (p q : String)
    (h : unmarshalHelper q ⟨"", "", ""⟩ = unmarshalHelper p ⟨"", "", ""⟩) :
    f.UnmarshalJSON q = f.UnmarshalJSON p := by
  unfold FrozenBalance.UnmarshalJSON
  rw [h]

/-- A payload that one receiver decodes without an error is decoded by every
receiver, to the same value. -/
theorem UnmarshalJSON_receiver (f0 f1 : FrozenBalance) (p : String)
    (hok : (f0.UnmarshalJSON p).2 = none) : f1.UnmarshalJSON p = f0.UnmarshalJSON p := by
  unfold FrozenBalance.UnmarshalJSON at hok ⊢
  rcases hu : unmarshalHelper p ⟨"", "", ""⟩ with ⟨hh, _ | err⟩
  · rw [hu] at hok
    rcases hA : Atoi hh.Deposits with ⟨a, _ | err⟩
    · rcases hB : Atoi hh.Fees with ⟨b, _ | err⟩
      · rcases hC : Atoi hh.Rewards with ⟨c, _ | err⟩
        · simp [hA, hB, hC]
        · simp [hA, hB, hC] at hok
      · simp [hA, hB] at hok
    · simp [hA] at hok
  · rw [hu] at hok; simp at hok

/-- Counterexample to C34 as stated: a member named "DEPOSITS" is a field of
the payload other than deposits, fees and rewards, and adding it to a
payload that decodes to (10, 20, 30) makes the payload decode to
(5, 20, 30). Names are matched without regard to case when no field has
exactly the name, so the member is matched to the deposits, and being the
last one it gives the value. -/
theorem FrozenBalance.UnmarshalJSON_folded_member :
    FrozenBalance.UnmarshalJSON ⟨1, 2, 3⟩
      "\x7b\"deposits\":\"10\",\"fees\":\"20\",\"rewards\":\"30\"\x7d" =
        (⟨10, 20, 30⟩, none) ∧
    parseJSON ("\x7b\"deposits\":\"10\",\"fees\":\"20\",\"rewards\":\"30\"," ++
        "\"DEPOSITS\":\"5\"\x7d") =
      .ok (.obj [("deposits", .str "10"), ("fees", .str "20"), ("rewards", .str "30"),
        ("DEPOSITS", .str "5")]) ∧
    findField "DEPOSITS" = some .Deposits ∧
    FrozenBalance.UnmarshalJSON ⟨1, 2, 3⟩
      ("\x7b\"deposits\":\"10\",\"fees\":\"20\",\"rewards\":\"30\"," ++
        "\"DEPOSITS\":\"5\"\x7d") = (⟨5, 20, 30⟩, none) :=
  ⟨rfl, rfl, rfl, rfl⟩

/-- C34, amended: when `UnmarshalJSON` succeeds, `Deposits`, `Fees` and
`Rewards` are determined by the payload alone. Every other receiver decodes
the payload without an error to the same value; each of the three fields is
the integer `Atoi` makes of the last string among the members matched to
that field; and the members matched to no field do not influence the
result: a payload whose object has the same matched members in the same
order, whatever unmatched members it has and wherever they stand, is decoded
to the same value. A member is matched to a field by its name, exactly or
else without regard to case. -/
theorem FrozenBalance.UnmarshalJSON_payload_alone (f0 f1 : FrozenBalance) (p : String)
    (hok : (f0.UnmarshalJSON p).2 = none) :
    f1.UnmarshalJSON p = f0.UnmarshalJSON p ∧
    ∃ members, parseJSON p = .ok (.obj members) ∧
      (∀ fld : HelperField,
        Atoi ((lastString (fieldValues fld members)).getD "") =
          ((f0.UnmarshalJSON p).1.get fld, none)) ∧
      ∀ (q : String) (others : List (String × JSON)), parseJSON q = .ok (.obj others) →
        matchedMembers others = matchedMembers members →
        f1.UnmarshalJSON q = f0.UnmarshalJSON p := by
  have hrecv := UnmarshalJSON_receiver f0 f1 p hok
  refine ⟨hrecv, ?_⟩
  obtain ⟨members, hp, -⟩ := UnmarshalJSON_ok_members f0 p hok
  refine ⟨members, hp, fun fld => ?_, fun q others hq hsame => ?_⟩
  · obtain ⟨hh, hu, hall⟩ := UnmarshalJSON_ok_value f0 (f0.UnmarshalJSON p).1 p
      (Prod.ext rfl hok)
    rw [← unmarshalHelper_get p members hh fld hp hu]
    exact hall fld
  · rw [← hrecv]
    apply UnmarshalJSON_congr
    unfold unmarshalHelper decodeHelper
    rw [hp, hq]
    simp only []
    rw [foldl_decodeMember_matched others, foldl_decodeMember_matched members, hsame]

/-- Witness of C34, amended: the receivers (1, 2, 3) and (-4, 0, 99) decode a payload
with the members "note" and "level" among its fields, and the payload without
them, to (10, 20, 30). -/
theorem FrozenBalance.UnmarshalJSON_payload_alone_witness :
    FrozenBalance.UnmarshalJSON ⟨1, 2, 3⟩
      ("\x7b\"deposits\":\"10\",\"note\":[1,true],\"fees\":\"20\"," ++
        "\"rewards\":\"30\",\"level\":7\x7d") = (⟨10, 20, 30⟩, none) ∧
    FrozenBalance.UnmarshalJSON ⟨-4, 0, 99⟩
      ("\x7b\"deposits\":\"10\",\"note\":[1,true],\"fees\":\"20\"," ++
        "\"rewards\":\"30\",\"level\":7\x7d") = (⟨10, 20, 30⟩, none) ∧
    parseJSON "\x7b\"deposits\":\"10\",\"fees\":\"20\",\"rewards\":\"30\"\x7d" =
      .ok (.obj [("deposits", .str "10"), ("fees", .str "20"), ("rewards", .str "30")]) ∧
    FrozenBalance.UnmarshalJSON ⟨-4, 0, 99⟩
      "\x7b\"deposits\":\"10\",\"fees\":\"20\",\"rewards\":\"30\"\x7d" =
        (⟨10, 20, 30⟩, none) :=
  have h := FrozenBalance.UnmarshalJSON_payload_alone ⟨1, 2, 3⟩ ⟨-4, 0, 99⟩
    ("\x7b\"deposits\":\"10\",\"note\":[1,true],\"fees\":\"20\"," ++
      "\"rewards\":\"30\",\"level\":7\x7d") rfl
  have hv : FrozenBalance.UnmarshalJSON ⟨1, 2, 3⟩
      ("\x7b\"deposits\":\"10\",\"note\":[1,true],\"fees\":\"20\"," ++
        "\"rewards\":\"30\",\"level\":7\x7d") = (⟨10, 20, 30⟩, none) := rfl
  ⟨hv, h.1.trans hv, rfl, by
    obtain ⟨members, hp, -, hq⟩ := h.2
    have hm : members = [("deposits", .str "10"), ("note", .arr [.num "1", .bool true]),
        ("fees", .str "20"), ("rewards", .str "30"), ("level", .num "7")] := by
      have hp2 : parseJSON ("\x7b\"deposits\":\"10\",\"note\":[1,true],\"fees\":\"20\"," ++
          "\"rewards\":\"30\",\"level\":7\x7d") =
          .ok (.obj [("deposits", .str "10"), ("note", .arr [.num "1", .bool true]),
            ("fees", .str "20"), ("rewards", .str "30"), ("level", .num "7")]) := rfl
      rw [hp2] at hp
      injection hp with hp
      injection hp with hp
      exact hp.symm
    subst hm
    exact (hq "\x7b\"deposits\":\"10\",\"fees\":\"20\",\"rewards\":\"30\"\x7d"
      [("deposits", .str "10"), ("fees", .str "20"), ("rewards", .str "30")] rfl rfl).trans hv⟩

end GoTezos
